import Mathlib

/-
Verification of the depth-driven AIG algebraic rewriting engine
(include/mockturtle/algorithms/aig_algebraic_rewriting.hpp) against its
specification.

The rewriting engine itself is translated line by line from
aig_algebraic_rewriting.hpp.  The network substrate it runs on
(aig_network storage, create_and with structural hashing and trivial-case
folding, substitute_node with cleanup, and the depth view supplying
level / depth / critical-path data) is not part of the given sources;
those operations are modelled from the specification (spec.md sections 3,
4.1, 4.2, 4.3) as explicit functions on a concrete network datatype.

Machine integers (uint32_t node indices, levels, fanout counts) are
modelled as Nat; all level comparisons in the engine occur on the side
where the C++ unsigned subtraction does not wrap, matching the semantics
of the source.
-/

/-- A signal: a node index plus a complement (inversion) flag.
Modelled from the spec: "a signal is a (node, polarity) pair". -/
structure Sig where
  idx : Nat
  inv : Bool
deriving DecidableEq

/-- Complement a signal (the AIG edge inverter). -/
def negSig (s : Sig) : Sig := ⟨s.idx, !s.inv⟩

/-- Node kinds of an AIG: the constant node, primary inputs, and
two-input AND gates with ordered fan-in signals.
Modelled from the spec: "Kinds: constant, primary-input, and-gate.
An and-gate has exactly two ordered fan-in signals." -/
inductive Gate where
  | const : Gate
  | pi : Gate
  | andg : Sig → Sig → Gate
deriving DecidableEq

/-- The network: an arena of nodes (index 0 is the constant node), a
parallel list of dead flags, and the primary-output signal list.
Modelled from the spec data model (spec section 3). -/
structure Net where
  gates : List Gate
  deadL : List Bool
  pos : List Sig
deriving DecidableEq

/-- Number of node slots (dead nodes included), as size() does. -/
def nsize (g : Net) : Nat := g.gates.length

/-- The gate stored at index i; out-of-range reads the constant kind. -/
def gateAt (g : Net) (i : Nat) : Gate := g.gates.getD i Gate.const

/-- Dead flag of node i. -/
def isDead (g : Net) (i : Nat) : Bool := g.deadL.getD i false

/-- Whether node i is a (possibly dead) AND gate. -/
def isAnd (g : Net) (i : Nat) : Bool :=
  match gateAt g i with
  | Gate.andg _ _ => true
  | _ => false

/-- Whether node i is a primary input. -/
def isPiAt (g : Net) (i : Nat) : Bool :=
  match gateAt g i with
  | Gate.pi => true
  | _ => false

/-- Fan-in signals of node i in creation order (foreach_fanin order). -/
def faninList (g : Net) (i : Nat) : List Sig :=
  match gateAt g i with
  | Gate.andg f h => [f, h]
  | _ => []

/-- Fuel-bounded evaluation of the node function at index i under an
input assignment env (PIs read env at their own index).  On well-formed
(acyclic) networks the value is independent of the fuel once the fuel
exceeds the node level. -/
def evalF (g : Net) (env : Nat → Bool) : Nat → Nat → Bool
  | 0, _ => false
  | fuel+1, i =>
    match gateAt g i with
    | Gate.const => false
    | Gate.pi => env i
    | Gate.andg f h =>
        (xor f.inv (evalF g env fuel f.idx)) && (xor h.inv (evalF g env fuel h.idx))

/-- Node value with the canonical fuel. -/
def evalN (g : Net) (env : Nat → Bool) (i : Nat) : Bool :=
  evalF g env (nsize g + 1) i

/-- Signal value: node value xored with the complement flag. -/
def evalSig (g : Net) (env : Nat → Bool) (s : Sig) : Bool :=
  xor s.inv (evalN g env s.idx)

/-- The list of primary-output values (the Boolean functions computed at
the outputs, at one input assignment). -/
def outputVals (g : Net) (env : Nat → Bool) : List Bool :=
  g.pos.map (fun s => evalSig g env s)

/-- Fuel-bounded level: 0 for constants/PIs, 1 + max of fan-in levels for
AND gates.  Modelled from the spec: "level(n) = 0 for constants and
primary inputs, else 1 + max(level(fanin0), level(fanin1))". -/
def levelF (g : Net) : Nat → Nat → Nat
  | 0, _ => 0
  | fuel+1, i =>
    match gateAt g i with
    | Gate.andg f h => 1 + Nat.max (levelF g fuel f.idx) (levelF g fuel h.idx)
    | _ => 0

/-- Node level with the canonical fuel. -/
def levelN (g : Net) (i : Nat) : Nat := levelF g (nsize g + 1) i

/-- Whether node i drives some primary output. -/
def drivesPo (g : Net) (i : Nat) : Bool := g.pos.any (fun s => s.idx == i)

/-- Network depth: the maximum level among nodes driving an output.
Modelled from the spec: "depth() = max level among nodes driving any
output". -/
def depthN (g : Net) : Nat := (g.pos.map (fun s => levelN g s.idx)).foldr Nat.max 0

/-- Whether node i appears among the fan-ins of node m. -/
def hasFanin (g : Net) (m i : Nat) : Bool :=
  match gateAt g m with
  | Gate.andg f h => f.idx == i || h.idx == i
  | _ => false

/-- Fuel-bounded critical-path membership.  Modelled from the spec:
"is_on_critical_path(n): true iff some path from n to a primary output
has length exactly depth() - level(n)", expressed recursively: a node is
critical iff it drives an output at level depth(), or some live consumer
one level up is critical. -/
def critF (g : Net) : Nat → Nat → Bool
  | 0, _ => false
  | fuel+1, i =>
    (drivesPo g i && (levelN g i == depthN g)) ||
      (List.range (nsize g)).any (fun m =>
        !isDead g m && hasFanin g m i && (levelN g m == levelN g i + 1) && critF g fuel m)

/-- Critical-path membership with the canonical fuel. -/
def critN (g : Net) (i : Nat) : Bool := critF g (nsize g + 1) i

/-- Fuel-bounded fan-in reachability (reflexive): u reaches v through
fan-in edges.  The cone of u is the set of v it reaches. -/
def reachF (g : Net) : Nat → Nat → Nat → Bool
  | 0, _, _ => false
  | fuel+1, u, v =>
    (u == v) ||
      (match gateAt g u with
       | Gate.andg f h => reachF g fuel f.idx v || reachF g fuel h.idx v
       | _ => false)

/-- Reachability with the canonical fuel. -/
def reachN (g : Net) (u v : Nat) : Bool := reachF g (nsize g + 1) u v

/-- Number of occurrences of node i among the fan-ins of one gate. -/
def faninCount (gt : Gate) (i : Nat) : Nat :=
  match gt with
  | Gate.andg f h => (if f.idx = i then 1 else 0) + (if h.idx = i then 1 else 0)
  | _ => 0

/-- Fan-out size of node i: occurrences among live gates' fan-ins plus
occurrences in the primary-output list.  Modelled from the spec:
"fanout count (number of signal occurrences, across gates and outputs,
pointing at it with either polarity)" and the section 8 fanout
accounting invariant. -/
def fanoutSize (g : Net) (i : Nat) : Nat :=
  Finset.sum (Finset.range (nsize g))
    (fun m => if isDead g m then 0 else faninCount (gateAt g m) i)
  + g.pos.countP (fun s => s.idx = i)

/-- Canonical ordering of an AND gate's children: smaller index first,
as aig_network's create_and sorts its children before hashing. -/
def canonPair (f h : Sig) : Sig × Sig := if h.idx < f.idx then (h, f) else (f, h)

/-- Structural-hash lookup: the first live AND gate whose (canonically
ordered) children match. -/
def findGate (g : Net) (a b : Sig) : Option Nat :=
  (List.range (nsize g)).find?
    (fun i => !isDead g i && (gateAt g i == Gate.andg a b))

/-- Append a fresh live node. -/
def appendNode (g : Net) (gt : Gate) : Net :=
  { g with gates := g.gates ++ [gt], deadL := g.deadL ++ [false] }

/-- create_and.  Modelled from the spec (section 4.1) and the aig_network
contract: canonical child ordering, trivial-case folding
(AND(x,x)=x, AND(x,!x)=0, AND(x,0)=0, AND(x,1)=x), structural-hash
lookup among live gates, else allocation of a fresh gate; the returned
signal is uncomplemented unless produced by folding. -/
def createAnd (g : Net) (f0 h0 : Sig) : Net × Sig :=
  let p := canonPair f0 h0
  let a := p.1
  let b := p.2
  if a.idx = b.idx then
    (if a.inv = b.inv then (g, a) else (g, ⟨0, false⟩))
  else if a.idx = 0 then
    (if a.inv then (g, b) else (g, ⟨0, false⟩))
  else
    match findGate g a b with
    | some k => (g, ⟨k, false⟩)
    | none => (appendNode g (Gate.andg a b), ⟨nsize g, false⟩)

/-- create_nand: create_and with a complemented output edge. -/
def createNand (g : Net) (f0 h0 : Sig) : Net × Sig :=
  let r := createAnd g f0 h0
  (r.1, negSig r.2)

/-- Replace an edge to node n by signal s, composing polarity.
Modelled from the spec: "if the original edge referenced old_node
complemented, the replacement is !new_signal, else new_signal". -/
def replSig (n : Nat) (s : Sig) (t : Sig) : Sig :=
  if t.idx = n then ⟨s.idx, xor t.inv s.inv⟩ else t

/-- Rewire one gate record away from node n. -/
def rewireGate (n : Nat) (s : Sig) : Gate → Gate
  | Gate.andg f h => Gate.andg (replSig n s f) (replSig n s h)
  | gt => gt

/-- Rewire every fan-in edge and every primary output away from node n.
Modelled from the spec's substitute_node description (section 4.2). -/
def rewireAll (g : Net) (n : Nat) (s : Sig) : Net :=
  { g with gates := g.gates.map (rewireGate n s), pos := g.pos.map (replSig n s) }

/-- Mark node i dead. -/
def markDead (g : Net) (i : Nat) : Net := { g with deadL := g.deadL.set i true }

/-- take_out_node with cleanup cascade: mark the node dead, then retire
recursively any AND-gate fan-in whose fanout has dropped to 0.
Modelled from the spec: "cleanup then recursively retires old_node and,
transitively, any fan-in of a retired node whose own fanout has dropped
to 0". -/
def takeOut (g : Net) (i : Nat) : Nat → Net
  | 0 => g
  | fuel+1 =>
    let g1 := markDead g i
    match gateAt g1 i with
    | Gate.andg f h =>
        let g2 := if isAnd g1 f.idx && (fanoutSize g1 f.idx == 0)
                  then takeOut g1 f.idx fuel else g1
        if isAnd g2 h.idx && (fanoutSize g2 h.idx == 0)
        then takeOut g2 h.idx fuel else g2
    | _ => g1

/-- substitute_node: rewire all uses of n (gate fan-ins and outputs) to
signal s with polarity composition, then retire n and cascade.
Modelled from the spec's substitute_node description (section 4.2). -/
def substituteNode (g : Net) (n : Nat) (s : Sig) : Net :=
  let g1 := rewireAll g n s
  if isAnd g1 n && (fanoutSize g1 n == 0) then takeOut g1 n (nsize g1 + 1) else g1

/-- try_associativity, translated from aig_algebraic_rewriting.hpp lines
281-326.  Returns the (possibly rewritten) network and the replacement
signal when the rule fired. -/
def tryAssociativity (g : Net) (n : Nat) : Net × Option Sig :=
  if critN g n = false then (g, none) else
  match gateAt g n with
  | Gate.andg s0 s1 =>
    if isPiAt g s0.idx && isPiAt g s1.idx then (g, none) else
    let pq : Option (Sig × Sig) :=
      if levelN g s0.idx > levelN g s1.idx + 1 && !s0.inv then some (s1, s0)
      else if levelN g s1.idx > levelN g s0.idx + 1 && !s1.inv then some (s0, s1)
      else none
    match pq with
    | none => (g, none)
    | some (p, q) =>
      match gateAt g q.idx with
      | Gate.andg a0 a1 =>
        let ba : Option (Sig × Sig) :=
          if critN g a0.idx && !critN g a1.idx then some (a1, a0)
          else if critN g a1.idx && !critN g a0.idx then some (a0, a1)
          else none
        match ba with
        | none => (g, none)
        | some (b, a) =>
          let r1 := createAnd g p b
          let r2 := createAnd r1.1 r1.2 a
          (substituteNode r2.1 n r2.2, some r2.2)
      | _ => (g, none)
  | _ => (g, none)

/-- try_distributivity3lvBis, translated from aig_algebraic_rewriting.hpp
lines 328-408. -/
def tryDistributivity3lvBis (g : Net) (n : Nat) : Net × Option Sig :=
  match gateAt g n with
  | Gate.andg s0 s1 =>
    let zd := if levelN g s0.idx > levelN g s1.idx then (s0, s1) else (s1, s0)
    let z := zd.1
    let d := zd.2
    if !z.inv || (levelN g z.idx - levelN g d.idx ≤ 3) then (g, none) else
    match gateAt g z.idx with
    | Gate.andg t0 t1 =>
      let wc := if levelN g t0.idx > levelN g t1.idx then (t0, t1) else (t1, t0)
      let w := wc.1
      let c := wc.2
      if !w.inv || (levelN g w.idx - levelN g c.idx ≤ 0) then (g, none) else
      match gateAt g w.idx with
      | Gate.andg u0 u1 =>
        let ba := if levelN g u0.idx > levelN g u1.idx then (u0, u1) else (u1, u0)
        let b := ba.1
        let a := ba.2
        if levelN g b.idx - levelN g a.idx ≤ 0 then (g, none) else
        let r1 := createAnd g a d
        let r2 := createAnd r1.1 r1.2 b
        let r3 := createAnd r2.1 (negSig c) d
        let r4 := createAnd r3.1 (negSig r2.2) (negSig r3.2)
        (substituteNode r4.1 n (negSig r4.2), some (negSig r4.2))
      | _ => (g, none)
    | _ => (g, none)
  | _ => (g, none)

/-- The shared-operand alignment of try_distributivity (lines 433-445):
the four node-identity pairings are tested in order and the operand
lists are swapped so the shared operand comes first on both sides. -/
def alignShared (a0 a1 b0 b1 : Sig) : Option ((Sig × Sig) × (Sig × Sig)) :=
  if a0.idx = b0.idx then some ((a0, a1), (b0, b1))
  else if a0.idx = b1.idx then some ((a0, a1), (b1, b0))
  else if a1.idx = b0.idx then some ((a1, a0), (b0, b1))
  else if a1.idx = b1.idx then some ((a1, a0), (b1, b0))
  else none

/-- try_distributivity, translated from aig_algebraic_rewriting.hpp lines
410-472. -/
def tryDistributivity (g : Net) (n : Nat) : Net × Option Sig :=
  match gateAt g n with
  | Gate.andg x y =>
    if !(fanoutSize g x.idx == 1) || !(fanoutSize g y.idx == 1) then (g, none) else
    match gateAt g x.idx, gateAt g y.idx with
    | Gate.andg a0 a1, Gate.andg b0 b1 =>
      match alignShared a0 a1 b0 b1 with
      | none => (g, none)
      | some ((sA0, sA1), (sB0, sB1)) =>
        if !(sA0.inv = sB0.inv) then (g, none) else
        if x.inv && y.inv then
          let r1 := createNand g (negSig sA1) (negSig sB1)
          let r2 := createAnd r1.1 sA0 r1.2
          (substituteNode r2.1 n (negSig r2.2), some (negSig r2.2))
        else
          let a1p := if x.inv then negSig sA1 else sA1
          let b1p := if y.inv then negSig sB1 else sB1
          let r1 := createAnd g a1p b1p
          let r2 := createAnd r1.1 sA0 r1.2
          (substituteNode r2.1 n r2.2, some r2.2)
    | _, _ => (g, none)
  | _ => (g, none)

/-- try_algebraic_rules: the three matchers in source order, first match
wins (lines 269-279). -/
def tryAlgebraicRules (g : Net) (n : Nat) : Net × Option Sig :=
  match tryAssociativity g n with
  | (g1, some s) => (g1, some s)
  | _ =>
    match tryDistributivity g n with
    | (g2, some s) => (g2, some s)
    | _ => tryDistributivity3lvBis g n

/-- One pass of foreach_gate over the index range [0, N) fixed at scan
start, visiting live AND gates in the current network, exactly as the
run() loop body does; the Boolean accumulates whether any rule fired. -/
def scanGo (N : Nat) : Net → Bool → Nat → Net × Bool
  | g, found, 0 => (g, found)
  | g, found, j+1 =>
    let i := N - (j+1)
    if isDead g i || !isAnd g i then scanGo N g found j
    else
      match tryAlgebraicRules g i with
      | (g1, some _) => scanGo N g1 true j
      | (g1, none) => scanGo N g1 found j

/-- One full scan of the gate list (one iteration of run()'s while loop). -/
def scanOnce (g : Net) : Net × Bool := scanGo (nsize g) g false (nsize g)

/-- The run() fixpoint loop (lines 249-261), with an explicit bound on
the number of scans. -/
def runLoop (g : Net) : Nat → Net
  | 0 => g
  | fuel+1 =>
    let r := scanOnce g
    if r.2 then runLoop r.1 fuel else r.1

/-- The termination measure: sum of 3^level over live AND gates. -/
def phiW (g : Net) (i : Nat) : Nat :=
  if isDead g i then 0 else
  match gateAt g i with
  | Gate.andg _ _ => 3 ^ levelN g i
  | _ => 0

/-- Total potential of a network. -/
def phi (g : Net) : Nat := Finset.sum (Finset.range (nsize g)) (phiW g)

/-- A rank function witnessing acyclicity: strictly increasing along
fan-in edges, read in the fan-out direction. -/
def rankOk (g : Net) (rho : Nat → Nat) : Prop :=
  ∀ i, i < nsize g → ∀ f h, gateAt g i = Gate.andg f h →
    rho f.idx < rho i ∧ rho h.idx < rho i

/-- Well-formedness invariant of a network state, as maintained by the
storage/substitution substrate. -/
structure NetInv (g : Net) : Prop where
  len : g.deadL.length = g.gates.length
  zero : gateAt g 0 = Gate.const
  zeroLive : isDead g 0 = false
  bounded : ∀ i, i < nsize g → ∀ f h, gateAt g i = Gate.andg f h →
    f.idx < nsize g ∧ h.idx < nsize g
  posB : ∀ s ∈ g.pos, s.idx < nsize g
  posLive : ∀ s ∈ g.pos, isDead g s.idx = false
  deadClosed : ∀ i, i < nsize g → isDead g i = false →
    ∀ f h, gateAt g i = Gate.andg f h →
    isDead g f.idx = false ∧ isDead g h.idx = false
  acyclic : ∃ rho, rankOk g rho

/-- Boundedness of fan-in indices, as a standalone hypothesis. -/
def faninBounded (g : Net) : Prop :=
  ∀ i, i < nsize g → ∀ f h, gateAt g i = Gate.andg f h →
    f.idx < nsize g ∧ h.idx < nsize g

/-- A bound on a candidate appended gate: its fan-ins point into g. -/
def gateBounded (g : Net) (gt : Gate) : Prop :=
  ∀ f h, gt = Gate.andg f h → f.idx < nsize g ∧ h.idx < nsize g

/-- The rank used for the rewired network: nodes outside the cone of the
replacement signal are shifted above it. -/
def subRank (g : Net) (s : Sig) (rho : Nat → Nat) (j : Nat) : Nat :=
  if reachN g s.idx j = true then rho j else rho j + (rho s.idx + 1)

/-- All primary outputs point at live nodes. -/
def posLiveP (g : Net) : Prop := ∀ s ∈ g.pos, isDead g s.idx = false

/-- Live gates have live fan-ins. -/
def deadClosedP (g : Net) : Prop :=
  ∀ j, j < nsize g → isDead g j = false → ∀ f h, gateAt g j = Gate.andg f h →
    isDead g f.idx = false ∧ isDead g h.idx = false

/-- The associativity rule's precondition, written from the spec's words:
n is on the critical path with two fan-ins not both primary inputs, one
fan-in q (after an optional swap) is uncomplemented and more than one
level deeper than the other p, and exactly one of q's fan-ins is on the
critical path. -/
def assocPre (g : Net) (n : Nat) : Prop :=
  critN g n = true ∧
  ∃ s0 s1, gateAt g n = Gate.andg s0 s1 ∧
    ¬(isPiAt g s0.idx = true ∧ isPiAt g s1.idx = true) ∧
    ∃ p q, ((p = s0 ∧ q = s1) ∨ (p = s1 ∧ q = s0)) ∧ q.inv = false ∧
      levelN g p.idx + 1 < levelN g q.idx ∧
      ∃ a0 a1, gateAt g q.idx = Gate.andg a0 a1 ∧
        ((critN g a0.idx = true ∧ critN g a1.idx = false) ∨
         (critN g a1.idx = true ∧ critN g a0.idx = false))

/-- The 3-level distributivity rule's precondition, written from the
spec's words: the deeper fan-in z is complemented and more than 3 levels
above d, z's deeper fan-in w is complemented and strictly above its
sibling c, and w's deeper fan-in b is strictly above its sibling a. -/
def dist3Pre (g : Net) (n : Nat) : Prop :=
  ∃ s0 s1 z d, gateAt g n = Gate.andg s0 s1 ∧
    ((z = s0 ∧ d = s1) ∨ (z = s1 ∧ d = s0)) ∧
    z.inv = true ∧ 3 < levelN g z.idx - levelN g d.idx ∧
    ∃ t0 t1 w c, gateAt g z.idx = Gate.andg t0 t1 ∧
      ((w = t0 ∧ c = t1) ∨ (w = t1 ∧ c = t0)) ∧
      w.inv = true ∧ 0 < levelN g w.idx - levelN g c.idx ∧
      ∃ u0 u1 b a, gateAt g w.idx = Gate.andg u0 u1 ∧
        ((b = u0 ∧ a = u1) ∨ (b = u1 ∧ a = u0)) ∧
        0 < levelN g b.idx - levelN g a.idx

/-- Executable check of rankOk for a concrete rank function. -/
def rankOkB (g : Net) (rho : Nat → Nat) : Bool :=
  (List.range (nsize g)).all (fun i =>
    match gateAt g i with
    | Gate.andg f h => decide (rho f.idx < rho i) && decide (rho h.idx < rho i)
    | _ => true)

/-- Executable check of the NetInv well-formedness invariant, given a
concrete rank function witnessing acyclicity. -/
def netInvB (g : Net) (rho : Nat → Nat) : Bool :=
  decide (g.deadL.length = g.gates.length) &&
  decide (gateAt g 0 = Gate.const) &&
  (!isDead g 0) &&
  (List.range (nsize g)).all (fun i =>
    match gateAt g i with
    | Gate.andg f h => decide (f.idx < nsize g) && decide (h.idx < nsize g)
    | _ => true) &&
  g.pos.all (fun s => decide (s.idx < nsize g)) &&
  g.pos.all (fun s => !isDead g s.idx) &&
  (List.range (nsize g)).all (fun i =>
    if isDead g i then true else
    match gateAt g i with
    | Gate.andg f h => (!isDead g f.idx) && (!isDead g h.idx)
    | _ => true) &&
  rankOkB g rho

/-- All-true input assignment, used for concrete evaluations. -/
def envT : Nat → Bool := fun _ => true

/-- Concrete net: node 6 = AND(4,5) over AND(1,3) and AND(2,3); the
2-level distributivity rule fires on node 6 without reducing its level. -/
def gW1 : Net :=
  ⟨[Gate.const, Gate.pi, Gate.pi, Gate.pi, Gate.andg ⟨1, false⟩ ⟨3, false⟩,
    Gate.andg ⟨2, false⟩ ⟨3, false⟩, Gate.andg ⟨4, false⟩ ⟨5, false⟩],
   [false, false, false, false, false, false, false], [⟨6, false⟩]⟩

/-- Concrete net: as gW1 but node 6 = AND(!4,5), a mixed-complementation
instance of the distributivity shape. -/
def gW2 : Net :=
  ⟨[Gate.const, Gate.pi, Gate.pi, Gate.pi, Gate.andg ⟨1, false⟩ ⟨3, false⟩,
    Gate.andg ⟨2, false⟩ ⟨3, false⟩, Gate.andg ⟨4, true⟩ ⟨5, false⟩],
   [false, false, false, false, false, false, false], [⟨6, false⟩]⟩

/-- Concrete net: node 5 = AND(3,4) over AND(1,2) and AND(!1,2); the
first node-identity pairing (node 1) has mismatched polarity while the
second (node 2) matches. -/
def gW3 : Net :=
  ⟨[Gate.const, Gate.pi, Gate.pi, Gate.andg ⟨1, false⟩ ⟨2, false⟩,
    Gate.andg ⟨1, true⟩ ⟨2, false⟩, Gate.andg ⟨3, false⟩ ⟨4, false⟩],
   [false, false, false, false, false, false], [⟨5, false⟩]⟩

/-- Concrete net: as gW1 but node 6 = AND(!4,!5), the both-complemented
distributivity shape. -/
def gW4 : Net :=
  ⟨[Gate.const, Gate.pi, Gate.pi, Gate.pi, Gate.andg ⟨1, false⟩ ⟨3, false⟩,
    Gate.andg ⟨2, false⟩ ⟨3, false⟩, Gate.andg ⟨4, true⟩ ⟨5, true⟩],
   [false, false, false, false, false, false, false], [⟨6, false⟩]⟩

/-- Concrete net: node 8 = AND(1, 7) with 7 = AND(AND(AND(1,2),3),4); the
associativity rule fires on node 8. -/
def gAx : Net :=
  ⟨[Gate.const, Gate.pi, Gate.pi, Gate.pi, Gate.pi,
    Gate.andg ⟨1, false⟩ ⟨2, false⟩, Gate.andg ⟨5, false⟩ ⟨3, false⟩,
    Gate.andg ⟨6, false⟩ ⟨4, false⟩, Gate.andg ⟨1, false⟩ ⟨7, false⟩],
   [false, false, false, false, false, false, false, false, false], [⟨8, false⟩]⟩

/-- Concrete net: node 9 = AND(!8, 1) with 8 = AND(!7, 3) and
7 = AND(AND(AND(1,2),3),4); the 3-level distributivity rule fires on
node 9. -/
def gTx : Net :=
  ⟨[Gate.const, Gate.pi, Gate.pi, Gate.pi, Gate.pi,
    Gate.andg ⟨1, false⟩ ⟨2, false⟩, Gate.andg ⟨5, false⟩ ⟨3, false⟩,
    Gate.andg ⟨6, false⟩ ⟨4, false⟩, Gate.andg ⟨7, true⟩ ⟨3, false⟩,
    Gate.andg ⟨8, true⟩ ⟨1, false⟩],
   [false, false, false, false, false, false, false, false, false, false],
   [⟨9, false⟩]⟩

/-! ## Basic structural lemmas -/

theorem natMaxLe {a b c : Nat} (h1 : a ≤ c) (h2 : b ≤ c) : Nat.max a b ≤ c :=
  sup_le h1 h2

theorem natMaxLeft (a b : Nat) : a ≤ Nat.max a b := le_sup_left

theorem natMaxRight (a b : Nat) : b ≤ Nat.max a b := le_sup_right

theorem natMaxCases (a b : Nat) : Nat.max a b = a ∨ Nat.max a b = b := by
  rcases le_total a b with h | h
  · right; exact sup_eq_right.mpr h
  · left; exact sup_eq_left.mpr h

theorem gateAt_lt_size {g : Net} {i : Nat} {f h : Sig}
    (hg : gateAt g i = Gate.andg f h) : i < nsize g := by
  by_contra hge
  push_neg at hge
  have : gateAt g i = Gate.const := by
    unfold gateAt
    exact List.getD_eq_default _ _ hge
  rw [this] at hg
  exact Gate.noConfusion hg

theorem levelF_nonand {g : Net} {i : Nat} (hg : ∀ f h, gateAt g i ≠ Gate.andg f h)
    (fuel : Nat) : levelF g fuel i = 0 := by
  cases fuel with
  | zero => rfl
  | succ k =>
    unfold levelF
    cases hgi : gateAt g i with
    | const => rfl
    | pi => rfl
    | andg f h => exact absurd hgi (hg f h)

theorem levelF_rank_stable {g : Net} {rho : Nat → Nat} (hr : rankOk g rho) :
    ∀ n i f1 f2, rho i ≤ n → rho i < f1 → rho i < f2 →
      levelF g f1 i = levelF g f2 i := by
  intro n
  induction n using Nat.strong_induction_on with
  | _ n ih =>
    intro i f1 f2 hn h1 h2
    obtain ⟨a, rfl⟩ : ∃ a, f1 = a + 1 := ⟨f1 - 1, by omega⟩
    obtain ⟨b, rfl⟩ : ∃ b, f2 = b + 1 := ⟨f2 - 1, by omega⟩
    cases hgi : gateAt g i with
    | const => simp only [levelF, hgi]
    | pi => simp only [levelF, hgi]
    | andg f h =>
      have hlt := gateAt_lt_size hgi
      obtain ⟨hf, hh⟩ := hr i hlt f h hgi
      have e1 : levelF g a f.idx = levelF g b f.idx :=
        ih (rho f.idx) (lt_of_lt_of_le hf hn) f.idx a b le_rfl (by omega) (by omega)
      have e2 : levelF g a h.idx = levelF g b h.idx :=
        ih (rho h.idx) (lt_of_lt_of_le hh hn) h.idx a b le_rfl (by omega) (by omega)
      simp only [levelF, hgi, e1, e2]

theorem levelF_le_card {g : Net} {rho : Nat → Nat} (hr : rankOk g rho)
    (hb : faninBounded g) :
    ∀ n i, rho i ≤ n →
      levelF g (rho i + 1) i ≤
        ((Finset.range (nsize g)).filter (fun j => rho j < rho i)).card := by
  intro n
  induction n using Nat.strong_induction_on with
  | _ n ih =>
    intro i hn
    cases hgi : gateAt g i with
    | const => simp only [levelF, hgi]; omega
    | pi => simp only [levelF, hgi]; omega
    | andg f h =>
      have hlt := gateAt_lt_size hgi
      obtain ⟨hf, hh⟩ := hr i hlt f h hgi
      obtain ⟨hbf, hbh⟩ := hb i hlt f h hgi
      have key : ∀ t : Sig, rho t.idx < rho i → t.idx < nsize g →
          levelF g (rho i) t.idx + 1 ≤
            ((Finset.range (nsize g)).filter (fun j => rho j < rho i)).card := by
        intro t hrt hbt
        have e1 : levelF g (rho i) t.idx = levelF g (rho t.idx + 1) t.idx :=
          levelF_rank_stable hr (rho t.idx) t.idx _ _ le_rfl (by omega) (by omega)
        have e2 := ih (rho t.idx) (lt_of_lt_of_le hrt hn) t.idx le_rfl
        have hni : t.idx ∉ (Finset.range (nsize g)).filter (fun j => rho j < rho t.idx) := by
          simp
        have hsub : insert t.idx ((Finset.range (nsize g)).filter (fun j => rho j < rho t.idx)) ⊆
            (Finset.range (nsize g)).filter (fun j => rho j < rho i) := by
          intro x hx
          rcases Finset.mem_insert.mp hx with rfl | hx2
          · exact Finset.mem_filter.mpr ⟨Finset.mem_range.mpr hbt, hrt⟩
          · obtain ⟨hx3, hx4⟩ := Finset.mem_filter.mp hx2
            exact Finset.mem_filter.mpr ⟨hx3, lt_trans hx4 hrt⟩
        have := Finset.card_le_card hsub
        rw [Finset.card_insert_of_not_mem hni] at this
        omega
      have k1 := key f hf hbf
      have k2 := key h hh hbh
      simp only [levelF, hgi]
      rcases natMaxCases (levelF g (rho i) f.idx) (levelF g (rho i) h.idx) with hc | hc <;>
        rw [hc] <;> omega

theorem levelF_value_stable {g : Net} {rho : Nat → Nat} (hr : rankOk g rho) :
    ∀ n i fuel, rho i ≤ n → levelF g (rho i + 1) i < fuel →
      levelF g fuel i = levelF g (rho i + 1) i := by
  intro n
  induction n using Nat.strong_induction_on with
  | _ n ih =>
    intro i fuel hn hfuel
    obtain ⟨a, rfl⟩ : ∃ a, fuel = a + 1 := ⟨fuel - 1, by omega⟩
    cases hgi : gateAt g i with
    | const => simp only [levelF, hgi]
    | pi => simp only [levelF, hgi]
    | andg f h =>
      have hlt := gateAt_lt_size hgi
      obtain ⟨hf, hh⟩ := hr i hlt f h hgi
      have hx : levelF g (rho i + 1) i =
          1 + Nat.max (levelF g (rho i) f.idx) (levelF g (rho i) h.idx) := by
        simp only [levelF, hgi]
      have key : ∀ t : Sig, rho t.idx < rho i →
          levelF g (rho i) t.idx < a →
          levelF g a t.idx = levelF g (rho i) t.idx := by
        intro t hrt hlt2
        have estab : levelF g (rho i) t.idx = levelF g (rho t.idx + 1) t.idx :=
          levelF_rank_stable hr (rho t.idx) t.idx _ _ le_rfl (by omega) (by omega)
        rw [estab]
        exact ih (rho t.idx) (lt_of_lt_of_le hrt hn) t.idx a le_rfl (by omega)
      have hmf : levelF g (rho i) f.idx < a := by
        have := natMaxLeft (levelF g (rho i) f.idx) (levelF g (rho i) h.idx)
        omega
      have hmh : levelF g (rho i) h.idx < a := by
        have := natMaxRight (levelF g (rho i) f.idx) (levelF g (rho i) h.idx)
        omega
      have e1 := key f hf hmf
      have e2 := key h hh hmh
      simp only [levelF, hgi, e1, e2]

theorem gateAt_oob {g : Net} {i : Nat} (hge : nsize g ≤ i) : gateAt g i = Gate.const :=
  List.getD_eq_default _ _ hge

theorem levelN_char {g : Net} {rho : Nat → Nat} (hr : rankOk g rho)
    (hb : faninBounded g) (i : Nat) : levelN g i = levelF g (rho i + 1) i := by
  rcases Nat.lt_or_ge i (nsize g) with hlt | hge
  · have hcard := levelF_le_card hr hb (rho i) i le_rfl
    have hle : ((Finset.range (nsize g)).filter (fun j => rho j < rho i)).card ≤ nsize g := by
      calc ((Finset.range (nsize g)).filter (fun j => rho j < rho i)).card
          ≤ (Finset.range (nsize g)).card := Finset.card_filter_le _ _
        _ = nsize g := Finset.card_range _
    exact levelF_value_stable hr (rho i) i (nsize g + 1) le_rfl (by omega)
  · have hc : ∀ f h, gateAt g i ≠ Gate.andg f h := by
      intro f h hco
      rw [gateAt_oob hge] at hco
      exact Gate.noConfusion hco
    unfold levelN
    rw [levelF_nonand hc, levelF_nonand hc]

theorem levelN_le_size {g : Net} {rho : Nat → Nat} (hr : rankOk g rho)
    (hb : faninBounded g) (i : Nat) : levelN g i ≤ nsize g := by
  rcases Nat.lt_or_ge i (nsize g) with hlt | hge
  · rw [levelN_char hr hb]
    have hcard := levelF_le_card hr hb (rho i) i le_rfl
    have hle : ((Finset.range (nsize g)).filter (fun j => rho j < rho i)).card ≤ nsize g := by
      calc ((Finset.range (nsize g)).filter (fun j => rho j < rho i)).card
          ≤ (Finset.range (nsize g)).card := Finset.card_filter_le _ _
        _ = nsize g := Finset.card_range _
    omega
  · have hc : ∀ f h, gateAt g i ≠ Gate.andg f h := by
      intro f h hco
      rw [gateAt_oob hge] at hco
      exact Gate.noConfusion hco
    unfold levelN
    rw [levelF_nonand hc]
    omega

theorem levelN_unfold {g : Net} {rho : Nat → Nat} (hr : rankOk g rho)
    (hb : faninBounded g) {i : Nat} {f h : Sig} (hgi : gateAt g i = Gate.andg f h) :
    levelN g i = 1 + Nat.max (levelN g f.idx) (levelN g h.idx) := by
  have hlt := gateAt_lt_size hgi
  obtain ⟨hf, hh⟩ := hr i hlt f h hgi
  rw [levelN_char hr hb i]
  have hx : levelF g (rho i + 1) i =
      1 + Nat.max (levelF g (rho i) f.idx) (levelF g (rho i) h.idx) := by
    simp only [levelF, hgi]
  rw [hx]
  have ef : levelF g (rho i) f.idx = levelN g f.idx := by
    rw [levelN_char hr hb]
    exact levelF_rank_stable hr (rho f.idx) f.idx _ _ le_rfl (by omega) (by omega)
  have eh : levelF g (rho i) h.idx = levelN g h.idx := by
    rw [levelN_char hr hb]
    exact levelF_rank_stable hr (rho h.idx) h.idx _ _ le_rfl (by omega) (by omega)
  rw [ef, eh]

theorem levelN_fanin_lt {g : Net} {rho : Nat → Nat} (hr : rankOk g rho)
    (hb : faninBounded g) {i : Nat} {f h : Sig} (hgi : gateAt g i = Gate.andg f h) :
    levelN g f.idx < levelN g i ∧ levelN g h.idx < levelN g i := by
  rw [levelN_unfold hr hb hgi]
  have h1 := natMaxLeft (levelN g f.idx) (levelN g h.idx)
  have h2 := natMaxRight (levelN g f.idx) (levelN g h.idx)
  omega

theorem evalF_nonand {g : Net} {env : Nat → Bool} {i : Nat}
    (hg : gateAt g i = Gate.const) (fuel : Nat) : evalF g env fuel i = false := by
  cases fuel with
  | zero => rfl
  | succ k => simp only [evalF, hg]

theorem evalF_rank_stable {g : Net} {env : Nat → Bool} {rho : Nat → Nat}
    (hr : rankOk g rho) :
    ∀ n i f1 f2, rho i ≤ n → rho i < f1 → rho i < f2 →
      evalF g env f1 i = evalF g env f2 i := by
  intro n
  induction n using Nat.strong_induction_on with
  | _ n ih =>
    intro i f1 f2 hn h1 h2
    obtain ⟨a, rfl⟩ : ∃ a, f1 = a + 1 := ⟨f1 - 1, by omega⟩
    obtain ⟨b, rfl⟩ : ∃ b, f2 = b + 1 := ⟨f2 - 1, by omega⟩
    cases hgi : gateAt g i with
    | const => simp only [evalF, hgi]
    | pi => simp only [evalF, hgi]
    | andg f h =>
      have hlt := gateAt_lt_size hgi
      obtain ⟨hf, hh⟩ := hr i hlt f h hgi
      have e1 : evalF g env a f.idx = evalF g env b f.idx :=
        ih (rho f.idx) (lt_of_lt_of_le hf hn) f.idx a b le_rfl (by omega) (by omega)
      have e2 : evalF g env a h.idx = evalF g env b h.idx :=
        ih (rho h.idx) (lt_of_lt_of_le hh hn) h.idx a b le_rfl (by omega) (by omega)
      simp only [evalF, hgi, e1, e2]

theorem evalF_value_stable {g : Net} {env : Nat → Bool} {rho : Nat → Nat}
    (hr : rankOk g rho) :
    ∀ n i fuel, rho i ≤ n → levelF g (rho i + 1) i < fuel →
      evalF g env fuel i = evalF g env (rho i + 1) i := by
  intro n
  induction n using Nat.strong_induction_on with
  | _ n ih =>
    intro i fuel hn hfuel
    obtain ⟨a, rfl⟩ : ∃ a, fuel = a + 1 := ⟨fuel - 1, by omega⟩
    cases hgi : gateAt g i with
    | const => simp only [evalF, hgi]
    | pi => simp only [evalF, hgi]
    | andg f h =>
      have hlt := gateAt_lt_size hgi
      obtain ⟨hf, hh⟩ := hr i hlt f h hgi
      have hx : levelF g (rho i + 1) i =
          1 + Nat.max (levelF g (rho i) f.idx) (levelF g (rho i) h.idx) := by
        simp only [levelF, hgi]
      have key : ∀ t : Sig, rho t.idx < rho i →
          levelF g (rho i) t.idx < a →
          evalF g env a t.idx = evalF g env (rho i) t.idx := by
        intro t hrt hlt2
        have lstab : levelF g (rho i) t.idx = levelF g (rho t.idx + 1) t.idx :=
          levelF_rank_stable hr (rho t.idx) t.idx _ _ le_rfl (by omega) (by omega)
        have estab : evalF g env (rho i) t.idx = evalF g env (rho t.idx + 1) t.idx :=
          evalF_rank_stable hr (rho t.idx) t.idx _ _ le_rfl (by omega) (by omega)
        rw [estab]
        exact ih (rho t.idx) (lt_of_lt_of_le hrt hn) t.idx a le_rfl (by omega)
      have hmf : levelF g (rho i) f.idx < a := by
        have := natMaxLeft (levelF g (rho i) f.idx) (levelF g (rho i) h.idx)
        omega
      have hmh : levelF g (rho i) h.idx < a := by
        have := natMaxRight (levelF g (rho i) f.idx) (levelF g (rho i) h.idx)
        omega
      have e1 := key f hf hmf
      have e2 := key h hh hmh
      simp only [evalF, hgi, e1, e2]

theorem evalN_char {g : Net} {env : Nat → Bool} {rho : Nat → Nat} (hr : rankOk g rho)
    (hb : faninBounded g) (i : Nat) : evalN g env i = evalF g env (rho i + 1) i := by
  rcases Nat.lt_or_ge i (nsize g) with hlt | hge
  · have hcard := levelF_le_card hr hb (rho i) i le_rfl
    have hle : ((Finset.range (nsize g)).filter (fun j => rho j < rho i)).card ≤ nsize g := by
      calc ((Finset.range (nsize g)).filter (fun j => rho j < rho i)).card
          ≤ (Finset.range (nsize g)).card := Finset.card_filter_le _ _
        _ = nsize g := Finset.card_range _
    exact evalF_value_stable hr (rho i) i (nsize g + 1) le_rfl (by omega)
  · unfold evalN
    rw [evalF_nonand (gateAt_oob hge), evalF_nonand (gateAt_oob hge)]

theorem evalN_unfold {g : Net} {env : Nat → Bool} {rho : Nat → Nat} (hr : rankOk g rho)
    (hb : faninBounded g) {i : Nat} {f h : Sig} (hgi : gateAt g i = Gate.andg f h) :
    evalN g env i =
      ((xor f.inv (evalN g env f.idx)) && (xor h.inv (evalN g env h.idx))) := by
  have hlt := gateAt_lt_size hgi
  obtain ⟨hf, hh⟩ := hr i hlt f h hgi
  rw [evalN_char hr hb i]
  have hx : evalF g env (rho i + 1) i =
      ((xor f.inv (evalF g env (rho i) f.idx)) && (xor h.inv (evalF g env (rho i) h.idx))) := by
    simp only [evalF, hgi]
  rw [hx]
  have ef : evalF g env (rho i) f.idx = evalN g env f.idx := by
    rw [evalN_char hr hb]
    exact evalF_rank_stable hr (rho f.idx) f.idx _ _ le_rfl (by omega) (by omega)
  have eh : evalF g env (rho i) h.idx = evalN g env h.idx := by
    rw [evalN_char hr hb]
    exact evalF_rank_stable hr (rho h.idx) h.idx _ _ le_rfl (by omega) (by omega)
  rw [ef, eh]

theorem reachF_nonand {g : Net} {u v : Nat} (hg : ∀ f h, gateAt g u ≠ Gate.andg f h)
    {fuel : Nat} (hf : 0 < fuel) : reachF g fuel u v = (u == v) := by
  obtain ⟨a, rfl⟩ : ∃ a, fuel = a + 1 := ⟨fuel - 1, by omega⟩
  cases hgi : gateAt g u with
  | const => simp only [reachF, hgi, Bool.or_false]
  | pi => simp only [reachF, hgi, Bool.or_false]
  | andg f h => exact absurd hgi (hg f h)

theorem reachF_rank_stable {g : Net} {rho : Nat → Nat} (hr : rankOk g rho) (v : Nat) :
    ∀ n u f1 f2, rho u ≤ n → rho u < f1 → rho u < f2 →
      reachF g f1 u v = reachF g f2 u v := by
  intro n
  induction n using Nat.strong_induction_on with
  | _ n ih =>
    intro u f1 f2 hn h1 h2
    obtain ⟨a, rfl⟩ : ∃ a, f1 = a + 1 := ⟨f1 - 1, by omega⟩
    obtain ⟨b, rfl⟩ : ∃ b, f2 = b + 1 := ⟨f2 - 1, by omega⟩
    cases hgi : gateAt g u with
    | const => simp only [reachF, hgi]
    | pi => simp only [reachF, hgi]
    | andg f h =>
      have hlt := gateAt_lt_size hgi
      obtain ⟨hf, hh⟩ := hr u hlt f h hgi
      have e1 : reachF g a f.idx v = reachF g b f.idx v :=
        ih (rho f.idx) (lt_of_lt_of_le hf hn) f.idx a b le_rfl (by omega) (by omega)
      have e2 : reachF g a h.idx v = reachF g b h.idx v :=
        ih (rho h.idx) (lt_of_lt_of_le hh hn) h.idx a b le_rfl (by omega) (by omega)
      simp only [reachF, hgi, e1, e2]

theorem reachF_value_stable {g : Net} {rho : Nat → Nat} (hr : rankOk g rho) (v : Nat) :
    ∀ n u fuel, rho u ≤ n → levelF g (rho u + 1) u < fuel →
      reachF g fuel u v = reachF g (rho u + 1) u v := by
  intro n
  induction n using Nat.strong_induction_on with
  | _ n ih =>
    intro u fuel hn hfuel
    obtain ⟨a, rfl⟩ : ∃ a, fuel = a + 1 := ⟨fuel - 1, by omega⟩
    cases hgi : gateAt g u with
    | const => simp only [reachF, hgi]
    | pi => simp only [reachF, hgi]
    | andg f h =>
      have hlt := gateAt_lt_size hgi
      obtain ⟨hf, hh⟩ := hr u hlt f h hgi
      have hx : levelF g (rho u + 1) u =
          1 + Nat.max (levelF g (rho u) f.idx) (levelF g (rho u) h.idx) := by
        simp only [levelF, hgi]
      have key : ∀ t : Sig, rho t.idx < rho u →
          levelF g (rho u) t.idx < a →
          reachF g a t.idx v = reachF g (rho u) t.idx v := by
        intro t hrt hlt2
        have lstab : levelF g (rho u) t.idx = levelF g (rho t.idx + 1) t.idx :=
          levelF_rank_stable hr (rho t.idx) t.idx _ _ le_rfl (by omega) (by omega)
        have estab : reachF g (rho u) t.idx v = reachF g (rho t.idx + 1) t.idx v :=
          reachF_rank_stable hr v (rho t.idx) t.idx _ _ le_rfl (by omega) (by omega)
        rw [estab]
        exact ih (rho t.idx) (lt_of_lt_of_le hrt hn) t.idx a le_rfl (by omega)
      have hmf : levelF g (rho u) f.idx < a := by
        have := natMaxLeft (levelF g (rho u) f.idx) (levelF g (rho u) h.idx)
        omega
      have hmh : levelF g (rho u) h.idx < a := by
        have := natMaxRight (levelF g (rho u) f.idx) (levelF g (rho u) h.idx)
        omega
      have e1 := key f hf hmf
      have e2 := key h hh hmh
      simp only [reachF, hgi, e1, e2]

theorem reachN_char {g : Net} {rho : Nat → Nat} (hr : rankOk g rho)
    (hb : faninBounded g) (u v : Nat) : reachN g u v = reachF g (rho u + 1) u v := by
  rcases Nat.lt_or_ge u (nsize g) with hlt | hge
  · have hcard := levelF_le_card hr hb (rho u) u le_rfl
    have hle : ((Finset.range (nsize g)).filter (fun j => rho j < rho u)).card ≤ nsize g := by
      calc ((Finset.range (nsize g)).filter (fun j => rho j < rho u)).card
          ≤ (Finset.range (nsize g)).card := Finset.card_filter_le _ _
        _ = nsize g := Finset.card_range _
    exact reachF_value_stable hr v (rho u) u (nsize g + 1) le_rfl (by omega)
  · have hc : ∀ f h, gateAt g u ≠ Gate.andg f h := by
      intro f h hco
      rw [gateAt_oob hge] at hco
      exact Gate.noConfusion hco
    unfold reachN
    rw [reachF_nonand hc (by omega), reachF_nonand hc (by omega)]

theorem reachN_refl (g : Net) (u : Nat) : reachN g u u = true := by
  unfold reachN reachF
  simp

theorem reachN_unfold {g : Net} {rho : Nat → Nat} (hr : rankOk g rho)
    (hb : faninBounded g) {u : Nat} {f h : Sig} (hgi : gateAt g u = Gate.andg f h)
    (v : Nat) :
    reachN g u v = ((u == v) || (reachN g f.idx v || reachN g h.idx v)) := by
  have hlt := gateAt_lt_size hgi
  obtain ⟨hf, hh⟩ := hr u hlt f h hgi
  rw [reachN_char hr hb u v]
  have hx : reachF g (rho u + 1) u v =
      ((u == v) || (reachF g (rho u) f.idx v || reachF g (rho u) h.idx v)) := by
    simp only [reachF, hgi]
  rw [hx]
  have ef : reachF g (rho u) f.idx v = reachN g f.idx v := by
    rw [reachN_char hr hb]
    exact reachF_rank_stable hr v (rho f.idx) f.idx _ _ le_rfl (by omega) (by omega)
  have eh : reachF g (rho u) h.idx v = reachN g h.idx v := by
    rw [reachN_char hr hb]
    exact reachF_rank_stable hr v (rho h.idx) h.idx _ _ le_rfl (by omega) (by omega)
  rw [ef, eh]

theorem reachN_nonand {g : Net} {u v : Nat} (hg : ∀ f h, gateAt g u ≠ Gate.andg f h) :
    reachN g u v = (u == v) := reachF_nonand hg (by omega)

theorem reach_level_le {g : Net} {rho : Nat → Nat} (hr : rankOk g rho)
    (hb : faninBounded g) :
    ∀ n u v, rho u ≤ n → reachN g u v = true → levelN g v ≤ levelN g u := by
  intro n
  induction n using Nat.strong_induction_on with
  | _ n ih =>
    intro u v hn hru
    cases hgi : gateAt g u with
    | const =>
      rw [reachN_nonand (by intro f h hc; rw [hgi] at hc; exact Gate.noConfusion hc)] at hru
      have he : u = v := by simpa using hru
      subst he
      exact le_rfl
    | pi =>
      rw [reachN_nonand (by intro f h hc; rw [hgi] at hc; exact Gate.noConfusion hc)] at hru
      have he : u = v := by simpa using hru
      subst he
      exact le_rfl
    | andg f h =>
      rw [reachN_unfold hr hb hgi] at hru
      have hlt := gateAt_lt_size hgi
      obtain ⟨hf, hh⟩ := hr u hlt f h hgi
      obtain ⟨hlf, hlh⟩ := levelN_fanin_lt hr hb hgi
      simp only [Bool.or_eq_true, beq_iff_eq] at hru
      rcases hru with rfl | hru2
      · exact le_rfl
      · rcases hru2 with hru3 | hru3
        · have := ih (rho f.idx) (lt_of_lt_of_le hf hn) f.idx v le_rfl hru3
          omega
        · have := ih (rho h.idx) (lt_of_lt_of_le hh hn) h.idx v le_rfl hru3
          omega

theorem reachN_level_le {g : Net} {rho : Nat → Nat} (hr : rankOk g rho)
    (hb : faninBounded g) {u v : Nat} (hru : reachN g u v = true) :
    levelN g v ≤ levelN g u :=
  reach_level_le hr hb (rho u) u v le_rfl hru

theorem notReach_fanin {g : Net} {rho : Nat → Nat} (hr : rankOk g rho)
    (hb : faninBounded g) {u : Nat} {f h : Sig} (hgi : gateAt g u = Gate.andg f h) :
    reachN g f.idx u = false ∧ reachN g h.idx u = false := by
  obtain ⟨hlf, hlh⟩ := levelN_fanin_lt hr hb hgi
  constructor
  · by_contra hc
    have hc2 : reachN g f.idx u = true := by
      cases hcv : reachN g f.idx u
      · exact absurd hcv hc
      · rfl
    have := reachN_level_le hr hb hc2
    omega
  · by_contra hc
    have hc2 : reachN g h.idx u = true := by
      cases hcv : reachN g h.idx u
      · exact absurd hcv hc
      · rfl
    have := reachN_level_le hr hb hc2
    omega

theorem reach_trans {g : Net} {rho : Nat → Nat} (hr : rankOk g rho)
    (hb : faninBounded g) :
    ∀ n u v w, rho u ≤ n → reachN g u v = true → reachN g v w = true →
      reachN g u w = true := by
  intro n
  induction n using Nat.strong_induction_on with
  | _ n ih =>
    intro u v w hn huv hvw
    cases hgi : gateAt g u with
    | const =>
      rw [reachN_nonand (by intro f h hc; rw [hgi] at hc; exact Gate.noConfusion hc)] at huv
      have he : u = v := by simpa using huv
      rw [he]; exact hvw
    | pi =>
      rw [reachN_nonand (by intro f h hc; rw [hgi] at hc; exact Gate.noConfusion hc)] at huv
      have he : u = v := by simpa using huv
      rw [he]; exact hvw
    | andg f h =>
      rw [reachN_unfold hr hb hgi] at huv
      rw [reachN_unfold hr hb hgi]
      have hlt := gateAt_lt_size hgi
      obtain ⟨hf, hh⟩ := hr u hlt f h hgi
      simp only [Bool.or_eq_true, beq_iff_eq] at huv ⊢
      rcases huv with rfl | huv2
      · have hx := hvw
        rw [reachN_unfold hr hb hgi] at hx
        simpa using hx
      · right
        rcases huv2 with hru3 | hru3
        · exact Or.inl (ih (rho f.idx) (lt_of_lt_of_le hf hn) f.idx v w le_rfl hru3 hvw)
        · exact Or.inr (ih (rho h.idx) (lt_of_lt_of_le hh hn) h.idx v w le_rfl hru3 hvw)

theorem listAnyCongr {α : Type} {p q : α → Bool} :
    ∀ l : List α, (∀ x ∈ l, p x = q x) → l.any p = l.any q := by
  intro l h
  induction l with
  | nil => rfl
  | cons x xs ihl =>
    simp only [List.any_cons]
    rw [h x (by simp), ihl (fun y hy => h y (by simp [hy]))]

theorem critF_stable {g : Net} {rho : Nat → Nat} (hr : rankOk g rho)
    (hb : faninBounded g) :
    ∀ n i f1 f2, nsize g - levelN g i ≤ n → nsize g - levelN g i < f1 →
      nsize g - levelN g i < f2 → critF g f1 i = critF g f2 i := by
  intro n
  induction n using Nat.strong_induction_on with
  | _ n ih =>
    intro i f1 f2 hn h1 h2
    obtain ⟨a, rfl⟩ : ∃ a, f1 = a + 1 := ⟨f1 - 1, by omega⟩
    obtain ⟨b, rfl⟩ : ∃ b, f2 = b + 1 := ⟨f2 - 1, by omega⟩
    simp only [critF]
    have hpt : ∀ m ∈ List.range (nsize g),
        (!isDead g m && hasFanin g m i && (levelN g m == levelN g i + 1) && critF g a m)
          = (!isDead g m && hasFanin g m i && (levelN g m == levelN g i + 1) && critF g b m) := by
      intro m hm
      by_cases hc : (!isDead g m && hasFanin g m i && (levelN g m == levelN g i + 1)) = true
      · have hlev : levelN g m = levelN g i + 1 := by
          simp only [Bool.and_eq_true, beq_iff_eq] at hc
          exact hc.2
        have hlm := levelN_le_size hr hb m
        have e : critF g a m = critF g b m :=
          ih (nsize g - levelN g m) (by omega) m a b le_rfl (by omega) (by omega)
        rw [hc, e]
      · have hc2 : (!isDead g m && hasFanin g m i && (levelN g m == levelN g i + 1)) = false := by
          cases hx : (!isDead g m && hasFanin g m i && (levelN g m == levelN g i + 1))
          · rfl
          · exact absurd hx hc
        rw [hc2]
        simp
    rw [listAnyCongr _ hpt]

theorem critN_unfold {g : Net} {rho : Nat → Nat} (hr : rankOk g rho)
    (hb : faninBounded g) (i : Nat) :
    critN g i = ((drivesPo g i && (levelN g i == depthN g)) ||
      (List.range (nsize g)).any (fun m =>
        !isDead g m && hasFanin g m i && (levelN g m == levelN g i + 1) && critN g m)) := by
  have hlm := levelN_le_size hr hb i
  have hstab : critF g (nsize g + 1) i = critF g (nsize g + 2) i :=
    critF_stable hr hb (nsize g - levelN g i) i _ _ le_rfl (by omega) (by omega)
  unfold critN
  rw [hstab]
  rfl

theorem crit_step {g : Net} {rho : Nat → Nat} (hr : rankOk g rho)
    (hb : faninBounded g) {m t : Nat} (hmlt : m < nsize g)
    (hft : hasFanin g m t = true) (hlev : levelN g m = levelN g t + 1)
    (hdm : isDead g m = false) (hcm : critN g m = true) : critN g t = true := by
  rw [critN_unfold hr hb]
  apply Bool.or_eq_true_iff.mpr
  right
  apply List.any_eq_true.mpr
  refine ⟨m, List.mem_range.mpr hmlt, ?_⟩
  simp [hdm, hft, hlev, hcm]

theorem listFoldrMax_ge : ∀ (l : List Nat), ∀ x ∈ l, x ≤ l.foldr Nat.max 0 := by
  intro l
  induction l with
  | nil => intro x hx; cases hx
  | cons y ys ihl =>
    intro x hx
    simp only [List.foldr_cons]
    rcases List.mem_cons.mp hx with rfl | hx2
    · exact natMaxLeft _ _
    · exact le_trans (ihl x hx2) (natMaxRight _ _)

theorem listFoldrMax_le {c : Nat} : ∀ (l : List Nat), (∀ x ∈ l, x ≤ c) →
    l.foldr Nat.max 0 ≤ c := by
  intro l
  induction l with
  | nil => intro _; simp
  | cons y ys ihl =>
    intro h
    simp only [List.foldr_cons]
    exact natMaxLe (h y (by simp)) (ihl (fun x hx => h x (by simp [hx])))

/-! ## Lemmas about appending a node (create_and allocation) -/

theorem nsize_append (g : Net) (gt : Gate) : nsize (appendNode g gt) = nsize g + 1 := by
  simp [appendNode, nsize]

theorem gateAt_append_lt {g : Net} {gt : Gate} {i : Nat} (hi : i < nsize g) :
    gateAt (appendNode g gt) i = gateAt g i := by
  unfold gateAt appendNode
  exact List.getD_append _ _ _ _ hi

theorem gateAt_append_self (g : Net) (gt : Gate) :
    gateAt (appendNode g gt) (nsize g) = gt := by
  show (g.gates ++ [gt]).getD g.gates.length Gate.const = gt
  rw [List.getD_append_right _ _ _ _ le_rfl]
  simp

theorem isDead_append_lt {g : Net} {gt : Gate} {i : Nat} (hlen : g.deadL.length = g.gates.length)
    (hi : i < nsize g) : isDead (appendNode g gt) i = isDead g i := by
  unfold isDead appendNode
  exact List.getD_append _ _ _ _ (by rw [hlen]; exact hi)

theorem isDead_append_self {g : Net} {gt : Gate} (hlen : g.deadL.length = g.gates.length) :
    isDead (appendNode g gt) (nsize g) = false := by
  show (g.deadL ++ [false]).getD (nsize g) false = false
  rw [List.getD_append_right _ _ _ _ (by rw [hlen]; exact le_rfl)]
  have hz : nsize g - g.deadL.length = 0 := by
    unfold nsize
    omega
  rw [hz]
  simp

theorem pos_append (g : Net) (gt : Gate) : (appendNode g gt).pos = g.pos := rfl

theorem levelF_append {g : Net} {gt : Gate} (hb : faninBounded g) :
    ∀ fuel i, i < nsize g → levelF (appendNode g gt) fuel i = levelF g fuel i := by
  intro fuel
  induction fuel with
  | zero => intro i _; rfl
  | succ a iha =>
    intro i hi
    rw [show levelF (appendNode g gt) (a+1) i =
        (match gateAt (appendNode g gt) i with
         | Gate.andg f h =>
             1 + Nat.max (levelF (appendNode g gt) a f.idx) (levelF (appendNode g gt) a h.idx)
         | _ => 0) from rfl]
    rw [gateAt_append_lt hi]
    cases hgi : gateAt g i with
    | const => simp only [levelF, hgi]
    | pi => simp only [levelF, hgi]
    | andg f h =>
      obtain ⟨hf, hh⟩ := hb i hi f h hgi
      simp only [levelF, hgi, iha f.idx hf, iha h.idx hh]

theorem evalF_append {g : Net} {gt : Gate} {env : Nat → Bool} (hb : faninBounded g) :
    ∀ fuel i, i < nsize g → evalF (appendNode g gt) env fuel i = evalF g env fuel i := by
  intro fuel
  induction fuel with
  | zero => intro i _; rfl
  | succ a iha =>
    intro i hi
    rw [show evalF (appendNode g gt) env (a+1) i =
        (match gateAt (appendNode g gt) i with
         | Gate.const => false
         | Gate.pi => env i
         | Gate.andg f h =>
             (xor f.inv (evalF (appendNode g gt) env a f.idx)) &&
               (xor h.inv (evalF (appendNode g gt) env a h.idx))) from rfl]
    rw [gateAt_append_lt hi]
    cases hgi : gateAt g i with
    | const => simp only [evalF, hgi]
    | pi => simp only [evalF, hgi]
    | andg f h =>
      obtain ⟨hf, hh⟩ := hb i hi f h hgi
      simp only [evalF, hgi, iha f.idx hf, iha h.idx hh]

theorem reachF_append {g : Net} {gt : Gate} {v : Nat} (hb : faninBounded g) :
    ∀ fuel u, u < nsize g → reachF (appendNode g gt) fuel u v = reachF g fuel u v := by
  intro fuel
  induction fuel with
  | zero => intro u _; rfl
  | succ a iha =>
    intro u hu
    rw [show reachF (appendNode g gt) (a+1) u v =
        ((u == v) ||
          (match gateAt (appendNode g gt) u with
           | Gate.andg f h =>
               reachF (appendNode g gt) a f.idx v || reachF (appendNode g gt) a h.idx v
           | _ => false)) from rfl]
    rw [gateAt_append_lt hu]
    cases hgi : gateAt g u with
    | const => simp only [reachF, hgi]
    | pi => simp only [reachF, hgi]
    | andg f h =>
      obtain ⟨hf, hh⟩ := hb u hu f h hgi
      simp only [reachF, hgi, iha f.idx hf, iha h.idx hh]

theorem faninBounded_append {g : Net} {gt : Gate} (hb : faninBounded g)
    (hgt : gateBounded g gt) : faninBounded (appendNode g gt) := by
  intro i hi f h hgi
  rw [nsize_append] at hi
  rcases Nat.lt_or_ge i (nsize g) with hlt | hge
  · rw [gateAt_append_lt hlt] at hgi
    obtain ⟨h1, h2⟩ := hb i hlt f h hgi
    rw [nsize_append]
    omega
  · have hie : i = nsize g := by omega
    subst hie
    rw [gateAt_append_self] at hgi
    obtain ⟨h1, h2⟩ := hgt f h hgi
    rw [nsize_append]
    omega

theorem rankOk_append {g : Net} {gt : Gate} {rho : Nat → Nat} (hr : rankOk g rho)
    (hb : faninBounded g) (hgt : gateBounded g gt) :
    rankOk (appendNode g gt)
      (fun j => if j < nsize g then rho j else
        (match gt with
         | Gate.andg f h => rho f.idx + rho h.idx + 1
         | _ => 0)) := by
  intro i hi f h hgi
  rw [nsize_append] at hi
  rcases Nat.lt_or_ge i (nsize g) with hlt | hge
  · rw [gateAt_append_lt hlt] at hgi
    obtain ⟨hf, hh⟩ := hr i hlt f h hgi
    obtain ⟨hbf, hbh⟩ := hb i hlt f h hgi
    simp only [hlt, hbf, hbh, if_pos]
    exact ⟨hf, hh⟩
  · have hie : i = nsize g := by omega
    subst hie
    rw [gateAt_append_self] at hgi
    obtain ⟨hbf, hbh⟩ := hgt f h hgi
    subst hgi
    simp only [hbf, hbh, if_pos, if_neg (lt_irrefl (nsize g))]
    omega

theorem levelN_append {g : Net} {gt : Gate} {rho : Nat → Nat} (hr : rankOk g rho)
    (hb : faninBounded g) (hgt : gateBounded g gt) {i : Nat} (hi : i < nsize g) :
    levelN (appendNode g gt) i = levelN g i := by
  have hb2 := faninBounded_append hb hgt
  have hr2 := rankOk_append hr hb hgt
  rw [levelN_char hr2 hb2 i]
  simp only [hi, if_pos]
  rw [levelF_append hb _ i hi]
  exact (levelN_char hr hb i).symm

theorem evalN_append {g : Net} {gt : Gate} {env : Nat → Bool} {rho : Nat → Nat}
    (hr : rankOk g rho) (hb : faninBounded g) (hgt : gateBounded g gt) {i : Nat}
    (hi : i < nsize g) : evalN (appendNode g gt) env i = evalN g env i := by
  have hb2 := faninBounded_append hb hgt
  have hr2 := rankOk_append hr hb hgt
  rw [evalN_char hr2 hb2 i]
  simp only [hi, if_pos]
  rw [evalF_append hb _ i hi]
  exact (evalN_char hr hb i).symm

theorem reachN_append {g : Net} {gt : Gate} {rho : Nat → Nat} (hr : rankOk g rho)
    (hb : faninBounded g) (hgt : gateBounded g gt) {u : Nat} (hu : u < nsize g)
    (v : Nat) : reachN (appendNode g gt) u v = reachN g u v := by
  have hb2 := faninBounded_append hb hgt
  have hr2 := rankOk_append hr hb hgt
  rw [reachN_char hr2 hb2 u v]
  simp only [hu, if_pos]
  rw [reachF_append hb _ u hu]
  exact (reachN_char hr hb u v).symm

theorem depthN_append {g : Net} {gt : Gate} {rho : Nat → Nat} (hr : rankOk g rho)
    (hb : faninBounded g) (hgt : gateBounded g gt)
    (hpb : ∀ s ∈ g.pos, s.idx < nsize g) :
    depthN (appendNode g gt) = depthN g := by
  unfold depthN
  rw [pos_append]
  have hmc : g.pos.map (fun s => levelN (appendNode g gt) s.idx) =
      g.pos.map (fun s => levelN g s.idx) :=
    List.map_congr_left (fun s hs => levelN_append hr hb hgt (hpb s hs))
  rw [hmc]

theorem fanout_append {g : Net} {gt : Gate} (hlen : g.deadL.length = g.gates.length)
    (v : Nat) :
    fanoutSize (appendNode g gt) v = fanoutSize g v + faninCount gt v := by
  unfold fanoutSize
  rw [pos_append, nsize_append, Finset.sum_range_succ]
  have hterm : (if isDead (appendNode g gt) (nsize g) then 0
      else faninCount (gateAt (appendNode g gt) (nsize g)) v) = faninCount gt v := by
    rw [isDead_append_self hlen, gateAt_append_self]
    simp
  have hsum : Finset.sum (Finset.range (nsize g))
      (fun m => if isDead (appendNode g gt) m then 0
        else faninCount (gateAt (appendNode g gt) m) v) =
      Finset.sum (Finset.range (nsize g))
      (fun m => if isDead g m then 0 else faninCount (gateAt g m) v) := by
    apply Finset.sum_congr rfl
    intro m hm
    have hmlt := Finset.mem_range.mp hm
    rw [isDead_append_lt hlen hmlt, gateAt_append_lt hmlt]
  rw [hterm, hsum]
  omega

/-! ## Structural-hash lookup and createAnd case analysis -/

theorem findGate_some {g : Net} {a b : Sig} {k : Nat} (hf : findGate g a b = some k) :
    k < nsize g ∧ isDead g k = false ∧ gateAt g k = Gate.andg a b := by
  have hmem := List.mem_of_find?_eq_some hf
  have hp := List.find?_some hf
  simp only [Bool.and_eq_true, Bool.not_eq_true'] at hp
  refine ⟨List.mem_range.mp hmem, hp.1, ?_⟩
  exact beq_iff_eq.mp hp.2

theorem canonPair_cases (f h : Sig) :
    canonPair f h = (f, h) ∨ canonPair f h = (h, f) := by
  unfold canonPair
  split
  · right; rfl
  · left; rfl

theorem createAnd_result (g : Net) (f0 h0 : Sig) :
    ∃ a b : Sig, canonPair f0 h0 = (a, b) ∧
      (((a, b) = (f0, h0)) ∨ ((a, b) = (h0, f0))) ∧
      ((a.idx = b.idx ∧ a.inv = b.inv ∧ createAnd g f0 h0 = (g, a)) ∨
       (a.idx = b.idx ∧ a.inv ≠ b.inv ∧ createAnd g f0 h0 = (g, ⟨0, false⟩)) ∨
       (a.idx ≠ b.idx ∧ a.idx = 0 ∧ a.inv = true ∧ createAnd g f0 h0 = (g, b)) ∨
       (a.idx ≠ b.idx ∧ a.idx = 0 ∧ a.inv = false ∧ createAnd g f0 h0 = (g, ⟨0, false⟩)) ∨
       (∃ k, a.idx ≠ b.idx ∧ a.idx ≠ 0 ∧ findGate g a b = some k ∧
         createAnd g f0 h0 = (g, ⟨k, false⟩)) ∨
       (a.idx ≠ b.idx ∧ a.idx ≠ 0 ∧ findGate g a b = none ∧
         createAnd g f0 h0 = (appendNode g (Gate.andg a b), ⟨nsize g, false⟩))) := by
  refine ⟨(canonPair f0 h0).1, (canonPair f0 h0).2, rfl, ?_, ?_⟩
  · rcases canonPair_cases f0 h0 with hc | hc <;> rw [hc]
    · left; rfl
    · right; rfl
  · unfold createAnd
    by_cases h1 : (canonPair f0 h0).1.idx = (canonPair f0 h0).2.idx
    · by_cases h2 : (canonPair f0 h0).1.inv = (canonPair f0 h0).2.inv
      · left
        refine ⟨h1, h2, ?_⟩
        rw [if_pos h1, if_pos h2]
      · right; left
        refine ⟨h1, h2, ?_⟩
        rw [if_pos h1, if_neg h2]
    · by_cases h3 : (canonPair f0 h0).1.idx = 0
      · by_cases h4 : (canonPair f0 h0).1.inv = true
        · right; right; left
          refine ⟨h1, h3, h4, ?_⟩
          rw [if_neg h1, if_pos h3, if_pos h4]
        · right; right; right; left
          have h4b : (canonPair f0 h0).1.inv = false := by
            cases hx : (canonPair f0 h0).1.inv
            · rfl
            · exact absurd hx h4
          refine ⟨h1, h3, h4b, ?_⟩
          rw [if_neg h1, if_pos h3, if_neg h4]
      · cases hfg : findGate g (canonPair f0 h0).1 (canonPair f0 h0).2 with
        | some k =>
          right; right; right; right; left
          refine ⟨k, h1, h3, rfl, ?_⟩
          rw [if_neg h1, if_neg h3, hfg]
        | none =>
          right; right; right; right; right
          refine ⟨h1, h3, rfl, ?_⟩
          rw [if_neg h1, if_neg h3, hfg]

theorem createAnd_net_cases (g : Net) (f0 h0 : Sig) :
    (createAnd g f0 h0).1 = g ∨
      (createAnd g f0 h0).1 =
        appendNode g (Gate.andg (canonPair f0 h0).1 (canonPair f0 h0).2) := by
  obtain ⟨a, b, hcp, hab, hcase⟩ := createAnd_result g f0 h0
  rcases hcase with ⟨_, _, he⟩ | ⟨_, _, he⟩ | ⟨_, _, _, he⟩ | ⟨_, _, _, he⟩ |
    ⟨k, _, _, _, he⟩ | ⟨_, _, _, he⟩ <;> rw [he, hcp] <;> simp

theorem createAnd_pos (g : Net) (f0 h0 : Sig) : (createAnd g f0 h0).1.pos = g.pos := by
  rcases createAnd_net_cases g f0 h0 with he | he <;> rw [he]
  rfl

theorem createAnd_len {g : Net} (hlen : g.deadL.length = g.gates.length) (f0 h0 : Sig) :
    (createAnd g f0 h0).1.deadL.length = (createAnd g f0 h0).1.gates.length := by
  rcases createAnd_net_cases g f0 h0 with he | he <;> rw [he]
  · exact hlen
  · simp [appendNode, hlen]

theorem createAnd_size_ge (g : Net) (f0 h0 : Sig) :
    nsize g ≤ nsize (createAnd g f0 h0).1 := by
  rcases createAnd_net_cases g f0 h0 with he | he <;> rw [he]
  rw [nsize_append]
  omega

theorem createAnd_gateAt_old {g : Net} {f0 h0 : Sig} {i : Nat} (hi : i < nsize g) :
    gateAt (createAnd g f0 h0).1 i = gateAt g i := by
  rcases createAnd_net_cases g f0 h0 with he | he <;> rw [he]
  exact gateAt_append_lt hi

theorem createAnd_isDead_old {g : Net} {f0 h0 : Sig} {i : Nat}
    (hlen : g.deadL.length = g.gates.length) (hi : i < nsize g) :
    isDead (createAnd g f0 h0).1 i = isDead g i := by
  rcases createAnd_net_cases g f0 h0 with he | he <;> rw [he]
  exact isDead_append_lt hlen hi

/-- The canonical children of a created gate are in bounds. -/
theorem canon_gateBounded {g : Net} {f0 h0 : Sig} (hf0 : f0.idx < nsize g)
    (hh0 : h0.idx < nsize g) :
    gateBounded g (Gate.andg (canonPair f0 h0).1 (canonPair f0 h0).2) := by
  intro f h hco
  rcases canonPair_cases f0 h0 with hc | hc <;> rw [hc] at hco <;>
    simp only [Gate.andg.injEq] at hco <;> obtain ⟨rfl, rfl⟩ := hco
  · exact ⟨hf0, hh0⟩
  · exact ⟨hh0, hf0⟩

theorem createAnd_levelN_old {g : Net} {f0 h0 : Sig} {rho : Nat → Nat}
    (hr : rankOk g rho) (hb : faninBounded g) (hf0 : f0.idx < nsize g)
    (hh0 : h0.idx < nsize g) {i : Nat} (hi : i < nsize g) :
    levelN (createAnd g f0 h0).1 i = levelN g i := by
  rcases createAnd_net_cases g f0 h0 with he | he <;> rw [he]
  exact levelN_append hr hb (canon_gateBounded hf0 hh0) hi

theorem createAnd_evalN_old {g : Net} {f0 h0 : Sig} {env : Nat → Bool} {rho : Nat → Nat}
    (hr : rankOk g rho) (hb : faninBounded g) (hf0 : f0.idx < nsize g)
    (hh0 : h0.idx < nsize g) {i : Nat} (hi : i < nsize g) :
    evalN (createAnd g f0 h0).1 env i = evalN g env i := by
  rcases createAnd_net_cases g f0 h0 with he | he <;> rw [he]
  exact evalN_append hr hb (canon_gateBounded hf0 hh0) hi

theorem createAnd_reachN_old {g : Net} {f0 h0 : Sig} {rho : Nat → Nat}
    (hr : rankOk g rho) (hb : faninBounded g) (hf0 : f0.idx < nsize g)
    (hh0 : h0.idx < nsize g) {u : Nat} (hu : u < nsize g) (v : Nat) :
    reachN (createAnd g f0 h0).1 u v = reachN g u v := by
  rcases createAnd_net_cases g f0 h0 with he | he <;> rw [he]
  exact reachN_append hr hb (canon_gateBounded hf0 hh0) hu v

theorem createAnd_depth {g : Net} {f0 h0 : Sig} {rho : Nat → Nat}
    (hr : rankOk g rho) (hb : faninBounded g) (hf0 : f0.idx < nsize g)
    (hh0 : h0.idx < nsize g) (hpb : ∀ s ∈ g.pos, s.idx < nsize g) :
    depthN (createAnd g f0 h0).1 = depthN g := by
  rcases createAnd_net_cases g f0 h0 with he | he <;> rw [he]
  exact depthN_append hr hb (canon_gateBounded hf0 hh0) hpb

theorem createAnd_faninBounded {g : Net} {f0 h0 : Sig} (hb : faninBounded g)
    (hf0 : f0.idx < nsize g) (hh0 : h0.idx < nsize g) :
    faninBounded (createAnd g f0 h0).1 := by
  rcases createAnd_net_cases g f0 h0 with he | he <;> rw [he]
  · exact hb
  · exact faninBounded_append hb (canon_gateBounded hf0 hh0)

theorem createAnd_rankOk {g : Net} {f0 h0 : Sig} {rho : Nat → Nat} (hr : rankOk g rho)
    (hb : faninBounded g) (hf0 : f0.idx < nsize g) (hh0 : h0.idx < nsize g) :
    ∃ rho2, rankOk (createAnd g f0 h0).1 rho2 := by
  rcases createAnd_net_cases g f0 h0 with he | he <;> rw [he]
  · exact ⟨rho, hr⟩
  · exact ⟨_, rankOk_append hr hb (canon_gateBounded hf0 hh0)⟩

theorem createAnd_res_lt {g : Net} {f0 h0 : Sig} (hf0 : f0.idx < nsize g)
    (hh0 : h0.idx < nsize g) :
    (createAnd g f0 h0).2.idx < nsize (createAnd g f0 h0).1 := by
  obtain ⟨a, b, hcp, hab, hcase⟩ := createAnd_result g f0 h0
  have hax : a.idx < nsize g ∧ b.idx < nsize g := by
    rcases hab with hab | hab <;>
      [exact ⟨by rw [show a = f0 from congrArg Prod.fst hab]; exact hf0,
        by rw [show b = h0 from congrArg Prod.snd hab]; exact hh0⟩;
       exact ⟨by rw [show a = h0 from congrArg Prod.fst hab]; exact hh0,
        by rw [show b = f0 from congrArg Prod.snd hab]; exact hf0⟩]
  rcases hcase with ⟨_, _, he⟩ | ⟨_, _, he⟩ | ⟨_, _, _, he⟩ | ⟨_, _, _, he⟩ |
    ⟨k, _, _, hfg, he⟩ | ⟨_, _, _, he⟩ <;> rw [he] <;> dsimp only
  · exact hax.1
  · omega
  · exact hax.2
  · omega
  · exact (findGate_some hfg).1
  · rw [nsize_append]; omega

theorem evalN_const {g : Net} {env : Nat → Bool} {i : Nat}
    (hg : gateAt g i = Gate.const) : evalN g env i = false :=
  evalF_nonand hg _

theorem levelN_const {g : Net} {i : Nat} (hg : gateAt g i = Gate.const) :
    levelN g i = 0 :=
  levelF_nonand (by intro f h hc; rw [hg] at hc; exact Gate.noConfusion hc) _

theorem bfalse_xor (x : Bool) : xor false x = x := by cases x <;> rfl

theorem btrue_xor (x : Bool) : xor true x = !x := by cases x <;> rfl

theorem xorAnd_compl (i e : Bool) : (xor i e && xor (!i) e) = false := by
  cases i <;> cases e <;> rfl

/-- Component equalities for the canonical pair. -/
theorem canon_components {f0 h0 a b : Sig} (hab : ((a, b) = (f0, h0)) ∨ ((a, b) = (h0, f0))) :
    (a = f0 ∧ b = h0) ∨ (a = h0 ∧ b = f0) := by
  rcases hab with hab | hab
  · left
    exact ⟨congrArg Prod.fst hab, congrArg Prod.snd hab⟩
  · right
    exact ⟨congrArg Prod.fst hab, congrArg Prod.snd hab⟩

theorem createAnd_res_inv {g : Net} {f0 h0 : Sig}
    (hinv : (createAnd g f0 h0).2.inv = true) :
    (createAnd g f0 h0).2 = f0 ∨ (createAnd g f0 h0).2 = h0 := by
  obtain ⟨a, b, hcp, hab, hcase⟩ := createAnd_result g f0 h0
  have hmem : ∀ t : Sig, t = a ∨ t = b → t = f0 ∨ t = h0 := by
    intro t ht
    rcases canon_components hab with ⟨ha, hb2⟩ | ⟨ha, hb2⟩ <;> subst ha <;> subst hb2 <;>
      rcases ht with rfl | rfl
    · exact Or.inl rfl
    · exact Or.inr rfl
    · exact Or.inr rfl
    · exact Or.inl rfl
  rcases hcase with ⟨_, _, he⟩ | ⟨_, _, he⟩ | ⟨_, _, _, he⟩ | ⟨_, _, _, he⟩ |
    ⟨k, _, _, _, he⟩ | ⟨_, _, _, he⟩ <;> rw [he] at hinv ⊢ <;> dsimp only at hinv ⊢
  · exact hmem a (Or.inl rfl)
  · exact Bool.noConfusion hinv
  · exact hmem b (Or.inr rfl)
  · exact Bool.noConfusion hinv
  · exact Bool.noConfusion hinv
  · exact Bool.noConfusion hinv

theorem createAnd_res_live {g : Net} {f0 h0 : Sig}
    (hlen : g.deadL.length = g.gates.length) (hdf : isDead g f0.idx = false)
    (hdh : isDead g h0.idx = false) (hd0 : isDead g 0 = false) :
    isDead (createAnd g f0 h0).1 (createAnd g f0 h0).2.idx = false := by
  obtain ⟨a, b, hcp, hab, hcase⟩ := createAnd_result g f0 h0
  have hda : isDead g a.idx = false ∧ isDead g b.idx = false := by
    rcases canon_components hab with ⟨ha, hb2⟩ | ⟨ha, hb2⟩ <;> subst ha <;> subst hb2 <;>
      exact ⟨by assumption, by assumption⟩
  rcases hcase with ⟨_, _, he⟩ | ⟨_, _, he⟩ | ⟨_, _, _, he⟩ | ⟨_, _, _, he⟩ |
    ⟨k, _, _, hfg, he⟩ | ⟨_, _, _, he⟩ <;> rw [he] <;> dsimp only
  · exact hda.1
  · exact hd0
  · exact hda.2
  · exact hd0
  · exact (findGate_some hfg).2.1
  · exact isDead_append_self hlen

theorem createAnd_evalSig {g : Net} {f0 h0 : Sig} {env : Nat → Bool} {rho : Nat → Nat}
    (hr : rankOk g rho) (hb : faninBounded g) (hf0 : f0.idx < nsize g)
    (hh0 : h0.idx < nsize g) (hz : gateAt g 0 = Gate.const) :
    evalSig (createAnd g f0 h0).1 env (createAnd g f0 h0).2 =
      (evalSig g env f0 && evalSig g env h0) := by
  obtain ⟨a, b, hcp, hab, hcase⟩ := createAnd_result g f0 h0
  have key : (evalSig g env a && evalSig g env b) = (evalSig g env f0 && evalSig g env h0) := by
    rcases canon_components hab with ⟨ha, hb2⟩ | ⟨ha, hb2⟩ <;> subst ha <;> subst hb2
    · rfl
    · exact Bool.and_comm _ _
  have hax : a.idx < nsize g ∧ b.idx < nsize g := by
    rcases canon_components hab with ⟨ha, hb2⟩ | ⟨ha, hb2⟩ <;> subst ha <;> subst hb2 <;>
      exact ⟨by assumption, by assumption⟩
  rcases hcase with ⟨h1, h2, he⟩ | ⟨h1, h2, he⟩ | ⟨h1, h3, h4, he⟩ | ⟨h1, h3, h4, he⟩ |
    ⟨k, h1, h3, hfg, he⟩ | ⟨h1, h3, hfg, he⟩ <;> rw [he] <;> dsimp only
  · have hab2 : a = b := by
      cases a with
      | mk ai av =>
        cases b with
        | mk bi bv =>
          simp only at h1 h2
          rw [h1, h2]
    rw [← key, ← hab2, Bool.and_self]
  · rw [← key]
    have hb3 : b.inv = !a.inv := by
      cases hva : a.inv <;> cases hvb : b.inv <;> simp [hva, hvb] at h2 ⊢
    have hlhs : evalSig g env ⟨0, false⟩ = false := by
      simp [evalSig, evalN_const hz, bfalse_xor]
    rw [hlhs]
    simp only [evalSig, hb3, h1]
    exact (xorAnd_compl a.inv (evalN g env b.idx)).symm
  · rw [← key]
    have hlhs : evalSig g env a = true := by
      have hz2 : gateAt g a.idx = Gate.const := by rw [h3]; exact hz
      simp [evalSig, evalN_const hz2, h4, btrue_xor]
    rw [hlhs, Bool.true_and]
  · rw [← key]
    have hlhs : evalSig g env a = false := by
      have hz2 : gateAt g a.idx = Gate.const := by rw [h3]; exact hz
      simp [evalSig, evalN_const hz2, h4, bfalse_xor]
    have hres : evalSig g env ⟨0, false⟩ = false := by
      simp [evalSig, evalN_const hz, bfalse_xor]
    rw [hres, hlhs, Bool.false_and]
  · obtain ⟨hk1, hk2, hk3⟩ := findGate_some hfg
    rw [← key]
    show xor false (evalN g env k) = _
    rw [bfalse_xor, evalN_unfold hr hb hk3]
    rfl
  · rw [← key]
    have hgb := canon_gateBounded hf0 hh0
    rw [hcp] at hgb
    have hb2 := faninBounded_append hb hgb
    have hr2 := rankOk_append hr hb hgb
    have hself : gateAt (appendNode g (Gate.andg a b)) (nsize g) = Gate.andg a b :=
      gateAt_append_self g _
    show xor false (evalN (appendNode g (Gate.andg a b)) env (nsize g)) = _
    rw [bfalse_xor, evalN_unfold hr2 hb2 hself]
    rw [evalN_append hr hb hgb hax.1, evalN_append hr hb hgb hax.2]
    rfl

theorem createAnd_level_le {g : Net} {f0 h0 : Sig} {rho : Nat → Nat}
    (hr : rankOk g rho) (hb : faninBounded g) (hf0 : f0.idx < nsize g)
    (hh0 : h0.idx < nsize g) (hz : gateAt g 0 = Gate.const) :
    levelN (createAnd g f0 h0).1 (createAnd g f0 h0).2.idx ≤
      1 + Nat.max (levelN g f0.idx) (levelN g h0.idx) := by
  obtain ⟨a, b, hcp, hab, hcase⟩ := createAnd_result g f0 h0
  have key : Nat.max (levelN g a.idx) (levelN g b.idx) =
      Nat.max (levelN g f0.idx) (levelN g h0.idx) := by
    rcases canon_components hab with ⟨ha, hb2⟩ | ⟨ha, hb2⟩ <;> subst ha <;> subst hb2
    · rfl
    · exact sup_comm _ _
  have hax : a.idx < nsize g ∧ b.idx < nsize g := by
    rcases canon_components hab with ⟨ha, hb2⟩ | ⟨ha, hb2⟩ <;> subst ha <;> subst hb2 <;>
      exact ⟨by assumption, by assumption⟩
  rcases hcase with ⟨h1, h2, he⟩ | ⟨h1, h2, he⟩ | ⟨h1, h3, h4, he⟩ | ⟨h1, h3, h4, he⟩ |
    ⟨k, h1, h3, hfg, he⟩ | ⟨h1, h3, hfg, he⟩ <;> rw [he] <;> dsimp only
  · rw [← key]
    have := natMaxLeft (levelN g a.idx) (levelN g b.idx)
    omega
  · rw [levelN_const hz]
    omega
  · rw [← key]
    have := natMaxRight (levelN g a.idx) (levelN g b.idx)
    omega
  · rw [levelN_const hz]
    omega
  · obtain ⟨hk1, hk2, hk3⟩ := findGate_some hfg
    rw [levelN_unfold hr hb hk3, ← key]
  · have hgb := canon_gateBounded hf0 hh0
    rw [hcp] at hgb
    have hb2 := faninBounded_append hb hgb
    have hr2 := rankOk_append hr hb hgb
    have hself : gateAt (appendNode g (Gate.andg a b)) (nsize g) = Gate.andg a b :=
      gateAt_append_self g _
    rw [levelN_unfold hr2 hb2 hself]
    rw [levelN_append hr hb hgb hax.1, levelN_append hr hb hgb hax.2, ← key]

theorem createAnd_reach_res {g : Net} {f0 h0 : Sig} {rho : Nat → Nat} {v : Nat}
    (hr : rankOk g rho) (hb : faninBounded g) (hf0 : f0.idx < nsize g)
    (hh0 : h0.idx < nsize g) (hz : gateAt g 0 = Gate.const) (hv : v < nsize g)
    (hv0 : v ≠ 0) (hnf : reachN g f0.idx v = false) (hnh : reachN g h0.idx v = false) :
    ((createAnd g f0 h0).2 = ⟨v, false⟩ ∧ (createAnd g f0 h0).1 = g) ∨
      reachN (createAnd g f0 h0).1 (createAnd g f0 h0).2.idx v = false := by
  obtain ⟨a, b, hcp, hab, hcase⟩ := createAnd_result g f0 h0
  have hreach : reachN g a.idx v = false ∧ reachN g b.idx v = false := by
    rcases canon_components hab with ⟨ha, hb2⟩ | ⟨ha, hb2⟩ <;> subst ha <;> subst hb2 <;>
      exact ⟨by assumption, by assumption⟩
  have hax : a.idx < nsize g ∧ b.idx < nsize g := by
    rcases canon_components hab with ⟨ha, hb2⟩ | ⟨ha, hb2⟩ <;> subst ha <;> subst hb2 <;>
      exact ⟨by assumption, by assumption⟩
  have hzero : reachN g 0 v = false := by
    rw [reachN_nonand (by intro f h hc; rw [hz] at hc; exact Gate.noConfusion hc)]
    simp
    omega
  rcases hcase with ⟨h1, h2, he⟩ | ⟨h1, h2, he⟩ | ⟨h1, h3, h4, he⟩ | ⟨h1, h3, h4, he⟩ |
    ⟨k, h1, h3, hfg, he⟩ | ⟨h1, h3, hfg, he⟩ <;> rw [he] <;> dsimp only
  · exact Or.inr hreach.1
  · exact Or.inr hzero
  · exact Or.inr hreach.2
  · exact Or.inr hzero
  · obtain ⟨hk1, hk2, hk3⟩ := findGate_some hfg
    by_cases hkv : k = v
    · subst hkv
      exact Or.inl ⟨rfl, rfl⟩
    · right
      rw [reachN_unfold hr hb hk3 v]
      simp only [Bool.or_eq_false_iff]
      refine ⟨?_, hreach.1, hreach.2⟩
      simp [hkv]
  · right
    have hgb := canon_gateBounded hf0 hh0
    rw [hcp] at hgb
    have hb2 := faninBounded_append hb hgb
    have hr2 := rankOk_append hr hb hgb
    have hself : gateAt (appendNode g (Gate.andg a b)) (nsize g) = Gate.andg a b :=
      gateAt_append_self g _
    rw [reachN_unfold hr2 hb2 hself v]
    simp only [Bool.or_eq_false_iff]
    refine ⟨?_, ?_, ?_⟩
    · simp
      omega
    · rw [reachN_append hr hb hgb hax.1 v]
      exact hreach.1
    · rw [reachN_append hr hb hgb hax.2 v]
      exact hreach.2

theorem getD_set_ne (l : List Bool) (i j : Nat) (b : Bool) (hne : j ≠ i) :
    (l.set i b).getD j false = l.getD j false := by
  simp only [List.getD]
  rw [List.get?_set_ne _ _ (by omega : i ≠ j)]

theorem getD_set_self (l : List Bool) (i : Nat) (b : Bool) (hi : i < l.length) :
    (l.set i b).getD i false = b := by
  rw [List.getD_eq_getElem _ _ (by simpa using hi)]
  simp [List.getElem_set]

theorem createAnd_NetInv {g : Net} {f0 h0 : Sig} (hI : NetInv g)
    (hf0 : f0.idx < nsize g) (hh0 : h0.idx < nsize g)
    (hdf : isDead g f0.idx = false) (hdh : isDead g h0.idx = false) :
    NetInv (createAnd g f0 h0).1 := by
  obtain ⟨rho, hr⟩ := hI.acyclic
  have hzlt : 0 < nsize g := by omega
  rcases createAnd_net_cases g f0 h0 with he | he <;> rw [he]
  · exact hI
  · have hgb := canon_gateBounded (g := g) hf0 hh0
    have hda : isDead g (canonPair f0 h0).1.idx = false ∧
        isDead g (canonPair f0 h0).2.idx = false := by
      rcases canonPair_cases f0 h0 with hc | hc <;> rw [hc] <;>
        exact ⟨by assumption, by assumption⟩
    have hba : (canonPair f0 h0).1.idx < nsize g ∧ (canonPair f0 h0).2.idx < nsize g := by
      rcases canonPair_cases f0 h0 with hc | hc <;> rw [hc] <;>
        exact ⟨by assumption, by assumption⟩
    constructor
    · simp [appendNode, hI.len]
    · rw [gateAt_append_lt hzlt]
      exact hI.zero
    · rw [isDead_append_lt hI.len hzlt]
      exact hI.zeroLive
    · exact faninBounded_append hI.bounded hgb
    · intro s hs
      rw [pos_append] at hs
      have := hI.posB s hs
      rw [nsize_append]
      omega
    · intro s hs
      rw [pos_append] at hs
      rw [isDead_append_lt hI.len (hI.posB s hs)]
      exact hI.posLive s hs
    · intro i hi hdi f h hgi
      rw [nsize_append] at hi
      rcases Nat.lt_or_ge i (nsize g) with hlt | hge
      · rw [gateAt_append_lt hlt] at hgi
        rw [isDead_append_lt hI.len hlt] at hdi
        obtain ⟨hbf, hbh⟩ := hI.bounded i hlt f h hgi
        obtain ⟨hc1, hc2⟩ := hI.deadClosed i hlt hdi f h hgi
        rw [isDead_append_lt hI.len hbf, isDead_append_lt hI.len hbh]
        exact ⟨hc1, hc2⟩
      · have hie : i = nsize g := by omega
        subst hie
        rw [gateAt_append_self] at hgi
        obtain ⟨hfe, hhe⟩ := Gate.andg.inj hgi
        subst hfe
        subst hhe
        rw [isDead_append_lt hI.len hba.1, isDead_append_lt hI.len hba.2]
        exact hda
    · exact ⟨_, rankOk_append hr hI.bounded hgb⟩

/-! ## Substitution layer -/

theorem reachN_trans {g : Net} {rho : Nat → Nat} (hr : rankOk g rho)
    (hb : faninBounded g) {u v w : Nat} (h1 : reachN g u v = true)
    (h2 : reachN g v w = true) : reachN g u w = true :=
  reach_trans hr hb (rho u) u v w le_rfl h1 h2

theorem reach_fanin {g : Net} {rho : Nat → Nat} (hr : rankOk g rho)
    (hb : faninBounded g) {u : Nat} {f h : Sig} (hgi : gateAt g u = Gate.andg f h) :
    reachN g u f.idx = true ∧ reachN g u h.idx = true := by
  rw [reachN_unfold hr hb hgi f.idx, reachN_unfold hr hb hgi h.idx]
  simp [reachN_refl]

theorem nsize_rewire (g : Net) (n : Nat) (s : Sig) : nsize (rewireAll g n s) = nsize g := by
  simp [rewireAll, nsize]

theorem pos_rewire (g : Net) (n : Nat) (s : Sig) :
    (rewireAll g n s).pos = g.pos.map (replSig n s) := rfl

theorem deadL_rewire (g : Net) (n : Nat) (s : Sig) :
    (rewireAll g n s).deadL = g.deadL := rfl

theorem isDead_rewire (g : Net) (n : Nat) (s : Sig) (i : Nat) :
    isDead (rewireAll g n s) i = isDead g i := rfl

theorem gateAt_rewire (g : Net) (n : Nat) (s : Sig) (i : Nat) :
    gateAt (rewireAll g n s) i = rewireGate n s (gateAt g i) := by
  show (g.gates.map (rewireGate n s)).getD i Gate.const = rewireGate n s (gateAt g i)
  have : Gate.const = rewireGate n s Gate.const := rfl
  rw [this]
  exact List.getD_map (l := g.gates) Gate.const (rewireGate n s)

theorem replSig_of_ne {n : Nat} {s t : Sig} (hne : t.idx ≠ n) : replSig n s t = t := by
  unfold replSig
  rw [if_neg hne]

theorem replSig_of_eq {n : Nat} {s t : Sig} (he : t.idx = n) :
    replSig n s t = ⟨s.idx, xor t.inv s.inv⟩ := by
  unfold replSig
  rw [if_pos he]

theorem faninBounded_rewire {g : Net} {n : Nat} {s : Sig} (hb : faninBounded g)
    (hs : s.idx < nsize g) : faninBounded (rewireAll g n s) := by
  intro i hi f2 h2 hg2
  rw [nsize_rewire] at hi
  rw [gateAt_rewire] at hg2
  rw [nsize_rewire]
  cases hgi : gateAt g i with
  | const => rw [hgi] at hg2; exact Gate.noConfusion hg2
  | pi => rw [hgi] at hg2; exact Gate.noConfusion hg2
  | andg f h =>
    rw [hgi] at hg2
    obtain ⟨he1, he2⟩ := Gate.andg.inj hg2
    obtain ⟨hbf, hbh⟩ := hb i hi f h hgi
    constructor
    · rw [← he1]
      by_cases hfn : f.idx = n
      · rw [replSig_of_eq hfn]
        exact hs
      · rw [replSig_of_ne hfn]
        exact hbf
    · rw [← he2]
      by_cases hhn : h.idx = n
      · rw [replSig_of_eq hhn]
        exact hs
      · rw [replSig_of_ne hhn]
        exact hbh

theorem subRank_lt {g : Net} {s : Sig} {rho : Nat → Nat} {u v : Nat}
    (h : subRank g s rho u < subRank g s rho v) :
    (if reachN g s.idx u = true then rho u else rho u + (rho s.idx + 1)) <
      (if reachN g s.idx v = true then rho v else rho v + (rho s.idx + 1)) := h

theorem rankOk_rewire {g : Net} {n : Nat} {s : Sig} {rho : Nat → Nat}
    (hr : rankOk g rho) (hb : faninBounded g) (hreach : reachN g s.idx n = false) :
    rankOk (rewireAll g n s) (subRank g s rho) := by
  unfold subRank
  intro i hi f2 h2 hg2
  rw [nsize_rewire] at hi
  rw [gateAt_rewire] at hg2
  cases hgi : gateAt g i with
  | const => rw [hgi] at hg2; exact Gate.noConfusion hg2
  | pi => rw [hgi] at hg2; exact Gate.noConfusion hg2
  | andg f h =>
    rw [hgi] at hg2
    obtain ⟨he1, he2⟩ := Gate.andg.inj hg2
    obtain ⟨hrf, hrh⟩ := hr i hi f h hgi
    obtain ⟨hef, heh⟩ := reach_fanin hr hb hgi
    have key : ∀ t t2 : Sig, replSig n s t = t2 → rho t.idx < rho i →
        reachN g i t.idx = true →
        (if reachN g s.idx t2.idx = true then rho t2.idx else rho t2.idx + (rho s.idx + 1)) <
          (if reachN g s.idx i = true then rho i else rho i + (rho s.idx + 1)) := by
      intro t t2 ht2 hrt hit
      have hinotC : reachN g s.idx i = true → t.idx ≠ n := by
        intro hic htn
        rw [← htn] at hreach
        rw [reachN_trans hr hb hic hit] at hreach
        exact Bool.noConfusion hreach
      by_cases htn : t.idx = n
      · have hic : reachN g s.idx i = false := by
          cases hiv : reachN g s.idx i
          · rfl
          · exact absurd htn (hinotC hiv)
        rw [replSig_of_eq htn] at ht2
        have ht2i : t2.idx = s.idx := by rw [← ht2]
        rw [ht2i]
        rw [if_pos (reachN_refl g s.idx), hic]
        rw [if_neg (by simp)]
        omega
      · rw [replSig_of_ne htn] at ht2
        subst ht2
        cases hiv : reachN g s.idx i
        · by_cases htv : reachN g s.idx t.idx = true
          · rw [if_pos htv, if_neg (by simp)]
            omega
          · rw [if_neg htv, if_neg (by simp)]
            omega
        · have htv : reachN g s.idx t.idx = true := reachN_trans hr hb hiv hit
          rw [if_pos htv, if_pos rfl]
          exact hrt
    exact ⟨key f f2 he1 hrf hef, key h h2 he2 hrh heh⟩

theorem natMaxMono {a b a2 b2 : Nat} (h1 : a ≤ a2) (h2 : b ≤ b2) :
    Nat.max a b ≤ Nat.max a2 b2 :=
  natMaxLe (le_trans h1 (natMaxLeft _ _)) (le_trans h2 (natMaxRight _ _))

theorem evalN_pi {g : Net} {env : Nat → Bool} {i : Nat} (hg : gateAt g i = Gate.pi) :
    evalN g env i = env i := by
  unfold evalN
  simp only [evalF, hg]

theorem evalF_congr_gates {g g2 : Net} (hgg : g.gates = g2.gates) (env : Nat → Bool) :
    ∀ fuel i, evalF g env fuel i = evalF g2 env fuel i := by
  have hga : ∀ i, gateAt g i = gateAt g2 i := by
    intro i
    unfold gateAt
    rw [hgg]
  intro fuel
  induction fuel with
  | zero => intro i; rfl
  | succ a iha =>
    intro i
    simp only [evalF, hga i]
    cases gateAt g2 i with
    | const => rfl
    | pi => rfl
    | andg f h => simp only [iha]

theorem levelF_congr_gates {g g2 : Net} (hgg : g.gates = g2.gates) :
    ∀ fuel i, levelF g fuel i = levelF g2 fuel i := by
  have hga : ∀ i, gateAt g i = gateAt g2 i := by
    intro i
    unfold gateAt
    rw [hgg]
  intro fuel
  induction fuel with
  | zero => intro i; rfl
  | succ a iha =>
    intro i
    simp only [levelF, hga i]
    cases gateAt g2 i with
    | const => rfl
    | pi => rfl
    | andg f h => simp only [iha]

theorem evalN_congr_gates {g g2 : Net} (hgg : g.gates = g2.gates) (env : Nat → Bool)
    (i : Nat) : evalN g env i = evalN g2 env i := by
  unfold evalN
  rw [evalF_congr_gates hgg env _ i]
  unfold nsize
  rw [hgg]

theorem levelN_congr_gates {g g2 : Net} (hgg : g.gates = g2.gates) (i : Nat) :
    levelN g i = levelN g2 i := by
  unfold levelN
  rw [levelF_congr_gates hgg _ i]
  unfold nsize
  rw [hgg]

theorem takeOut_gates_pos (g : Net) (i : Nat) :
    ∀ fuel, (takeOut g i fuel).gates = g.gates ∧ (takeOut g i fuel).pos = g.pos := by
  intro fuel
  induction fuel generalizing g i with
  | zero => exact ⟨rfl, rfl⟩
  | succ a iha =>
    unfold takeOut
    dsimp only
    split
    · constructor
      · split
        · split
          · rw [(iha _ _).1, (iha _ _).1]
            rfl
          · rw [(iha _ _).1]
            rfl
        · split
          · rw [(iha _ _).1]
            rfl
          · rfl
      · split
        · split
          · rw [(iha _ _).2, (iha _ _).2]
            rfl
          · rw [(iha _ _).2]
            rfl
        · split
          · rw [(iha _ _).2]
            rfl
          · rfl
    · exact ⟨rfl, rfl⟩

theorem takeOut_gates (g : Net) (i : Nat) (fuel : Nat) :
    (takeOut g i fuel).gates = g.gates := (takeOut_gates_pos g i fuel).1

theorem takeOut_pos (g : Net) (i : Nat) (fuel : Nat) :
    (takeOut g i fuel).pos = g.pos := (takeOut_gates_pos g i fuel).2

theorem isDead_lt_length {g : Net} {j : Nat} (hd : isDead g j = true) :
    j < g.deadL.length := by
  by_contra hge
  push_neg at hge
  unfold isDead at hd
  rw [List.getD_eq_default _ _ hge] at hd
  exact Bool.noConfusion hd

theorem isDead_markDead_ne {g : Net} {i j : Nat} (hne : j ≠ i) :
    isDead (markDead g i) j = isDead g j :=
  getD_set_ne _ _ _ _ hne

theorem isDead_markDead_self {g : Net} {i : Nat} (hi : i < g.deadL.length) :
    isDead (markDead g i) i = true :=
  getD_set_self _ _ _ hi

theorem isDead_markDead_mono {g : Net} {i j : Nat} (hd : isDead g j = true) :
    isDead (markDead g i) j = true := by
  by_cases hji : j = i
  · subst hji
    exact isDead_markDead_self (isDead_lt_length hd)
  · rw [isDead_markDead_ne hji]
    exact hd

theorem takeOut_dead_mono {j : Nat} :
    ∀ fuel (g : Net) (i : Nat), isDead g j = true →
      isDead (takeOut g i fuel) j = true := by
  intro fuel
  induction fuel with
  | zero => intro g i hd; exact hd
  | succ a iha =>
    intro g i hd
    unfold takeOut
    dsimp only
    split
    · split
      · split
        · exact iha _ _ (iha _ _ (isDead_markDead_mono hd))
        · exact iha _ _ (isDead_markDead_mono hd)
      · split
        · exact iha _ _ (isDead_markDead_mono hd)
        · exact isDead_markDead_mono hd
    · exact isDead_markDead_mono hd

theorem takeOut_kills {g : Net} {i : Nat} {fuel : Nat}
    (hlen : g.deadL.length = g.gates.length) (hi : i < nsize g) :
    isDead (takeOut g i (fuel + 1)) i = true := by
  have hmark : isDead (markDead g i) i = true :=
    isDead_markDead_self (by rw [hlen]; exact hi)
  unfold takeOut
  dsimp only
  split
  · split
    · split
      · exact takeOut_dead_mono _ _ _ (takeOut_dead_mono _ _ _ hmark)
      · exact takeOut_dead_mono _ _ _ hmark
    · split
      · exact takeOut_dead_mono _ _ _ hmark
      · exact hmark
  · exact hmark

theorem markDead_len (g : Net) (i : Nat) :
    (markDead g i).deadL.length = g.deadL.length := by
  simp [markDead]

theorem takeOut_len : ∀ fuel (g : Net) (i : Nat),
    (takeOut g i fuel).deadL.length = g.deadL.length := by
  intro fuel
  induction fuel with
  | zero => intro g i; rfl
  | succ a iha =>
    intro g i
    unfold takeOut
    dsimp only
    split
    · split
      · split
        · rw [iha, iha, markDead_len]
        · rw [iha, markDead_len]
      · split
        · rw [iha, markDead_len]
        · rw [markDead_len]
    · rw [markDead_len]

theorem fanout_pos_of_ref {g : Net} {m v : Nat} (hm : m < nsize g)
    (hdm : isDead g m = false) (hc : 0 < faninCount (gateAt g m) v) :
    0 < fanoutSize g v := by
  unfold fanoutSize
  have hterm : (if isDead g m then 0 else faninCount (gateAt g m) v) ≤
      Finset.sum (Finset.range (nsize g))
        (fun m2 => if isDead g m2 then 0 else faninCount (gateAt g m2) v) :=
    Finset.single_le_sum
      (f := fun m2 => if isDead g m2 then 0 else faninCount (gateAt g m2) v)
      (fun j _ => Nat.zero_le _) (Finset.mem_range.mpr hm)
  rw [hdm] at hterm
  simp only [Bool.false_eq_true, if_false] at hterm
  omega

theorem fanout_pos_of_po {g : Net} {v : Nat} {s : Sig} (hs : s ∈ g.pos)
    (hv : s.idx = v) : 0 < fanoutSize g v := by
  unfold fanoutSize
  have : 0 < g.pos.countP (fun t => t.idx = v) := by
    apply List.countP_pos.mpr
    exact ⟨s, hs, by simp [hv]⟩
  omega

theorem isAnd_congr_gates {g g2 : Net} (hgg : g.gates = g2.gates) (i : Nat) :
    isAnd g i = isAnd g2 i := by
  unfold isAnd gateAt
  rw [hgg]

theorem faninBounded_congr_gates {g g2 : Net} (hgg : g.gates = g2.gates)
    (hb : faninBounded g) : faninBounded g2 := by
  intro i hi f h hgi
  have hn : nsize g2 = nsize g := by unfold nsize; rw [hgg]
  rw [hn] at hi ⊢
  apply hb i hi f h
  unfold gateAt at hgi ⊢
  rw [hgg]
  exact hgi

theorem takeOut_posLive :
    ∀ fuel (g : Net) (i : Nat), posLiveP g → fanoutSize g i = 0 →
      posLiveP (takeOut g i fuel) := by
  intro fuel
  induction fuel with
  | zero => intro g i hpl _; exact hpl
  | succ a iha =>
    intro g i hpl hfo
    have hpl1 : posLiveP (markDead g i) := by
      intro s hs
      have hsi : s.idx ≠ i := by
        intro he
        have := fanout_pos_of_po (g := g) hs he
        omega
      rw [isDead_markDead_ne hsi]
      exact hpl s hs
    unfold takeOut
    dsimp only
    split
    next f h heq =>
      split
      next hc1 =>
        have hfo1 : fanoutSize (markDead g i) f.idx = 0 := by
          simp only [Bool.and_eq_true, beq_iff_eq] at hc1
          exact hc1.2
        have hpl2 := iha (markDead g i) f.idx hpl1 hfo1
        split
        next hc2 =>
          have hfo2 : fanoutSize (takeOut (markDead g i) f.idx a) h.idx = 0 := by
            simp only [Bool.and_eq_true, beq_iff_eq] at hc2
            exact hc2.2
          exact iha _ h.idx hpl2 hfo2
        next hc2 => exact hpl2
      next hc1 =>
        split
        next hc2 =>
          have hfo2 : fanoutSize (markDead g i) h.idx = 0 := by
            simp only [Bool.and_eq_true, beq_iff_eq] at hc2
            exact hc2.2
          exact iha _ h.idx hpl1 hfo2
        next hc2 => exact hpl1
    next heq => exact hpl1

theorem markDead_deadClosed {g : Net} {i : Nat} (hdc : deadClosedP g)
    (hfo : fanoutSize g i = 0) : deadClosedP (markDead g i) := by
  intro j hj hdj f h hgj
  have hgates : (markDead g i).gates = g.gates := rfl
  have hn : nsize (markDead g i) = nsize g := rfl
  rw [hn] at hj
  have hgj2 : gateAt g j = Gate.andg f h := hgj
  have hdj2 : isDead g j = false := by
    by_cases hji : j = i
    · subst hji
      by_cases hjl : j < g.deadL.length
      · rw [isDead_markDead_self hjl] at hdj
        exact Bool.noConfusion hdj
      · unfold isDead
        rw [List.getD_eq_default _ _ (by omega)]
    · rw [isDead_markDead_ne hji] at hdj
      exact hdj
  obtain ⟨hcf, hch⟩ := hdc j hj hdj2 f h hgj2
  have hkey : ∀ t : Sig, t.idx = f.idx ∨ t.idx = h.idx → isDead g t.idx = false →
      isDead (markDead g i) t.idx = false := by
    intro t ht hdt
    have hti : t.idx ≠ i := by
      intro he
      have hcpos : 0 < faninCount (gateAt g j) t.idx := by
        rw [hgj2]
        unfold faninCount
        rcases ht with ht | ht <;> rw [ht] <;> simp
      rw [he] at hcpos
      have := fanout_pos_of_ref hj hdj2 hcpos
      omega
    rw [isDead_markDead_ne hti]
    exact hdt
  exact ⟨hkey ⟨f.idx, false⟩ (Or.inl rfl) hcf, hkey ⟨h.idx, false⟩ (Or.inr rfl) hch⟩

theorem takeOut_deadClosed :
    ∀ fuel (g : Net) (i : Nat), deadClosedP g → fanoutSize g i = 0 →
      deadClosedP (takeOut g i fuel) := by
  intro fuel
  induction fuel with
  | zero => intro g i hdc _; exact hdc
  | succ a iha =>
    intro g i hdc hfo
    have hdc1 : deadClosedP (markDead g i) := markDead_deadClosed hdc hfo
    unfold takeOut
    dsimp only
    split
    next f h heq =>
      split
      next hc1 =>
        have hfo1 : fanoutSize (markDead g i) f.idx = 0 := by
          simp only [Bool.and_eq_true, beq_iff_eq] at hc1
          exact hc1.2
        have hdc2 := iha (markDead g i) f.idx hdc1 hfo1
        split
        next hc2 =>
          have hfo2 : fanoutSize (takeOut (markDead g i) f.idx a) h.idx = 0 := by
            simp only [Bool.and_eq_true, beq_iff_eq] at hc2
            exact hc2.2
          exact iha _ h.idx hdc2 hfo2
        next hc2 => exact hdc2
      next hc1 =>
        split
        next hc2 =>
          have hfo2 : fanoutSize (markDead g i) h.idx = 0 := by
            simp only [Bool.and_eq_true, beq_iff_eq] at hc2
            exact hc2.2
          exact iha _ h.idx hdc1 hfo2
        next hc2 => exact hdc1
    next heq => exact hdc1

theorem takeOut_zeroLive :
    ∀ fuel (g : Net) (i : Nat), gateAt g 0 = Gate.const → isDead g 0 = false →
      isAnd g i = true → isDead (takeOut g i fuel) 0 = false := by
  intro fuel
  induction fuel with
  | zero => intro g i _ h0 _; exact h0
  | succ a iha =>
    intro g i hz h0 hii
    have hi0 : i ≠ 0 := by
      intro he
      subst he
      unfold isAnd at hii
      rw [hz] at hii
      exact Bool.noConfusion hii
    have h01 : isDead (markDead g i) 0 = false := by
      rw [isDead_markDead_ne (Ne.symm hi0)]
      exact h0
    have hz1 : gateAt (markDead g i) 0 = Gate.const := hz
    unfold takeOut
    dsimp only
    split
    next f h heq =>
      split
      next hc1 =>
        have hii1 : isAnd (markDead g i) f.idx = true := by
          simp only [Bool.and_eq_true] at hc1
          exact hc1.1
        have h02 := iha (markDead g i) f.idx hz1 h01 hii1
        split
        next hc2 =>
          have hii2 : isAnd (takeOut (markDead g i) f.idx a) h.idx = true := by
            simp only [Bool.and_eq_true] at hc2
            exact hc2.1
          have hz2 : gateAt (takeOut (markDead g i) f.idx a) 0 = Gate.const := by
            unfold gateAt
            rw [takeOut_gates]
            exact hz1
          exact iha _ h.idx hz2 h02 hii2
        next hc2 => exact h02
      next hc1 =>
        split
        next hc2 =>
          have hii2 : isAnd (markDead g i) h.idx = true := by
            simp only [Bool.and_eq_true] at hc2
            exact hc2.1
          exact iha _ h.idx hz1 h01 hii2
        next hc2 => exact h01
    next heq => exact h01

theorem gateAt_rewire_nonand {g : Net} {n : Nat} {s : Sig} {i : Nat} {gt : Gate}
    (hgi : gateAt g i = gt) (hgt : rewireGate n s gt = gt) :
    gateAt (rewireAll g n s) i = gt := by
  rw [gateAt_rewire, hgi, hgt]

theorem rewireGate_const (n : Nat) (s : Sig) : rewireGate n s Gate.const = Gate.const := rfl

theorem rewireGate_pi (n : Nat) (s : Sig) : rewireGate n s Gate.pi = Gate.pi := rfl

theorem levelN_pi {g : Net} {i : Nat} (hg : gateAt g i = Gate.pi) : levelN g i = 0 :=
  levelF_nonand (by intro f h hc; rw [hg] at hc; exact Gate.noConfusion hc) _

theorem rewire_evalN {g : Net} {n : Nat} {s : Sig} {env : Nat → Bool} {rho : Nat → Nat}
    (hr : rankOk g rho) (hb : faninBounded g) (hreach : reachN g s.idx n = false)
    (hs : s.idx < nsize g)
    (heq : xor s.inv (evalN g env s.idx) = evalN g env n) :
    ∀ v, evalN (rewireAll g n s) env v = evalN g env v := by
  have hr2 := rankOk_rewire hr hb hreach
  have hb2 := faninBounded_rewire (n := n) hb hs
  suffices main : ∀ k v, subRank g s rho v ≤ k →
      evalN (rewireAll g n s) env v = evalN g env v by
    intro v
    exact main _ v le_rfl
  intro k
  induction k using Nat.strong_induction_on with
  | _ k ih =>
    intro v hk
    cases hgi : gateAt g v with
    | const =>
      have hg2 : gateAt (rewireAll g n s) v = Gate.const :=
        gateAt_rewire_nonand hgi (rewireGate_const n s)
      rw [evalN_const hg2, evalN_const hgi]
    | pi =>
      have hg2 : gateAt (rewireAll g n s) v = Gate.pi :=
        gateAt_rewire_nonand hgi (rewireGate_pi n s)
      rw [evalN_pi hg2, evalN_pi hgi]
    | andg f h =>
      have hg2 : gateAt (rewireAll g n s) v =
          Gate.andg (replSig n s f) (replSig n s h) := by
        rw [gateAt_rewire, hgi]
        rfl
      rw [evalN_unfold hr2 hb2 hg2, evalN_unfold hr hb hgi]
      have hvlt : v < nsize g := gateAt_lt_size hgi
      have hvlt2 : v < nsize (rewireAll g n s) := by
        rw [nsize_rewire]
        exact hvlt
      obtain ⟨hrf2, hrh2⟩ := hr2 v hvlt2 _ _ hg2
      have hcomp : ∀ t : Sig, subRank g s rho (replSig n s t).idx < subRank g s rho v →
          xor (replSig n s t).inv (evalN (rewireAll g n s) env (replSig n s t).idx) =
            xor t.inv (evalN g env t.idx) := by
        intro t hst
        have hv2 : evalN (rewireAll g n s) env (replSig n s t).idx =
            evalN g env (replSig n s t).idx :=
          ih (subRank g s rho (replSig n s t).idx) (lt_of_lt_of_le hst hk) _ le_rfl
        rw [hv2]
        by_cases htn : t.idx = n
        · rw [replSig_of_eq htn]
          show xor (xor t.inv s.inv) (evalN g env s.idx) = _
          rw [Bool.xor_assoc, heq, htn]
        · rw [replSig_of_ne htn]
      rw [hcomp f hrf2, hcomp h hrh2]

theorem rewire_levelN {g : Net} {n : Nat} {s : Sig} {rho : Nat → Nat}
    (hr : rankOk g rho) (hb : faninBounded g) (hreach : reachN g s.idx n = false)
    (hs : s.idx < nsize g) :
    (∀ v, reachN g s.idx v = true → levelN (rewireAll g n s) v = levelN g v) ∧
      (levelN g s.idx ≤ levelN g n →
        ∀ v, levelN (rewireAll g n s) v ≤ levelN g v) := by
  have hr2 := rankOk_rewire hr hb hreach
  have hb2 := faninBounded_rewire (n := n) hb hs
  have cone : ∀ k v, rho v ≤ k → reachN g s.idx v = true →
      levelN (rewireAll g n s) v = levelN g v := by
    intro k
    induction k using Nat.strong_induction_on with
    | _ k ih =>
      intro v hk hcv
      cases hgi : gateAt g v with
      | const =>
        have hg2 : gateAt (rewireAll g n s) v = Gate.const :=
          gateAt_rewire_nonand hgi (rewireGate_const n s)
        rw [levelN_const hg2, levelN_const hgi]
      | pi =>
        have hg2 : gateAt (rewireAll g n s) v = Gate.pi :=
          gateAt_rewire_nonand hgi (rewireGate_pi n s)
        rw [levelN_pi hg2, levelN_pi hgi]
      | andg f h =>
        have hvlt : v < nsize g := gateAt_lt_size hgi
        obtain ⟨hof, hoh⟩ := hr v hvlt f h hgi
        obtain ⟨hcf, hch⟩ := reach_fanin hr hb hgi
        have hfn : f.idx ≠ n := by
          intro he
          rw [← he] at hreach
          rw [reachN_trans hr hb hcv hcf] at hreach
          exact Bool.noConfusion hreach
        have hhn : h.idx ≠ n := by
          intro he
          rw [← he] at hreach
          rw [reachN_trans hr hb hcv hch] at hreach
          exact Bool.noConfusion hreach
        have hg2 : gateAt (rewireAll g n s) v = Gate.andg f h := by
          rw [gateAt_rewire, hgi]
          show Gate.andg (replSig n s f) (replSig n s h) = Gate.andg f h
          rw [replSig_of_ne hfn, replSig_of_ne hhn]
        rw [levelN_unfold hr2 hb2 hg2, levelN_unfold hr hb hgi]
        rw [ih (rho f.idx) (lt_of_lt_of_le hof hk) f.idx le_rfl
            (reachN_trans hr hb hcv hcf),
          ih (rho h.idx) (lt_of_lt_of_le hoh hk) h.idx le_rfl
            (reachN_trans hr hb hcv hch)]
  refine ⟨fun v => cone (rho v) v le_rfl, ?_⟩
  intro hlev
  suffices main : ∀ k v, subRank g s rho v ≤ k →
      levelN (rewireAll g n s) v ≤ levelN g v by
    intro v
    exact main _ v le_rfl
  intro k
  induction k using Nat.strong_induction_on with
  | _ k ih =>
    intro v hk
    cases hgi : gateAt g v with
    | const =>
      have hg2 : gateAt (rewireAll g n s) v = Gate.const :=
        gateAt_rewire_nonand hgi (rewireGate_const n s)
      rw [levelN_const hg2, levelN_const hgi]
    | pi =>
      have hg2 : gateAt (rewireAll g n s) v = Gate.pi :=
        gateAt_rewire_nonand hgi (rewireGate_pi n s)
      rw [levelN_pi hg2, levelN_pi hgi]
    | andg f h =>
      have hg2 : gateAt (rewireAll g n s) v =
          Gate.andg (replSig n s f) (replSig n s h) := by
        rw [gateAt_rewire, hgi]
        rfl
      rw [levelN_unfold hr2 hb2 hg2, levelN_unfold hr hb hgi]
      have hvlt : v < nsize g := gateAt_lt_size hgi
      have hvlt2 : v < nsize (rewireAll g n s) := by
        rw [nsize_rewire]
        exact hvlt
      obtain ⟨hrf2, hrh2⟩ := hr2 v hvlt2 _ _ hg2
      have hcomp : ∀ t : Sig, subRank g s rho (replSig n s t).idx < subRank g s rho v →
          levelN (rewireAll g n s) (replSig n s t).idx ≤ levelN g t.idx := by
        intro t hst
        have hv2 : levelN (rewireAll g n s) (replSig n s t).idx ≤
            levelN g (replSig n s t).idx :=
          ih (subRank g s rho (replSig n s t).idx) (lt_of_lt_of_le hst hk) _ le_rfl
        by_cases htn : t.idx = n
        · rw [replSig_of_eq htn] at hv2 ⊢
          show levelN (rewireAll g n s) s.idx ≤ _
          rw [cone (rho s.idx) s.idx le_rfl (reachN_refl g s.idx)]
          rw [htn]
          exact hlev
        · rw [replSig_of_ne htn] at hv2 ⊢
          exact hv2
      have h1 := hcomp f hrf2
      have h2 := hcomp h hrh2
      have := natMaxMono h1 h2
      omega

theorem substituteNode_gates (g : Net) (n : Nat) (s : Sig) :
    (substituteNode g n s).gates = (rewireAll g n s).gates := by
  unfold substituteNode
  dsimp only
  split
  · rw [takeOut_gates]
  · rfl

theorem substituteNode_pos (g : Net) (n : Nat) (s : Sig) :
    (substituteNode g n s).pos = g.pos.map (replSig n s) := by
  unfold substituteNode
  dsimp only
  split
  · rw [takeOut_pos]
    rfl
  · rfl

theorem nsize_subst (g : Net) (n : Nat) (s : Sig) :
    nsize (substituteNode g n s) = nsize g := by
  unfold nsize
  rw [substituteNode_gates]
  simp [rewireAll]

theorem substituteNode_evalN {g : Net} {n : Nat} {s : Sig} {env : Nat → Bool}
    {rho : Nat → Nat} (hr : rankOk g rho) (hb : faninBounded g)
    (hreach : reachN g s.idx n = false) (hs : s.idx < nsize g)
    (heq : xor s.inv (evalN g env s.idx) = evalN g env n) (v : Nat) :
    evalN (substituteNode g n s) env v = evalN g env v := by
  rw [evalN_congr_gates (substituteNode_gates g n s) env v]
  exact rewire_evalN hr hb hreach hs heq v

theorem substituteNode_outputs {g : Net} {n : Nat} {s : Sig} {env : Nat → Bool}
    {rho : Nat → Nat} (hr : rankOk g rho) (hb : faninBounded g)
    (hreach : reachN g s.idx n = false) (hs : s.idx < nsize g)
    (heq : xor s.inv (evalN g env s.idx) = evalN g env n) :
    outputVals (substituteNode g n s) env = outputVals g env := by
  unfold outputVals
  rw [substituteNode_pos, List.map_map]
  apply List.map_congr_left
  intro t ht
  show evalSig (substituteNode g n s) env (replSig n s t) = evalSig g env t
  by_cases htn : t.idx = n
  · rw [replSig_of_eq htn]
    unfold evalSig
    dsimp only
    rw [substituteNode_evalN hr hb hreach hs heq s.idx]
    rw [Bool.xor_assoc, heq, htn]
  · rw [replSig_of_ne htn]
    unfold evalSig
    rw [substituteNode_evalN hr hb hreach hs heq t.idx]

theorem substituteNode_levelN_le {g : Net} {n : Nat} {s : Sig} {rho : Nat → Nat}
    (hr : rankOk g rho) (hb : faninBounded g) (hreach : reachN g s.idx n = false)
    (hs : s.idx < nsize g) (hlev : levelN g s.idx ≤ levelN g n) (v : Nat) :
    levelN (substituteNode g n s) v ≤ levelN g v := by
  rw [levelN_congr_gates (substituteNode_gates g n s) v]
  exact (rewire_levelN hr hb hreach hs).2 hlev v

theorem substituteNode_levelN_cone {g : Net} {n : Nat} {s : Sig} {rho : Nat → Nat}
    (hr : rankOk g rho) (hb : faninBounded g) (hreach : reachN g s.idx n = false)
    (hs : s.idx < nsize g) {v : Nat} (hcv : reachN g s.idx v = true) :
    levelN (substituteNode g n s) v = levelN g v := by
  rw [levelN_congr_gates (substituteNode_gates g n s) v]
  exact (rewire_levelN hr hb hreach hs).1 v hcv

theorem substituteNode_depth {g : Net} {n : Nat} {s : Sig} {rho : Nat → Nat}
    (hr : rankOk g rho) (hb : faninBounded g) (hreach : reachN g s.idx n = false)
    (hs : s.idx < nsize g) (hlev : levelN g s.idx ≤ levelN g n) :
    depthN (substituteNode g n s) ≤ depthN g := by
  unfold depthN
  rw [substituteNode_pos, List.map_map]
  apply listFoldrMax_le
  intro x hx
  obtain ⟨t, ht, hxe⟩ := List.mem_map.mp hx
  rw [← hxe]
  show levelN (substituteNode g n s) (replSig n s t).idx ≤ _
  have hmem : levelN g t.idx ∈ g.pos.map (fun s2 => levelN g s2.idx) :=
    List.mem_map.mpr ⟨t, ht, rfl⟩
  have hdep := listFoldrMax_ge _ _ hmem
  by_cases htn : t.idx = n
  · rw [replSig_of_eq htn]
    show levelN (substituteNode g n s) s.idx ≤ _
    rw [substituteNode_levelN_cone hr hb hreach hs (reachN_refl g s.idx)]
    rw [htn] at hdep
    omega
  · rw [replSig_of_ne htn]
    have := substituteNode_levelN_le hr hb hreach hs hlev t.idx
    omega

theorem rankOk_congr_gates {g g2 : Net} (hgg : g.gates = g2.gates) {rho : Nat → Nat}
    (hr : rankOk g rho) : rankOk g2 rho := by
  intro i hi f h hgi
  have hn : nsize g2 = nsize g := by unfold nsize; rw [hgg]
  rw [hn] at hi
  apply hr i hi f h
  unfold gateAt at hgi ⊢
  rw [hgg]
  exact hgi

theorem takeOut_NetInv {g : Net} {i fuel : Nat} (hI : NetInv g)
    (hAn : isAnd g i = true) (hfo : fanoutSize g i = 0) :
    NetInv (takeOut g i fuel) := by
  have hgg : g.gates = (takeOut g i fuel).gates := (takeOut_gates g i fuel).symm
  have hn : nsize (takeOut g i fuel) = nsize g := by unfold nsize; rw [← hgg]
  refine ⟨?_, ?_, ?_, ?_, ?_, ?_, ?_, ?_⟩
  · rw [takeOut_len, ← hgg]
    exact hI.len
  · unfold gateAt
    rw [← hgg]
    exact hI.zero
  · exact takeOut_zeroLive fuel g i hI.zero hI.zeroLive hAn
  · exact faninBounded_congr_gates hgg hI.bounded
  · intro t ht
    rw [takeOut_pos] at ht
    rw [hn]
    exact hI.posB t ht
  · have := takeOut_posLive fuel g i hI.posLive hfo
    intro t ht
    exact this t ht
  · have := takeOut_deadClosed fuel g i hI.deadClosed hfo
    intro j hj hdj f h hgj
    exact this j hj hdj f h hgj
  · obtain ⟨rho, hr⟩ := hI.acyclic
    exact ⟨rho, rankOk_congr_gates hgg hr⟩

theorem rewire_NetInv {g : Net} {n : Nat} {s : Sig} (hI : NetInv g)
    (hs : s.idx < nsize g) (hds : isDead g s.idx = false)
    (hreach : reachN g s.idx n = false) : NetInv (rewireAll g n s) := by
  refine ⟨?_, ?_, ?_, ?_, ?_, ?_, ?_, ?_⟩
  · show g.deadL.length = (g.gates.map (rewireGate n s)).length
    rw [List.length_map]
    exact hI.len
  · rw [gateAt_rewire, hI.zero, rewireGate_const]
  · rw [isDead_rewire]
    exact hI.zeroLive
  · exact faninBounded_rewire hI.bounded hs
  · intro t ht
    rw [pos_rewire] at ht
    obtain ⟨t0, ht0, hte⟩ := List.mem_map.mp ht
    rw [nsize_rewire, ← hte]
    by_cases htn : t0.idx = n
    · rw [replSig_of_eq htn]
      exact hs
    · rw [replSig_of_ne htn]
      exact hI.posB t0 ht0
  · intro t ht
    rw [pos_rewire] at ht
    obtain ⟨t0, ht0, hte⟩ := List.mem_map.mp ht
    rw [isDead_rewire, ← hte]
    by_cases htn : t0.idx = n
    · rw [replSig_of_eq htn]
      exact hds
    · rw [replSig_of_ne htn]
      exact hI.posLive t0 ht0
  · intro j hj hdj f2 h2 hgj
    rw [nsize_rewire] at hj
    rw [isDead_rewire] at hdj
    rw [gateAt_rewire] at hgj
    cases hgi : gateAt g j with
    | const => rw [hgi] at hgj; exact Gate.noConfusion hgj
    | pi => rw [hgi] at hgj; exact Gate.noConfusion hgj
    | andg f h =>
      rw [hgi] at hgj
      obtain ⟨he1, he2⟩ := Gate.andg.inj hgj
      obtain ⟨hcf, hch⟩ := hI.deadClosed j hj hdj f h hgi
      constructor
      · rw [isDead_rewire, ← he1]
        by_cases hfn : f.idx = n
        · rw [replSig_of_eq hfn]
          exact hds
        · rw [replSig_of_ne hfn]
          exact hcf
      · rw [isDead_rewire, ← he2]
        by_cases hhn : h.idx = n
        · rw [replSig_of_eq hhn]
          exact hds
        · rw [replSig_of_ne hhn]
          exact hch
  · obtain ⟨rho, hr⟩ := hI.acyclic
    exact ⟨subRank g s rho, rankOk_rewire hr hI.bounded hreach⟩

theorem substituteNode_NetInv {g : Net} {n : Nat} {s : Sig} (hI : NetInv g)
    (hs : s.idx < nsize g) (hds : isDead g s.idx = false)
    (hreach : reachN g s.idx n = false) : NetInv (substituteNode g n s) := by
  have hI1 : NetInv (rewireAll g n s) := rewire_NetInv hI hs hds hreach
  unfold substituteNode
  dsimp only
  split
  next hc =>
    simp only [Bool.and_eq_true, beq_iff_eq] at hc
    exact takeOut_NetInv hI1 hc.1 hc.2
  next hc => exact hI1

theorem reach_level_lt {g : Net} {rho : Nat → Nat} (hr : rankOk g rho)
    (hb : faninBounded g) {u v : Nat} (hru : reachN g u v = true) (hne : u ≠ v) :
    levelN g v < levelN g u := by
  cases hgu : gateAt g u with
  | const =>
    rw [reachN_nonand (by intro f h hc; rw [hgu] at hc; exact Gate.noConfusion hc)] at hru
    exact absurd (by simpa using hru) hne
  | pi =>
    rw [reachN_nonand (by intro f h hc; rw [hgu] at hc; exact Gate.noConfusion hc)] at hru
    exact absurd (by simpa using hru) hne
  | andg f h =>
    rw [reachN_unfold hr hb hgu] at hru
    simp only [Bool.or_eq_true, beq_iff_eq] at hru
    obtain ⟨hlf, hlh⟩ := levelN_fanin_lt hr hb hgu
    rcases hru with rfl | hru2
    · exact absurd rfl hne
    · rcases hru2 with hru3 | hru3
      · have := reachN_level_le hr hb hru3
        omega
      · have := reachN_level_le hr hb hru3
        omega

theorem notReach_of_level_le {g : Net} {rho : Nat → Nat} (hr : rankOk g rho)
    (hb : faninBounded g) {u v : Nat} (hlev : levelN g u ≤ levelN g v)
    (hne : u ≠ v) : reachN g u v = false := by
  cases hc : reachN g u v
  · rfl
  · have := reach_level_lt hr hb hc hne
    omega

theorem createAnd_res_idx_cases (g : Net) (f0 h0 : Sig) :
    (createAnd g f0 h0).2.idx = f0.idx ∨ (createAnd g f0 h0).2.idx = h0.idx ∨
    (createAnd g f0 h0).2.idx = 0 ∨ nsize g ≤ (createAnd g f0 h0).2.idx ∨
    (∃ f h, isDead g ((createAnd g f0 h0).2.idx) = false ∧
      gateAt g ((createAnd g f0 h0).2.idx) = Gate.andg f h ∧
      ((f = f0 ∧ h = h0) ∨ (f = h0 ∧ h = f0))) := by
  obtain ⟨a, b, hcp, hab, hcase⟩ := createAnd_result g f0 h0
  have hcc := canon_components hab
  rcases hcase with ⟨_, _, he⟩ | ⟨_, _, he⟩ | ⟨_, _, _, he⟩ | ⟨_, _, _, he⟩ |
    ⟨k, _, _, hfg, he⟩ | ⟨_, _, _, he⟩ <;> rw [he] <;> dsimp only
  · rcases hcc with ⟨rfl, rfl⟩ | ⟨rfl, rfl⟩
    · exact Or.inl rfl
    · exact Or.inr (Or.inl rfl)
  · exact Or.inr (Or.inr (Or.inl rfl))
  · rcases hcc with ⟨rfl, rfl⟩ | ⟨rfl, rfl⟩
    · exact Or.inr (Or.inl rfl)
    · exact Or.inl rfl
  · exact Or.inr (Or.inr (Or.inl rfl))
  · obtain ⟨hk1, hk2, hk3⟩ := findGate_some hfg
    refine Or.inr (Or.inr (Or.inr (Or.inr ⟨a, b, hk2, hk3, ?_⟩)))
    rcases hcc with ⟨rfl, rfl⟩ | ⟨rfl, rfl⟩
    · exact Or.inl ⟨rfl, rfl⟩
    · exact Or.inr ⟨rfl, rfl⟩
  · exact Or.inr (Or.inr (Or.inr (Or.inl le_rfl)))

theorem createAnd_cases2 (g : Net) (f0 h0 : Sig) (hf0 : f0.idx < nsize g)
    (hh0 : h0.idx < nsize g) :
    ((createAnd g f0 h0).1 = g ∧ (createAnd g f0 h0).2.idx < nsize g) ∨
    ((createAnd g f0 h0).1 =
        appendNode g (Gate.andg (canonPair f0 h0).1 (canonPair f0 h0).2) ∧
      (createAnd g f0 h0).2 = ⟨nsize g, false⟩) := by
  obtain ⟨a, b, hcp, hab, hcase⟩ := createAnd_result g f0 h0
  have hax : a.idx < nsize g ∧ b.idx < nsize g := by
    rcases canon_components hab with ⟨ha, hb2⟩ | ⟨ha, hb2⟩ <;> subst ha <;> subst hb2 <;>
      exact ⟨by assumption, by assumption⟩
  rcases hcase with ⟨_, _, he⟩ | ⟨_, _, he⟩ | ⟨_, _, _, he⟩ | ⟨_, _, _, he⟩ |
    ⟨k, _, _, hfg, he⟩ | ⟨_, _, _, he⟩ <;> rw [he] <;> dsimp only
  · exact Or.inl ⟨rfl, hax.1⟩
  · exact Or.inl ⟨rfl, by omega⟩
  · exact Or.inl ⟨rfl, hax.2⟩
  · exact Or.inl ⟨rfl, by omega⟩
  · exact Or.inl ⟨rfl, (findGate_some hfg).1⟩
  · rw [hcp]
    exact Or.inr ⟨rfl, rfl⟩

theorem phi_append {g : Net} {gt : Gate} {rho : Nat → Nat} (hr : rankOk g rho)
    (hb : faninBounded g) (hgb : gateBounded g gt)
    (hlen : g.deadL.length = g.gates.length) :
    phi (appendNode g gt) = phi g + phiW (appendNode g gt) (nsize g) := by
  unfold phi
  rw [nsize_append, Finset.sum_range_succ]
  congr 1
  apply Finset.sum_congr rfl
  intro i hi
  have hilt := Finset.mem_range.mp hi
  unfold phiW
  rw [isDead_append_lt hlen hilt, gateAt_append_lt hilt, levelN_append hr hb hgb hilt]

theorem phi_createAnd_le {g : Net} {f0 h0 : Sig} {rho : Nat → Nat}
    (hr : rankOk g rho) (hb : faninBounded g) (hf0 : f0.idx < nsize g)
    (hh0 : h0.idx < nsize g) (hlen : g.deadL.length = g.gates.length) :
    phi (createAnd g f0 h0).1 ≤
      phi g + 3 ^ (1 + Nat.max (levelN g f0.idx) (levelN g h0.idx)) := by
  rcases createAnd_net_cases g f0 h0 with he | he <;> rw [he]
  · exact Nat.le_add_right _ _
  · have hgb := canon_gateBounded (g := g) hf0 hh0
    rw [phi_append hr hb hgb hlen]
    have hnew : phiW (appendNode g (Gate.andg (canonPair f0 h0).1 (canonPair f0 h0).2))
        (nsize g) ≤ 3 ^ (1 + Nat.max (levelN g f0.idx) (levelN g h0.idx)) := by
      unfold phiW
      rw [isDead_append_self hlen, gateAt_append_self]
      have hax : (canonPair f0 h0).1.idx < nsize g ∧ (canonPair f0 h0).2.idx < nsize g := by
        rcases canonPair_cases f0 h0 with hc | hc <;> rw [hc] <;>
          exact ⟨by assumption, by assumption⟩
      have hb2 := faninBounded_append hb hgb
      have hr2 := rankOk_append hr hb hgb
      have hself := gateAt_append_self g
        (Gate.andg (canonPair f0 h0).1 (canonPair f0 h0).2)
      rw [levelN_unfold hr2 hb2 hself]
      rw [levelN_append hr hb hgb hax.1, levelN_append hr hb hgb hax.2]
      have hkey : Nat.max (levelN g (canonPair f0 h0).1.idx)
          (levelN g (canonPair f0 h0).2.idx) =
          Nat.max (levelN g f0.idx) (levelN g h0.idx) := by
        rcases canonPair_cases f0 h0 with hc | hc <;> rw [hc] <;> dsimp only
        exact sup_comm _ _
      rw [hkey]
      simp
    omega

theorem isDead_subst_mono {g : Net} {n : Nat} {s : Sig} {i : Nat}
    (hd : isDead g i = true) : isDead (substituteNode g n s) i = true := by
  unfold substituteNode
  dsimp only
  split
  · exact takeOut_dead_mono _ _ _ (by rw [isDead_rewire]; exact hd)
  · rw [isDead_rewire]
    exact hd

theorem phi_sub_le {gC : Net} {n : Nat} {s : Sig} {rho : Nat → Nat}
    (hr : rankOk gC rho) (hb : faninBounded gC)
    (hreach : reachN gC s.idx n = false) (hs : s.idx < nsize gC)
    (hlev : levelN gC s.idx ≤ levelN gC n)
    (K : Finset Nat) (hK : ∀ k ∈ K, k < nsize gC)
    (hdead : ∀ k ∈ K, isDead (substituteNode gC n s) k = true) :
    phi (substituteNode gC n s) + Finset.sum K (phiW gC) ≤ phi gC := by
  have hKsub : K ⊆ Finset.range (nsize gC) := by
    intro k hk
    exact Finset.mem_range.mpr (hK k hk)
  have hpw : ∀ i, phiW (substituteNode gC n s) i ≤ phiW gC i := by
    intro i
    unfold phiW
    cases hdi : isDead (substituteNode gC n s) i with
    | true => simp
    | false =>
      have hdg : isDead gC i = false := by
        cases hdg2 : isDead gC i
        · rfl
        · rw [isDead_subst_mono hdg2] at hdi
          exact Bool.noConfusion hdi
      rw [hdg]
      simp only [Bool.false_eq_true, if_false]
      have hgg : gateAt (substituteNode gC n s) i = rewireGate n s (gateAt gC i) := by
        unfold gateAt
        rw [substituteNode_gates]
        exact gateAt_rewire gC n s i
      cases hgi : gateAt gC i with
      | const =>
        rw [hgi] at hgg
        rw [hgg]
        exact Nat.zero_le _
      | pi =>
        rw [hgi] at hgg
        rw [hgg]
        exact Nat.zero_le _
      | andg f h =>
        rw [hgi] at hgg
        rw [hgg]
        dsimp only [rewireGate]
        have hle := substituteNode_levelN_le hr hb hreach hs hlev i
        exact Nat.pow_le_pow_right (by omega) hle
  have hzero : ∀ k ∈ K, phiW (substituteNode gC n s) k = 0 := by
    intro k hk
    unfold phiW
    rw [hdead k hk]
    simp
  have hsplit2 : Finset.sum (Finset.range (nsize gC) \ K) (phiW gC) +
      Finset.sum K (phiW gC) = phi gC := Finset.sum_sdiff hKsub
  have hsplit1 : Finset.sum (Finset.range (nsize gC) \ K) (phiW (substituteNode gC n s)) +
      Finset.sum K (phiW (substituteNode gC n s)) = phi (substituteNode gC n s) := by
    unfold phi
    rw [nsize_subst]
    exact Finset.sum_sdiff hKsub
  have hKzero : Finset.sum K (phiW (substituteNode gC n s)) = 0 :=
    Finset.sum_eq_zero hzero
  have hmain : Finset.sum (Finset.range (nsize gC) \ K) (phiW (substituteNode gC n s)) ≤
      Finset.sum (Finset.range (nsize gC) \ K) (phiW gC) :=
    Finset.sum_le_sum (fun i _ => hpw i)
  omega

theorem isAnd_rewire (g : Net) (n : Nat) (s : Sig) (i : Nat) :
    isAnd (rewireAll g n s) i = isAnd g i := by
  unfold isAnd
  rw [gateAt_rewire]
  cases gateAt g i <;> rfl

theorem faninCount_rewire_n {n : Nat} {s : Sig} (hsn : s.idx ≠ n) (gt : Gate) :
    faninCount (rewireGate n s gt) n = 0 := by
  cases gt with
  | const => rfl
  | pi => rfl
  | andg f h =>
    dsimp only [rewireGate, faninCount]
    have key : ∀ t : Sig, (replSig n s t).idx ≠ n := by
      intro t
      unfold replSig
      by_cases ht : t.idx = n
      · rw [if_pos ht]
        exact hsn
      · rw [if_neg ht]
        exact ht
    rw [if_neg (key f), if_neg (key h)]

theorem fanout_rewire_n {g : Net} {n : Nat} {s : Sig} (hsn : s.idx ≠ n) :
    fanoutSize (rewireAll g n s) n = 0 := by
  unfold fanoutSize
  rw [nsize_rewire, pos_rewire]
  have h1 : Finset.sum (Finset.range (nsize g))
      (fun m => if isDead (rewireAll g n s) m then 0
        else faninCount (gateAt (rewireAll g n s) m) n) = 0 := by
    apply Finset.sum_eq_zero
    intro m _
    rw [gateAt_rewire, faninCount_rewire_n hsn]
    simp
  have h2 : (g.pos.map (replSig n s)).countP (fun s2 => s2.idx = n) = 0 := by
    apply List.countP_eq_zero.mpr
    intro t ht
    obtain ⟨t0, _, hte⟩ := List.mem_map.mp ht
    rw [← hte]
    unfold replSig
    by_cases h0 : t0.idx = n
    · rw [if_pos h0]
      simp only [decide_eq_true_eq]
      exact hsn
    · rw [if_neg h0]
      simp only [decide_eq_true_eq]
      exact h0
  rw [h1, h2]

theorem faninCount_rewire_other {n : Nat} {s : Sig} {v : Nat} (hvn : v ≠ n)
    (hvs : v ≠ s.idx) (gt : Gate) :
    faninCount (rewireGate n s gt) v = faninCount gt v := by
  cases gt with
  | const => rfl
  | pi => rfl
  | andg f h =>
    dsimp only [rewireGate, faninCount]
    have key : ∀ t : Sig,
        (if (replSig n s t).idx = v then 1 else 0) = (if t.idx = v then 1 else 0) := by
      intro t
      unfold replSig
      by_cases ht : t.idx = n
      · rw [if_pos ht]
        dsimp only
        rw [if_neg (Ne.symm hvs), if_neg (by rw [ht]; exact Ne.symm hvn)]
      · rw [if_neg ht]
    rw [key f, key h]

theorem fanout_rewire_other {g : Net} {n : Nat} {s : Sig} {v : Nat} (hvn : v ≠ n)
    (hvs : v ≠ s.idx) : fanoutSize (rewireAll g n s) v = fanoutSize g v := by
  unfold fanoutSize
  rw [nsize_rewire, pos_rewire]
  congr 1
  · apply Finset.sum_congr rfl
    intro m _
    rw [gateAt_rewire, faninCount_rewire_other hvn hvs, isDead_rewire]
  · rw [List.countP_map]
    apply List.countP_congr
    intro t _
    simp only [Function.comp_apply, decide_eq_true_eq]
    by_cases ht : t.idx = n
    · unfold replSig
      rw [if_pos ht]
      dsimp only
      constructor
      · intro hc; exact absurd hc.symm hvs
      · intro hc; rw [ht] at hc; exact absurd hc.symm hvn
    · unfold replSig
      rw [if_neg ht]

theorem fanout_markDead_live {g : Net} {i : Nat} (hi : i < nsize g)
    (hdi : isDead g i = false) (hlen : g.deadL.length = g.gates.length) (v : Nat) :
    fanoutSize (markDead g i) v + faninCount (gateAt g i) v = fanoutSize g v := by
  unfold fanoutSize
  have hmem : i ∈ Finset.range (nsize g) := Finset.mem_range.mpr hi
  have hpos : (markDead g i).pos = g.pos := rfl
  have hn : nsize (markDead g i) = nsize g := rfl
  rw [hpos, hn]
  have hs1 : Finset.sum (Finset.range (nsize g))
      (fun m => if isDead (markDead g i) m then 0
        else faninCount (gateAt (markDead g i) m) v) =
      Finset.sum (Finset.range (nsize g) \ {i})
      (fun m => if isDead g m then 0 else faninCount (gateAt g m) v) := by
    rw [Finset.sum_eq_sum_diff_singleton_add hmem]
    have hterm : (if isDead (markDead g i) i then 0
        else faninCount (gateAt (markDead g i) i) v) = 0 := by
      rw [isDead_markDead_self (by rw [hlen]; exact hi)]
      simp
    rw [hterm, Nat.add_zero]
    apply Finset.sum_congr rfl
    intro m hm
    have hmne : m ≠ i := (Finset.mem_sdiff.mp hm).2 ∘ Finset.mem_singleton.mpr
    rw [isDead_markDead_ne hmne]
    rfl
  have hs2 : Finset.sum (Finset.range (nsize g))
      (fun m => if isDead g m then 0 else faninCount (gateAt g m) v) =
      Finset.sum (Finset.range (nsize g) \ {i})
      (fun m => if isDead g m then 0 else faninCount (gateAt g m) v) +
      faninCount (gateAt g i) v := by
    rw [Finset.sum_eq_sum_diff_singleton_add hmem]
    rw [hdi]
    simp
  rw [hs1, hs2]
  omega

theorem fanout_le_dead {g g2 : Net} (hgates : g.gates = g2.gates)
    (hpos : g.pos = g2.pos) (hdead : ∀ j, isDead g j = true → isDead g2 j = true)
    (v : Nat) : fanoutSize g2 v ≤ fanoutSize g v := by
  unfold fanoutSize
  have hn : nsize g2 = nsize g := by unfold nsize; rw [hgates]
  rw [hn, ← hpos]
  have hsum : Finset.sum (Finset.range (nsize g))
      (fun m => if isDead g2 m then 0 else faninCount (gateAt g2 m) v) ≤
      Finset.sum (Finset.range (nsize g))
      (fun m => if isDead g m then 0 else faninCount (gateAt g m) v) := by
    apply Finset.sum_le_sum
    intro m _
    cases hd2 : isDead g2 m with
    | true => simp
    | false =>
      have hd1 : isDead g m = false := by
        cases hd1b : isDead g m
        · rfl
        · rw [hdead m hd1b] at hd2; exact Bool.noConfusion hd2
      rw [hd1]
      have : gateAt g2 m = gateAt g m := by unfold gateAt; rw [hgates]
      rw [this]
  omega

theorem fanout_two {g : Net} {m1 m2 v : Nat} (hne : m1 ≠ m2) (h1 : m1 < nsize g)
    (h2 : m2 < nsize g) (hd1 : isDead g m1 = false) (hd2 : isDead g m2 = false)
    (hc1 : 0 < faninCount (gateAt g m1) v) (hc2 : 0 < faninCount (gateAt g m2) v) :
    2 ≤ fanoutSize g v := by
  unfold fanoutSize
  have hsub : ({m1, m2} : Finset Nat) ⊆ Finset.range (nsize g) := by
    intro x hx
    simp only [Finset.mem_insert, Finset.mem_singleton] at hx
    rcases hx with rfl | rfl
    · exact Finset.mem_range.mpr h1
    · exact Finset.mem_range.mpr h2
  have hpair : Finset.sum ({m1, m2} : Finset Nat)
      (fun m => if isDead g m then 0 else faninCount (gateAt g m) v) ≤
      Finset.sum (Finset.range (nsize g))
      (fun m => if isDead g m then 0 else faninCount (gateAt g m) v) :=
    Finset.sum_le_sum_of_subset hsub
  rw [Finset.sum_pair hne, hd1, hd2] at hpair
  simp only [Bool.false_eq_true, if_false] at hpair
  omega

theorem takeOut_kills_left {g : Net} {i : Nat} {f h : Sig} {fuel : Nat}
    (hlen : g.deadL.length = g.gates.length)
    (hg : gateAt g i = Gate.andg f h) (hf : f.idx < nsize g)
    (hAf : isAnd g f.idx = true)
    (hfo : fanoutSize (markDead g i) f.idx = 0) :
    isDead (takeOut g i (fuel + 2)) f.idx = true := by
  unfold takeOut
  dsimp only
  split
  next f2 h2 heq =>
    have hgm : gateAt (markDead g i) i = gateAt g i := rfl
    rw [hgm, hg] at heq
    obtain ⟨he1, he2⟩ := Gate.andg.inj heq.symm
    rw [he1, he2]
    have hc1 : (isAnd (markDead g i) f.idx &&
        (fanoutSize (markDead g i) f.idx == 0)) = true := by
      have hAm : isAnd (markDead g i) f.idx = isAnd g f.idx := rfl
      rw [hAm, hAf, hfo]
      rfl
    rw [if_pos hc1]
    have hkill : isDead (takeOut (markDead g i) f.idx (fuel + 1)) f.idx = true :=
      takeOut_kills (by rw [markDead_len]; exact hlen) hf
    split
    · exact takeOut_dead_mono _ _ _ hkill
    · exact hkill
  next heq =>
    have hgm : gateAt (markDead g i) i = gateAt g i := rfl
    rw [hgm, hg] at heq
    exact absurd rfl (heq f h)

theorem takeOut_kills_right {g : Net} {i : Nat} {f h : Sig} {fuel : Nat}
    (hlen : g.deadL.length = g.gates.length)
    (hg : gateAt g i = Gate.andg f h) (hh : h.idx < nsize g)
    (hAh : isAnd g h.idx = true)
    (hfo : fanoutSize (markDead g i) h.idx = 0) :
    isDead (takeOut g i (fuel + 2)) h.idx = true := by
  unfold takeOut
  dsimp only
  split
  next f2 h2 heq =>
    have hgm : gateAt (markDead g i) i = gateAt g i := rfl
    rw [hgm, hg] at heq
    obtain ⟨he1, he2⟩ := Gate.andg.inj heq.symm
    rw [he1, he2]
    split
    next hc1 =>
      have hdm : ∀ j, isDead (markDead g i) j = true →
          isDead (takeOut (markDead g i) f.idx (fuel + 1)) j = true :=
        fun j hj => takeOut_dead_mono _ _ _ hj
      have hg2 : (markDead g i).gates = (takeOut (markDead g i) f.idx (fuel + 1)).gates :=
        (takeOut_gates _ _ _).symm
      have hp2 : (markDead g i).pos = (takeOut (markDead g i) f.idx (fuel + 1)).pos :=
        (takeOut_pos _ _ _).symm
      have hfo2 : fanoutSize (takeOut (markDead g i) f.idx (fuel + 1)) h.idx = 0 := by
        have := fanout_le_dead hg2 hp2 hdm h.idx
        omega
      have hc2 : (isAnd (takeOut (markDead g i) f.idx (fuel + 1)) h.idx &&
          (fanoutSize (takeOut (markDead g i) f.idx (fuel + 1)) h.idx == 0)) = true := by
        have hAm : isAnd (takeOut (markDead g i) f.idx (fuel + 1)) h.idx =
            isAnd g h.idx := (isAnd_congr_gates (takeOut_gates _ _ _) h.idx)
        rw [hAm, hAh, hfo2]
        rfl
      rw [if_pos hc2]
      have hn2 : nsize (takeOut (markDead g i) f.idx (fuel + 1)) = nsize g := by
        unfold nsize
        rw [takeOut_gates]
        rfl
      exact takeOut_kills
        (by rw [takeOut_len, markDead_len, hlen]
            rw [takeOut_gates]
            rfl)
        (by rw [hn2]; exact hh)
    next hc1 =>
      have hc2 : (isAnd (markDead g i) h.idx &&
          (fanoutSize (markDead g i) h.idx == 0)) = true := by
        have hAm : isAnd (markDead g i) h.idx = isAnd g h.idx := rfl
        rw [hAm, hAh, hfo]
        rfl
      rw [if_pos hc2]
      exact takeOut_kills (by rw [markDead_len]; exact hlen) hh
  next heq =>
    have hgm : gateAt (markDead g i) i = gateAt g i := rfl
    rw [hgm, hg] at heq
    exact absurd rfl (heq f h)

theorem rewire_len {g : Net} (hlen : g.deadL.length = g.gates.length) (n : Nat) (s : Sig) :
    (rewireAll g n s).deadL.length = (rewireAll g n s).gates.length := by
  show g.deadL.length = (g.gates.map (rewireGate n s)).length
  rw [List.length_map]
  exact hlen

theorem subst_kills_n {g : Net} {n : Nat} {s : Sig} (hsn : s.idx ≠ n)
    (hlen : g.deadL.length = g.gates.length) (hAn : isAnd g n = true)
    (hn : n < nsize g) : isDead (substituteNode g n s) n = true := by
  unfold substituteNode
  dsimp only
  have hcond : (isAnd (rewireAll g n s) n &&
      (fanoutSize (rewireAll g n s) n == 0)) = true := by
    rw [isAnd_rewire, hAn, fanout_rewire_n hsn]
    rfl
  rw [if_pos hcond]
  exact takeOut_kills (rewire_len hlen n s) (by rw [nsize_rewire]; exact hn)

theorem fanout_after_cut {g : Net} {n : Nat} {s : Sig} {v : Nat} (hvn : v ≠ n)
    (hvs : v ≠ s.idx) (hn : n < nsize g) (hdn : isDead g n = false)
    (hlen : g.deadL.length = g.gates.length)
    (hfo1 : fanoutSize g v = faninCount (gateAt g n) v) :
    fanoutSize (markDead (rewireAll g n s) n) v = 0 := by
  have h1 : fanoutSize (rewireAll g n s) v = fanoutSize g v :=
    fanout_rewire_other hvn hvs
  have h2 : faninCount (gateAt (rewireAll g n s) n) v = faninCount (gateAt g n) v := by
    rw [gateAt_rewire]
    exact faninCount_rewire_other hvn hvs _
  have h3 := fanout_markDead_live (g := rewireAll g n s)
    (by rw [nsize_rewire]; exact hn) (by rw [isDead_rewire]; exact hdn)
    (rewire_len hlen n s) v
  omega

theorem subst_kills_left {g : Net} {n : Nat} {s : Sig} {x y : Sig}
    (hsn : s.idx ≠ n) (hlen : g.deadL.length = g.gates.length) (hn : n < nsize g)
    (hgn : gateAt g n = Gate.andg x y) (hxn : x.idx ≠ n) (hyn : y.idx ≠ n)
    (hx : x.idx < nsize g) (hAx : isAnd g x.idx = true) (hAn : isAnd g n = true)
    (hfo : fanoutSize (markDead (rewireAll g n s) n) x.idx = 0) :
    isDead (substituteNode g n s) x.idx = true := by
  unfold substituteNode
  dsimp only
  have hcond : (isAnd (rewireAll g n s) n &&
      (fanoutSize (rewireAll g n s) n == 0)) = true := by
    rw [isAnd_rewire, hAn, fanout_rewire_n hsn]
    rfl
  rw [if_pos hcond]
  obtain ⟨a, ha⟩ : ∃ a, nsize (rewireAll g n s) + 1 = a + 2 :=
    ⟨nsize g - 1, by rw [nsize_rewire]; omega⟩
  rw [ha]
  apply takeOut_kills_left (rewire_len hlen n s) (f := x) (h := y)
  · rw [gateAt_rewire, hgn]
    dsimp only [rewireGate]
    rw [replSig_of_ne hxn, replSig_of_ne hyn]
  · rw [nsize_rewire]
    exact hx
  · rw [isAnd_rewire]
    exact hAx
  · exact hfo

theorem subst_kills_right {g : Net} {n : Nat} {s : Sig} {x y : Sig}
    (hsn : s.idx ≠ n) (hlen : g.deadL.length = g.gates.length) (hn : n < nsize g)
    (hgn : gateAt g n = Gate.andg x y) (hxn : x.idx ≠ n) (hyn : y.idx ≠ n)
    (hy : y.idx < nsize g) (hAy : isAnd g y.idx = true) (hAn : isAnd g n = true)
    (hfo : fanoutSize (markDead (rewireAll g n s) n) y.idx = 0) :
    isDead (substituteNode g n s) y.idx = true := by
  unfold substituteNode
  dsimp only
  have hcond : (isAnd (rewireAll g n s) n &&
      (fanoutSize (rewireAll g n s) n == 0)) = true := by
    rw [isAnd_rewire, hAn, fanout_rewire_n hsn]
    rfl
  rw [if_pos hcond]
  obtain ⟨a, ha⟩ : ∃ a, nsize (rewireAll g n s) + 1 = a + 2 :=
    ⟨nsize g - 1, by rw [nsize_rewire]; omega⟩
  rw [ha]
  apply takeOut_kills_right (rewire_len hlen n s) (f := x) (h := y)
  · rw [gateAt_rewire, hgn]
    dsimp only [rewireGate]
    rw [replSig_of_ne hxn, replSig_of_ne hyn]
  · rw [nsize_rewire]
    exact hy
  · rw [isAnd_rewire]
    exact hAy
  · exact hfo

theorem tryAssoc_shape (g : Net) (n : Nat) :
    tryAssociativity g n = (g, none) ∨ ∃ s, (tryAssociativity g n).2 = some s := by
  unfold tryAssociativity
  dsimp only
  repeat
    first
    | (right; exact ⟨_, rfl⟩)
    | (left; rfl)
    | split

set_option maxHeartbeats 1000000 in
theorem tryDist_shape (g : Net) (n : Nat) :
    tryDistributivity g n = (g, none) ∨ ∃ s, (tryDistributivity g n).2 = some s := by
  unfold tryDistributivity
  dsimp only
  repeat
    first
    | (right; exact ⟨_, rfl⟩)
    | (left; rfl)
    | split

set_option maxHeartbeats 1000000 in
theorem tryDist3_shape (g : Net) (n : Nat) :
    tryDistributivity3lvBis g n = (g, none) ∨
      ∃ s, (tryDistributivity3lvBis g n).2 = some s := by
  unfold tryDistributivity3lvBis
  dsimp only
  repeat
    first
    | (right; exact ⟨_, rfl⟩)
    | (left; rfl)
    | split

theorem tryAssoc_fired {g : Net} {n : Nat} {g2 : Net} {s : Sig}
    (h : tryAssociativity g n = (g2, some s)) :
    critN g n = true ∧
    ∃ s0 s1 p q a0 a1 b a, gateAt g n = Gate.andg s0 s1 ∧
      ((p = s1 ∧ q = s0) ∨ (p = s0 ∧ q = s1)) ∧
      levelN g p.idx + 1 < levelN g q.idx ∧ q.inv = false ∧
      gateAt g q.idx = Gate.andg a0 a1 ∧
      ((b = a1 ∧ a = a0) ∨ (b = a0 ∧ a = a1)) ∧
      critN g a.idx = true ∧ critN g b.idx = false ∧
      g2 = substituteNode (createAnd (createAnd g p b).1 (createAnd g p b).2 a).1 n
        (createAnd (createAnd g p b).1 (createAnd g p b).2 a).2 ∧
      s = (createAnd (createAnd g p b).1 (createAnd g p b).2 a).2 := by
  unfold tryAssociativity at h
  dsimp only at h
  split at h
  next => exact Option.noConfusion (congrArg Prod.snd h)
  next hcrit =>
    have hcr : critN g n = true := by
      cases hcv : critN g n
      · exact absurd hcv hcrit
      · rfl
    refine ⟨hcr, ?_⟩
    split at h
    case h_2 => exact Option.noConfusion (congrArg Prod.snd h)
    case h_1 s0 s1 hgn =>
      split at h
      next => exact Option.noConfusion (congrArg Prod.snd h)
      next hpi =>
        split at h
        next => exact Option.noConfusion (congrArg Prod.snd h)
        next p q hpq =>
          split at h
          case h_2 => exact Option.noConfusion (congrArg Prod.snd h)
          case h_1 a0 a1 hgq =>
            split at h
            next => exact Option.noConfusion (congrArg Prod.snd h)
            next b a hba =>
              have hpqf : (p = s1 ∧ q = s0 ∧
                  levelN g s1.idx + 1 < levelN g s0.idx ∧ s0.inv = false) ∨
                  (p = s0 ∧ q = s1 ∧
                  levelN g s0.idx + 1 < levelN g s1.idx ∧ s1.inv = false) := by
                split at hpq
                next hc1 =>
                  simp only [Bool.and_eq_true, decide_eq_true_eq,
                    Bool.not_eq_true'] at hc1
                  obtain ⟨rfl, rfl⟩ := Prod.mk.inj (Option.some.inj hpq)
                  exact Or.inl ⟨rfl, rfl, by omega, hc1.2⟩
                next =>
                  split at hpq
                  next hc2 =>
                    simp only [Bool.and_eq_true, decide_eq_true_eq,
                      Bool.not_eq_true'] at hc2
                    obtain ⟨rfl, rfl⟩ := Prod.mk.inj (Option.some.inj hpq)
                    exact Or.inr ⟨rfl, rfl, by omega, hc2.2⟩
                  next => exact Option.noConfusion hpq
              have hbaf : (b = a1 ∧ a = a0 ∧ critN g a0.idx = true ∧
                  critN g a1.idx = false) ∨
                  (b = a0 ∧ a = a1 ∧ critN g a1.idx = true ∧
                  critN g a0.idx = false) := by
                split at hba
                next hc1 =>
                  simp only [Bool.and_eq_true, Bool.not_eq_true'] at hc1
                  obtain ⟨rfl, rfl⟩ := Prod.mk.inj (Option.some.inj hba)
                  exact Or.inl ⟨rfl, rfl, hc1.1, hc1.2⟩
                next =>
                  split at hba
                  next hc2 =>
                    simp only [Bool.and_eq_true, Bool.not_eq_true'] at hc2
                    obtain ⟨rfl, rfl⟩ := Prod.mk.inj (Option.some.inj hba)
                    exact Or.inr ⟨rfl, rfl, hc2.1, hc2.2⟩
                  next => exact Option.noConfusion hba
              obtain ⟨hg2, hs⟩ := Prod.mk.inj h
              refine ⟨s0, s1, p, q, a0, a1, b, a, hgn, ?_, ?_, ?_, hgq, ?_, ?_, ?_,
                hg2.symm, (Option.some.inj hs).symm⟩
              · rcases hpqf with ⟨h1, h2, _, _⟩ | ⟨h1, h2, _, _⟩
                · exact Or.inl ⟨h1, h2⟩
                · exact Or.inr ⟨h1, h2⟩
              · rcases hpqf with ⟨h1, h2, h3, _⟩ | ⟨h1, h2, h3, _⟩ <;> rw [h1, h2] <;>
                  exact h3
              · rcases hpqf with ⟨_, h2, _, h4⟩ | ⟨_, h2, _, h4⟩ <;> rw [h2] <;> exact h4
              · rcases hbaf with ⟨h1, h2, _, _⟩ | ⟨h1, h2, _, _⟩
                · exact Or.inl ⟨h1, h2⟩
                · exact Or.inr ⟨h1, h2⟩
              · rcases hbaf with ⟨_, h2, h3, _⟩ | ⟨_, h2, h3, _⟩ <;> rw [h2] <;> exact h3
              · rcases hbaf with ⟨h1, _, _, h4⟩ | ⟨h1, _, _, h4⟩ <;> rw [h1] <;> exact h4

theorem createAnd_outputs {g : Net} {f0 h0 : Sig} {env : Nat → Bool} {rho : Nat → Nat}
    (hr : rankOk g rho) (hb : faninBounded g) (hf0 : f0.idx < nsize g)
    (hh0 : h0.idx < nsize g) (hpb : ∀ t ∈ g.pos, t.idx < nsize g) :
    outputVals (createAnd g f0 h0).1 env = outputVals g env := by
  unfold outputVals
  rw [createAnd_pos]
  apply List.map_congr_left
  intro t ht
  unfold evalSig
  rw [createAnd_evalN_old hr hb hf0 hh0 (hpb t ht)]

theorem pow3_step (m : Nat) : 3 ^ m + 3 ^ (m + 1) < 3 ^ (m + 2) := by
  have h1 : 3 ^ (m + 1) = 3 ^ m * 3 := pow_succ 3 m
  have h2 : 3 ^ (m + 2) = 3 ^ m * 3 * 3 := by
    rw [pow_succ, pow_succ]
  have h0 : 0 < 3 ^ m := pow_pos (by omega) m
  omega

theorem tryAssoc_master {g : Net} {n : Nat} {g2 : Net} {s : Sig}
    (hI : NetInv g) (hdn : isDead g n = false) (hn : n < nsize g)
    (h : tryAssociativity g n = (g2, some s)) :
    NetInv g2 ∧ nsize g ≤ nsize g2 ∧
    (∀ env, outputVals g2 env = outputVals g env) ∧
    depthN g2 ≤ depthN g ∧ phi g2 < phi g ∧
    levelN g2 s.idx < levelN g n := by
  obtain ⟨hcr, s0, s1, p, q, a0, a1, b, a, hgn, hpqd, hplev, hqinv, hgq, hbad,
    hca, hcb, hg2e, hse⟩ := tryAssoc_fired h
  subst hg2e
  subst hse
  obtain ⟨rho, hr⟩ := hI.acyclic
  have hfb : faninBounded g := hI.bounded
  have hz := hI.zero
  have hlen := hI.len
  obtain ⟨hs0b, hs1b⟩ := hI.bounded n hn s0 s1 hgn
  obtain ⟨hs0l, hs1l⟩ := hI.deadClosed n hn hdn s0 s1 hgn
  have hbounds : p.idx < nsize g ∧ q.idx < nsize g := by
    rcases hpqd with ⟨h1, h2⟩ | ⟨h1, h2⟩ <;> rw [h1, h2]
    · exact ⟨hs1b, hs0b⟩
    · exact ⟨hs0b, hs1b⟩
  have hlive : isDead g p.idx = false ∧ isDead g q.idx = false := by
    rcases hpqd with ⟨h1, h2⟩ | ⟨h1, h2⟩ <;> rw [h1, h2]
    · exact ⟨hs1l, hs0l⟩
    · exact ⟨hs0l, hs1l⟩
  have hfq : hasFanin g n q.idx = true := by
    unfold hasFanin
    rw [hgn]
    rcases hpqd with ⟨h1, h2⟩ | ⟨h1, h2⟩ <;> rw [h2] <;> simp
  have hpql : ∀ env : Nat → Bool,
      evalN g env n = (evalSig g env p && evalSig g env q) := by
    intro env
    rw [evalN_unfold hr hfb hgn]
    show (evalSig g env s0 && evalSig g env s1) = _
    rcases hpqd with ⟨h1, h2⟩ | ⟨h1, h2⟩ <;> rw [h1, h2]
    exact (Bool.and_comm _ _)
  have hmax : Nat.max (levelN g s0.idx) (levelN g s1.idx) =
      Nat.max (levelN g p.idx) (levelN g q.idx) := by
    rcases hpqd with ⟨h1, h2⟩ | ⟨h1, h2⟩ <;> rw [h1, h2]
    exact (sup_comm _ _).symm
  have hln : levelN g n = levelN g q.idx + 1 := by
    rw [levelN_unfold hr hfb hgn, hmax]
    have hge := natMaxRight (levelN g p.idx) (levelN g q.idx)
    rcases natMaxCases (levelN g p.idx) (levelN g q.idx) with hmc | hmc <;> omega
  have hcq : critN g q.idx = true := crit_step hr hfb hn hfq hln hdn hcr
  obtain ⟨ha0b, ha1b⟩ := hI.bounded q.idx hbounds.2 a0 a1 hgq
  obtain ⟨ha0l, ha1l⟩ := hI.deadClosed q.idx hbounds.2 hlive.2 a0 a1 hgq
  have habb : b.idx < nsize g ∧ a.idx < nsize g := by
    rcases hbad with ⟨h1, h2⟩ | ⟨h1, h2⟩ <;> rw [h1, h2]
    · exact ⟨ha1b, ha0b⟩
    · exact ⟨ha0b, ha1b⟩
  have habl : isDead g b.idx = false ∧ isDead g a.idx = false := by
    rcases hbad with ⟨h1, h2⟩ | ⟨h1, h2⟩ <;> rw [h1, h2]
    · exact ⟨ha1l, ha0l⟩
    · exact ⟨ha0l, ha1l⟩
  have hfbq : hasFanin g q.idx b.idx = true := by
    unfold hasFanin
    rw [hgq]
    rcases hbad with ⟨h1, h2⟩ | ⟨h1, h2⟩ <;> rw [h1] <;> simp
  have hla : levelN g a.idx < levelN g q.idx := by
    obtain ⟨hf1, hf2⟩ := levelN_fanin_lt hr hfb hgq
    rcases hbad with ⟨h1, h2⟩ | ⟨h1, h2⟩ <;> rw [h2]
    · exact hf1
    · exact hf2
  have hlb : levelN g b.idx + 2 ≤ levelN g q.idx := by
    obtain ⟨hf1, hf2⟩ := levelN_fanin_lt hr hfb hgq
    have hblt : levelN g b.idx < levelN g q.idx := by
      rcases hbad with ⟨h1, h2⟩ | ⟨h1, h2⟩ <;> rw [h1]
      · exact hf2
      · exact hf1
    by_contra hcon
    have heq1 : levelN g q.idx = levelN g b.idx + 1 := by omega
    have hcrb := crit_step hr hfb hbounds.2 hfbq heq1 hlive.2 hcq
    rw [hcb] at hcrb
    exact Bool.noConfusion hcrb
  set gC1 := (createAnd g p b).1 with hgC1
  set r1 := (createAnd g p b).2 with hr1e
  set gC2 := (createAnd gC1 r1 a).1 with hgC2
  set s := (createAnd gC1 r1 a).2 with hsee
  have hI1 : NetInv gC1 := createAnd_NetInv hI hbounds.1 habb.1 hlive.1 habl.1
  obtain ⟨rho1, hrk1⟩ := hI1.acyclic
  have hfb1 : faninBounded gC1 := hI1.bounded
  have hr1b : r1.idx < nsize gC1 := createAnd_res_lt hbounds.1 habb.1
  have hsz1 : nsize g ≤ nsize gC1 := createAnd_size_ge g p b
  have hab1 : a.idx < nsize gC1 := lt_of_lt_of_le habb.2 hsz1
  have hr1l : isDead gC1 r1.idx = false := createAnd_res_live hlen hlive.1 habl.1 hI.zeroLive
  have hal1 : isDead gC1 a.idx = false := by
    rw [createAnd_isDead_old hlen habb.2]
    exact habl.2
  have hI2 : NetInv gC2 := createAnd_NetInv hI1 hr1b hab1 hr1l hal1
  obtain ⟨rho2, hrk2⟩ := hI2.acyclic
  have hfb2 : faninBounded gC2 := hI2.bounded
  have hsz2 : nsize gC1 ≤ nsize gC2 := createAnd_size_ge gC1 r1 a
  have hsb : s.idx < nsize gC2 := createAnd_res_lt hr1b hab1
  have hsl : isDead gC2 s.idx = false :=
    createAnd_res_live hI1.len hr1l hal1 hI1.zeroLive
  have hl1r1 : levelN gC1 r1.idx ≤ 1 + Nat.max (levelN g p.idx) (levelN g b.idx) :=
    createAnd_level_le hr hfb hbounds.1 habb.1 hz
  have hl1a : levelN gC1 a.idx = levelN g a.idx :=
    createAnd_levelN_old hr hfb hbounds.1 habb.1 habb.2
  have hl1n : levelN gC1 n = levelN g n :=
    createAnd_levelN_old hr hfb hbounds.1 habb.1 hn
  have hl2s : levelN gC2 s.idx ≤ 1 + Nat.max (levelN gC1 r1.idx) (levelN gC1 a.idx) :=
    createAnd_level_le hrk1 hfb1 hr1b hab1 hI1.zero
  have hl2n : levelN gC2 n = levelN g n := by
    rw [createAnd_levelN_old hrk1 hfb1 hr1b hab1 (lt_of_lt_of_le hn hsz1), hl1n]
  have hmxb : Nat.max (levelN g p.idx) (levelN g b.idx) + 2 ≤ levelN g q.idx := by
    rcases natMaxCases (levelN g p.idx) (levelN g b.idx) with hmc | hmc <;> omega
  have hmxb2 : Nat.max (levelN gC1 r1.idx) (levelN gC1 a.idx) + 1 ≤ levelN g q.idx := by
    rcases natMaxCases (levelN gC1 r1.idx) (levelN gC1 a.idx) with hmc | hmc <;>
      rw [hmc] <;> first
      | omega
      | (rw [hl1a]; omega)
  have hlsn : levelN gC2 s.idx < levelN gC2 n := by
    rw [hl2n, hln]
    omega
  have hsnn : s.idx ≠ n := by
    intro hcc
    rw [hcc] at hlsn
    omega
  have hreach : reachN gC2 s.idx n = false :=
    notReach_of_level_le hrk2 hfb2 (le_of_lt hlsn) hsnn
  have hgn2 : gateAt gC2 n = Gate.andg s0 s1 := by
    rw [createAnd_gateAt_old (lt_of_lt_of_le hn hsz1), createAnd_gateAt_old hn, hgn]
  have hAn2 : isAnd gC2 n = true := by
    unfold isAnd
    rw [hgn2]
  have hdn2 : isDead gC2 n = false := by
    rw [createAnd_isDead_old hI1.len (lt_of_lt_of_le hn hsz1),
      createAnd_isDead_old hlen hn]
    exact hdn
  have hlev2 : levelN gC2 s.idx ≤ levelN gC2 n := le_of_lt hlsn
  have heq : ∀ env, xor s.inv (evalN gC2 env s.idx) = evalN gC2 env n := by
    intro env
    have e1 : xor s.inv (evalN gC2 env s.idx) = evalSig gC2 env s := rfl
    have e2 : evalSig gC2 env s = (evalSig gC1 env r1 && evalSig gC1 env a) :=
      createAnd_evalSig hrk1 hfb1 hr1b hab1 hI1.zero
    have e3 : evalSig gC1 env r1 = (evalSig g env p && evalSig g env b) :=
      createAnd_evalSig hr hfb hbounds.1 habb.1 hz
    have e4 : evalSig gC1 env a = evalSig g env a := by
      unfold evalSig
      rw [createAnd_evalN_old hr hfb hbounds.1 habb.1 habb.2]
    have e5 : evalN gC2 env n = evalN g env n := by
      rw [createAnd_evalN_old hrk1 hfb1 hr1b hab1 (lt_of_lt_of_le hn hsz1),
        createAnd_evalN_old hr hfb hbounds.1 habb.1 hn]
    have hq1 : evalSig g env q = (evalSig g env a && evalSig g env b) := by
      show xor q.inv (evalN g env q.idx) = _
      rw [hqinv, bfalse_xor, evalN_unfold hr hfb hgq]
      show (evalSig g env a0 && evalSig g env a1) = _
      rcases hbad with ⟨h1, h2⟩ | ⟨h1, h2⟩ <;> rw [h1, h2]
      exact (Bool.and_comm _ _)
    rw [e1, e2, e3, e4, e5, hpql env, hq1]
    cases evalSig g env p <;> cases evalSig g env b <;> cases evalSig g env a <;> rfl
  refine ⟨?_, ?_, ?_, ?_, ?_, ?_⟩
  · exact substituteNode_NetInv hI2 hsb hsl hreach
  · rw [nsize_subst]
    omega
  · intro env
    rw [substituteNode_outputs hrk2 hfb2 hreach hsb (heq env)]
    rw [createAnd_outputs hrk1 hfb1 hr1b hab1 hI1.posB]
    rw [createAnd_outputs hr hfb hbounds.1 habb.1 hI.posB]
  · have hd1 := substituteNode_depth hrk2 hfb2 hreach hsb hlev2
    rw [createAnd_depth hrk1 hfb1 hr1b hab1 hI1.posB] at hd1
    rw [createAnd_depth hr hfb hbounds.1 habb.1 hI.posB] at hd1
    exact hd1
  · have hp1 : phi gC1 ≤ phi g + 3 ^ (1 + Nat.max (levelN g p.idx) (levelN g b.idx)) :=
      phi_createAnd_le hr hfb hbounds.1 habb.1 hlen
    have hp2 : phi gC2 ≤ phi gC1 +
        3 ^ (1 + Nat.max (levelN gC1 r1.idx) (levelN gC1 a.idx)) :=
      phi_createAnd_le hrk1 hfb1 hr1b hab1 hI1.len
    have hkill : isDead (substituteNode gC2 n s) n = true :=
      subst_kills_n hsnn hI2.len hAn2 (lt_of_lt_of_le hn (le_trans hsz1 hsz2))
    have hdrop := phi_sub_le hrk2 hfb2 hreach hsb hlev2 {n}
      (by intro k hk
          rw [Finset.mem_singleton.mp hk]
          exact lt_of_lt_of_le hn (le_trans hsz1 hsz2))
      (by intro k hk
          rw [Finset.mem_singleton.mp hk]
          exact hkill)
    rw [Finset.sum_singleton] at hdrop
    have hphiWn : phiW gC2 n = 3 ^ levelN g n := by
      unfold phiW
      rw [hdn2, hgn2]
      show (3 : Nat) ^ levelN gC2 n = 3 ^ levelN g n
      rw [hl2n]
    rw [hphiWn, hln] at hdrop
    have hq2 : 2 ≤ levelN g q.idx := by omega
    have he1 : 1 + Nat.max (levelN g p.idx) (levelN g b.idx) ≤ levelN g q.idx - 1 := by
      omega
    have he2 : 1 + Nat.max (levelN gC1 r1.idx) (levelN gC1 a.idx) ≤ levelN g q.idx := by
      omega
    have hm1 : 3 ^ (1 + Nat.max (levelN g p.idx) (levelN g b.idx)) ≤
        3 ^ (levelN g q.idx - 1) := Nat.pow_le_pow_right (by omega) he1
    have hm2 : 3 ^ (1 + Nat.max (levelN gC1 r1.idx) (levelN gC1 a.idx)) ≤
        3 ^ levelN g q.idx := Nat.pow_le_pow_right (by omega) he2
    have hstep := pow3_step (levelN g q.idx - 1)
    have hrw : levelN g q.idx - 1 + 1 = levelN g q.idx := by omega
    have hrw2 : levelN g q.idx - 1 + 2 = levelN g q.idx + 1 := by omega
    rw [hrw, hrw2] at hstep
    omega
  · have hcone := substituteNode_levelN_cone hrk2 hfb2 hreach hsb (reachN_refl gC2 s.idx)
    rw [hcone]
    rw [hl2n] at hlsn
    exact hlsn

theorem selPair {α : Type} {P : Prop} [inst : Decidable P] (x y : α) :
    ∃ z d, (if P then (x, y) else (y, x)) = (z, d) ∧
      ((z = x ∧ d = y) ∨ (z = y ∧ d = x)) := by
  split
  · exact ⟨x, y, rfl, Or.inl ⟨rfl, rfl⟩⟩
  · exact ⟨y, x, rfl, Or.inr ⟨rfl, rfl⟩⟩

theorem tryDist3_fired {g : Net} {n : Nat} {g2 : Net} {s : Sig}
    (h : tryDistributivity3lvBis g n = (g2, some s)) :
    ∃ s0 s1 z d t0 t1 w c u0 u1 b a,
      gateAt g n = Gate.andg s0 s1 ∧
      ((z = s0 ∧ d = s1) ∨ (z = s1 ∧ d = s0)) ∧
      z.inv = true ∧ 3 < levelN g z.idx - levelN g d.idx ∧
      gateAt g z.idx = Gate.andg t0 t1 ∧
      ((w = t0 ∧ c = t1) ∨ (w = t1 ∧ c = t0)) ∧
      w.inv = true ∧ 0 < levelN g w.idx - levelN g c.idx ∧
      gateAt g w.idx = Gate.andg u0 u1 ∧
      ((b = u0 ∧ a = u1) ∨ (b = u1 ∧ a = u0)) ∧
      0 < levelN g b.idx - levelN g a.idx ∧
      (∃ gA rA gB rB gCc rC gD rD,
        createAnd g a d = (gA, rA) ∧
        createAnd gA rA b = (gB, rB) ∧
        createAnd gB (negSig c) d = (gCc, rC) ∧
        createAnd gCc (negSig rB) (negSig rC) = (gD, rD) ∧
        g2 = substituteNode gD n (negSig rD) ∧ s = negSig rD) := by
  unfold tryDistributivity3lvBis at h
  dsimp only at h
  split at h
  case h_2 => exact Option.noConfusion (congrArg Prod.snd h)
  case h_1 s0 s1 hgn =>
    obtain ⟨z, d, hzd, hzdp⟩ :=
      selPair (P := levelN g s0.idx > levelN g s1.idx) s0 s1
    rw [hzd] at h
    dsimp only at h
    split at h
    next => exact Option.noConfusion (congrArg Prod.snd h)
    next hcond1 =>
      simp only [Bool.or_eq_true, decide_eq_true_eq, not_or,
        Bool.not_eq_true] at hcond1
      obtain ⟨hzi0, hzl0⟩ := hcond1
      have hzi : z.inv = true := by
        cases hv : z.inv
        · rw [hv] at hzi0
          exact Bool.noConfusion hzi0
        · rfl
      have hzl : 3 < levelN g z.idx - levelN g d.idx := by omega
      split at h
      case h_2 => exact Option.noConfusion (congrArg Prod.snd h)
      case h_1 t0 t1 hgz =>
        obtain ⟨w, c, hwc, hwcp⟩ :=
          selPair (P := levelN g t0.idx > levelN g t1.idx) t0 t1
        rw [hwc] at h
        dsimp only at h
        split at h
        next => exact Option.noConfusion (congrArg Prod.snd h)
        next hcond2 =>
          simp only [Bool.or_eq_true, decide_eq_true_eq, not_or,
            Bool.not_eq_true] at hcond2
          obtain ⟨hwi0, hwl0⟩ := hcond2
          have hwi : w.inv = true := by
            cases hv : w.inv
            · rw [hv] at hwi0
              exact Bool.noConfusion hwi0
            · rfl
          have hwl : 0 < levelN g w.idx - levelN g c.idx := by omega
          split at h
          case h_2 => exact Option.noConfusion (congrArg Prod.snd h)
          case h_1 u0 u1 hgw =>
            obtain ⟨b, a, hba, hbap⟩ :=
              selPair (P := levelN g u0.idx > levelN g u1.idx) u0 u1
            rw [hba] at h
            dsimp only at h
            split at h
            next => exact Option.noConfusion (congrArg Prod.snd h)
            next hcond3 =>
              have hbl : 0 < levelN g b.idx - levelN g a.idx := by omega
              obtain ⟨hg2e, hsse⟩ := Prod.mk.inj h
              exact ⟨s0, s1, z, d, t0, t1, w, c, u0, u1, b, a, hgn, hzdp, hzi,
                hzl, hgz, hwcp, hwi, hwl, hgw, hbap, hbl,
                _, _, _, _, _, _, _, _, Prod.mk.eta.symm, Prod.mk.eta.symm,
                Prod.mk.eta.symm, Prod.mk.eta.symm, hg2e.symm,
                (Option.some.inj hsse).symm⟩

theorem createAnd_step {g : Net} {f0 h0 : Sig} {gA : Net} {rA : Sig} (hI : NetInv g)
    (hE : createAnd g f0 h0 = (gA, rA))
    (hf0 : f0.idx < nsize g) (hh0 : h0.idx < nsize g)
    (hdf : isDead g f0.idx = false) (hdh : isDead g h0.idx = false) :
    NetInv gA ∧ nsize g ≤ nsize gA ∧ rA.idx < nsize gA ∧ isDead gA rA.idx = false ∧
    (∀ i, i < nsize g → levelN gA i = levelN g i) ∧
    (∀ env i, i < nsize g → evalN gA env i = evalN g env i) ∧
    (∀ i, i < nsize g → gateAt gA i = gateAt g i) ∧
    (∀ i, i < nsize g → isDead gA i = isDead g i) ∧
    (∀ env, outputVals gA env = outputVals g env) ∧
    depthN gA = depthN g ∧
    levelN gA rA.idx ≤ 1 + Nat.max (levelN g f0.idx) (levelN g h0.idx) ∧
    (∀ env, evalSig gA env rA = (evalSig g env f0 && evalSig g env h0)) ∧
    phi gA ≤ phi g + 3 ^ (1 + Nat.max (levelN g f0.idx) (levelN g h0.idx)) ∧
    gA.pos = g.pos := by
  obtain ⟨rho, hr⟩ := hI.acyclic
  have hfb : faninBounded g := hI.bounded
  refine ⟨?_, ?_, ?_, ?_, ?_, ?_, ?_, ?_, ?_, ?_, ?_, ?_, ?_, ?_⟩
  · have := createAnd_NetInv hI hf0 hh0 hdf hdh
    rw [hE] at this
    exact this
  · have := createAnd_size_ge g f0 h0
    rw [hE] at this
    exact this
  · have := createAnd_res_lt hf0 hh0
    rw [hE] at this
    exact this
  · have := createAnd_res_live hI.len hdf hdh hI.zeroLive
    rw [hE] at this
    exact this
  · intro i hi
    have := createAnd_levelN_old hr hfb hf0 hh0 hi
    rw [hE] at this
    exact this
  · intro env i hi
    have := @createAnd_evalN_old g f0 h0 env rho hr hfb hf0 hh0 i hi
    rw [hE] at this
    exact this
  · intro i hi
    have := @createAnd_gateAt_old g f0 h0 i hi
    rw [hE] at this
    exact this
  · intro i hi
    have := @createAnd_isDead_old g f0 h0 i hI.len hi
    rw [hE] at this
    exact this
  · intro env
    have := @createAnd_outputs g f0 h0 env rho hr hfb hf0 hh0 hI.posB
    rw [hE] at this
    exact this
  · have := createAnd_depth hr hfb hf0 hh0 hI.posB
    rw [hE] at this
    exact this
  · have := createAnd_level_le hr hfb hf0 hh0 hI.zero
    rw [hE] at this
    exact this
  · intro env
    have := @createAnd_evalSig g f0 h0 env rho hr hfb hf0 hh0 hI.zero
    rw [hE] at this
    exact this
  · have := phi_createAnd_le hr hfb hf0 hh0 hI.len
    rw [hE] at this
    exact this
  · have := createAnd_pos g f0 h0
    rw [hE] at this
    exact this

theorem evalSig_neg (g : Net) (env : Nat → Bool) (t : Sig) :
    evalSig g env (negSig t) = !(evalSig g env t) := by
  unfold evalSig negSig
  dsimp only
  cases t.inv <;> cases evalN g env t.idx <;> rfl

theorem negSig_idx (t : Sig) : (negSig t).idx = t.idx := rfl

theorem tryDist3_master {g : Net} {n : Nat} {g2 : Net} {s : Sig}
    (hI : NetInv g) (hdn : isDead g n = false) (hn : n < nsize g)
    (h : tryDistributivity3lvBis g n = (g2, some s)) :
    NetInv g2 ∧ nsize g ≤ nsize g2 ∧
    (∀ env, outputVals g2 env = outputVals g env) ∧
    depthN g2 ≤ depthN g ∧ phi g2 < phi g ∧
    levelN g2 s.idx < levelN g n := by
  obtain ⟨s0, s1, z, d, t0, t1, w, c, u0, u1, b, a, hgn, hzdp, hzi, hzl, hgz,
    hwcp, hwi, hwl, hgw, hbap, hbl, gA, rA, gB, rB, gCc, rC, gD, rD,
    hA, hB, hC, hD, hg2e, hse⟩ := tryDist3_fired h
  subst hg2e
  subst hse
  obtain ⟨rho, hr⟩ := hI.acyclic
  have hfb : faninBounded g := hI.bounded
  obtain ⟨hs0b, hs1b⟩ := hI.bounded n hn s0 s1 hgn
  obtain ⟨hs0l, hs1l⟩ := hI.deadClosed n hn hdn s0 s1 hgn
  have hzb : z.idx < nsize g ∧ d.idx < nsize g := by
    rcases hzdp with ⟨h1, h2⟩ | ⟨h1, h2⟩ <;> rw [h1, h2]
    · exact ⟨hs0b, hs1b⟩
    · exact ⟨hs1b, hs0b⟩
  have hzlv : isDead g z.idx = false ∧ isDead g d.idx = false := by
    rcases hzdp with ⟨h1, h2⟩ | ⟨h1, h2⟩ <;> rw [h1, h2]
    · exact ⟨hs0l, hs1l⟩
    · exact ⟨hs1l, hs0l⟩
  obtain ⟨ht0b, ht1b⟩ := hI.bounded z.idx hzb.1 t0 t1 hgz
  obtain ⟨ht0l, ht1l⟩ := hI.deadClosed z.idx hzb.1 hzlv.1 t0 t1 hgz
  have hwb : w.idx < nsize g ∧ c.idx < nsize g := by
    rcases hwcp with ⟨h1, h2⟩ | ⟨h1, h2⟩ <;> rw [h1, h2]
    · exact ⟨ht0b, ht1b⟩
    · exact ⟨ht1b, ht0b⟩
  have hwlv : isDead g w.idx = false ∧ isDead g c.idx = false := by
    rcases hwcp with ⟨h1, h2⟩ | ⟨h1, h2⟩ <;> rw [h1, h2]
    · exact ⟨ht0l, ht1l⟩
    · exact ⟨ht1l, ht0l⟩
  obtain ⟨hu0b, hu1b⟩ := hI.bounded w.idx hwb.1 u0 u1 hgw
  obtain ⟨hu0l, hu1l⟩ := hI.deadClosed w.idx hwb.1 hwlv.1 u0 u1 hgw
  have hbb : b.idx < nsize g ∧ a.idx < nsize g := by
    rcases hbap with ⟨h1, h2⟩ | ⟨h1, h2⟩ <;> rw [h1, h2]
    · exact ⟨hu0b, hu1b⟩
    · exact ⟨hu1b, hu0b⟩
  have hblv : isDead g b.idx = false ∧ isDead g a.idx = false := by
    rcases hbap with ⟨h1, h2⟩ | ⟨h1, h2⟩ <;> rw [h1, h2]
    · exact ⟨hu0l, hu1l⟩
    · exact ⟨hu1l, hu0l⟩
  -- level structure
  have hmaxzd : Nat.max (levelN g s0.idx) (levelN g s1.idx) =
      Nat.max (levelN g z.idx) (levelN g d.idx) := by
    rcases hzdp with ⟨h1, h2⟩ | ⟨h1, h2⟩ <;> rw [h1, h2]
    exact sup_comm _ _
  have hln : levelN g n = levelN g z.idx + 1 := by
    rw [levelN_unfold hr hfb hgn, hmaxzd]
    have hgeL := natMaxLeft (levelN g z.idx) (levelN g d.idx)
    rcases natMaxCases (levelN g z.idx) (levelN g d.idx) with hmc | hmc <;> omega
  have hmaxwc : Nat.max (levelN g t0.idx) (levelN g t1.idx) =
      Nat.max (levelN g w.idx) (levelN g c.idx) := by
    rcases hwcp with ⟨h1, h2⟩ | ⟨h1, h2⟩ <;> rw [h1, h2]
    exact sup_comm _ _
  have hlz : levelN g z.idx = levelN g w.idx + 1 := by
    rw [levelN_unfold hr hfb hgz, hmaxwc]
    have hgeL := natMaxLeft (levelN g w.idx) (levelN g c.idx)
    rcases natMaxCases (levelN g w.idx) (levelN g c.idx) with hmc | hmc <;> omega
  have hmaxba : Nat.max (levelN g u0.idx) (levelN g u1.idx) =
      Nat.max (levelN g b.idx) (levelN g a.idx) := by
    rcases hbap with ⟨h1, h2⟩ | ⟨h1, h2⟩ <;> rw [h1, h2]
    exact sup_comm _ _
  have hlw : levelN g w.idx = levelN g b.idx + 1 := by
    rw [levelN_unfold hr hfb hgw, hmaxba]
    have hgeL := natMaxLeft (levelN g b.idx) (levelN g a.idx)
    rcases natMaxCases (levelN g b.idx) (levelN g a.idx) with hmc | hmc <;> omega
  have hla : levelN g a.idx < levelN g b.idx := by omega
  have hlc : levelN g c.idx ≤ levelN g b.idx := by omega
  have hld : levelN g d.idx + 2 ≤ levelN g b.idx := by omega
  have hln3 : levelN g n = levelN g b.idx + 3 := by omega
  -- the four creates
  obtain ⟨hIA, hszA, hrAb, hrAl, hlvA, hevA, hgtA, hddA, houtA, hdepA, hlA,
    hesA, hphiA, hposA⟩ := createAnd_step hI hA hbb.2 hzb.2 hblv.2 hzlv.2
  obtain ⟨hIB, hszB, hrBb, hrBl, hlvB, hevB, hgtB, hddB, houtB, hdepB, hlB,
    hesB, hphiB, hposB⟩ := createAnd_step hIA hB hrAb
    (lt_of_lt_of_le hbb.1 hszA) hrAl
    (by rw [hddA b.idx hbb.1]; exact hblv.1)
  obtain ⟨hIC, hszC, hrCb, hrCl, hlvC, hevC, hgtC, hddC, houtC, hdepC, hlC,
    hesC, hphiC, hposC⟩ := createAnd_step hIB hC
    (show c.idx < nsize gB from lt_of_lt_of_le hwb.2 (le_trans hszA hszB))
    (show d.idx < nsize gB from lt_of_lt_of_le hzb.2 (le_trans hszA hszB))
    (show isDead gB c.idx = false by
      rw [hddB c.idx (lt_of_lt_of_le hwb.2 hszA), hddA c.idx hwb.2]
      exact hwlv.2)
    (show isDead gB d.idx = false by
      rw [hddB d.idx (lt_of_lt_of_le hzb.2 hszA), hddA d.idx hzb.2]
      exact hzlv.2)
  obtain ⟨hID, hszD, hrDb, hrDl, hlvD, hevD, hgtD, hddD, houtD, hdepD, hlD,
    hesD, hphiD, hposD⟩ := createAnd_step hIC hD
    (show rB.idx < nsize gCc from lt_of_lt_of_le hrBb hszC)
    (show rC.idx < nsize gCc from hrCb)
    (show isDead gCc rB.idx = false by
      rw [hddC rB.idx hrBb]
      exact hrBl)
    (show isDead gCc rC.idx = false from hrCl)
  obtain ⟨rhoD, hrkD⟩ := hID.acyclic
  have hfbD : faninBounded gD := hID.bounded
  have hnD : n < nsize gD :=
    lt_of_lt_of_le hn (le_trans hszA (le_trans hszB (le_trans hszC hszD)))
  -- levels of created nodes
  have hlgAb : levelN gA b.idx = levelN g b.idx := hlvA b.idx hbb.1
  have hm1 : levelN gA rA.idx ≤ levelN g b.idx := by
    rcases natMaxCases (levelN g a.idx) (levelN g d.idx) with hmc | hmc <;> omega
  have hm2 : levelN gB rB.idx ≤ levelN g b.idx + 1 := by
    rcases natMaxCases (levelN gA rA.idx) (levelN gA b.idx) with hmc | hmc <;> omega
  have hgBc : levelN gB (negSig c).idx = levelN g c.idx := by
    rw [negSig_idx, hlvB c.idx (lt_of_lt_of_le hwb.2 hszA), hlvA c.idx hwb.2]
  have hgBd : levelN gB d.idx = levelN g d.idx := by
    rw [hlvB d.idx (lt_of_lt_of_le hzb.2 hszA), hlvA d.idx hzb.2]
  have hm3 : levelN gCc rC.idx ≤ levelN g b.idx + 1 := by
    have := hlC
    rcases natMaxCases (levelN gB (negSig c).idx) (levelN gB d.idx) with hmc | hmc <;>
      omega
  have hgCrB : levelN gCc (negSig rB).idx = levelN gB rB.idx := by
    rw [negSig_idx, hlvC rB.idx hrBb]
  have hgCrC : levelN gCc (negSig rC).idx = levelN gCc rC.idx := by
    rw [negSig_idx]
  have hm4 : levelN gD rD.idx ≤ levelN g b.idx + 2 := by
    have := hlD
    rcases natMaxCases (levelN gCc (negSig rB).idx) (levelN gCc (negSig rC).idx)
      with hmc | hmc <;> omega
  have hlnD : levelN gD n = levelN g n := by
    rw [hlvD n (lt_of_lt_of_le hn (le_trans hszA (le_trans hszB hszC))),
      hlvC n (lt_of_lt_of_le hn (le_trans hszA hszB)),
      hlvB n (lt_of_lt_of_le hn hszA), hlvA n hn]
  have hsb : (negSig rD).idx < nsize gD := hrDb
  have hsl : isDead gD (negSig rD).idx = false := hrDl
  have hlsn : levelN gD (negSig rD).idx < levelN gD n := by
    rw [negSig_idx, hlnD, hln3]
    omega
  have hsnn : (negSig rD).idx ≠ n := by
    intro hcc
    rw [hcc] at hlsn
    omega
  have hreach : reachN gD (negSig rD).idx n = false :=
    notReach_of_level_le hrkD hfbD (le_of_lt hlsn) hsnn
  have hgnD : gateAt gD n = Gate.andg s0 s1 := by
    rw [hgtD n (lt_of_lt_of_le hn (le_trans hszA (le_trans hszB hszC))),
      hgtC n (lt_of_lt_of_le hn (le_trans hszA hszB)),
      hgtB n (lt_of_lt_of_le hn hszA), hgtA n hn, hgn]
  have hdnD : isDead gD n = false := by
    rw [hddD n (lt_of_lt_of_le hn (le_trans hszA (le_trans hszB hszC))),
      hddC n (lt_of_lt_of_le hn (le_trans hszA hszB)),
      hddB n (lt_of_lt_of_le hn hszA), hddA n hn]
    exact hdn
  have hAnD : isAnd gD n = true := by
    unfold isAnd
    rw [hgnD]
  have heq : ∀ env, xor (negSig rD).inv (evalN gD env (negSig rD).idx) =
      evalN gD env n := by
    intro env
    have e0 : xor (negSig rD).inv (evalN gD env (negSig rD).idx) =
        evalSig gD env (negSig rD) := rfl
    rw [e0, evalSig_neg, hesD env]
    have erB : evalSig gCc env (negSig rB) = !(evalSig gB env rB) := by
      rw [evalSig_neg]
      show (!(xor rB.inv (evalN gCc env rB.idx))) = _
      rw [hevC env rB.idx hrBb]
      rfl
    have erC : evalSig gCc env (negSig rC) = !(evalSig gCc env rC) := evalSig_neg _ _ _
    rw [erB, erC, hesB env, hesA env, hesC env]
    have eb : evalSig gA env b = evalSig g env b := by
      show xor b.inv (evalN gA env b.idx) = _
      rw [hevA env b.idx hbb.1]
      rfl
    have ec : evalSig gB env (negSig c) = !(evalSig g env c) := by
      rw [evalSig_neg]
      show (!(xor c.inv (evalN gB env c.idx))) = _
      rw [hevB env c.idx (lt_of_lt_of_le hwb.2 hszA), hevA env c.idx hwb.2]
      rfl
    have ed : evalSig gB env d = evalSig g env d := by
      show xor d.inv (evalN gB env d.idx) = _
      rw [hevB env d.idx (lt_of_lt_of_le hzb.2 hszA), hevA env d.idx hzb.2]
      rfl
    have enD : evalN gD env n = evalN g env n := by
      rw [hevD env n (lt_of_lt_of_le hn (le_trans hszA (le_trans hszB hszC))),
        hevC env n (lt_of_lt_of_le hn (le_trans hszA hszB)),
        hevB env n (lt_of_lt_of_le hn hszA), hevA env n hn]
    have ew : evalSig g env w = !(evalSig g env b && evalSig g env a) := by
      show xor w.inv (evalN g env w.idx) = _
      rw [hwi, btrue_xor, evalN_unfold hr hfb hgw]
      show (!(evalSig g env u0 && evalSig g env u1)) = _
      rcases hbap with ⟨h1, h2⟩ | ⟨h1, h2⟩ <;> rw [h1, h2]
      exact congrArg (fun x => !x) (Bool.and_comm _ _)
    have ez : evalSig g env z = !((!(evalSig g env b && evalSig g env a)) &&
        evalSig g env c) := by
      show xor z.inv (evalN g env z.idx) = _
      rw [hzi, btrue_xor, evalN_unfold hr hfb hgz]
      have : (xor t0.inv (evalN g env t0.idx) && xor t1.inv (evalN g env t1.idx)) =
          (evalSig g env w && evalSig g env c) := by
        show (evalSig g env t0 && evalSig g env t1) = _
        rcases hwcp with ⟨h1, h2⟩ | ⟨h1, h2⟩ <;> rw [h1, h2]
        exact Bool.and_comm _ _
      rw [this, ew]
    have en : evalN g env n = ((!((!(evalSig g env b && evalSig g env a)) &&
        evalSig g env c)) && evalSig g env d) := by
      rw [evalN_unfold hr hfb hgn]
      have : (xor s0.inv (evalN g env s0.idx) && xor s1.inv (evalN g env s1.idx)) =
          (evalSig g env z && evalSig g env d) := by
        show (evalSig g env s0 && evalSig g env s1) = _
        rcases hzdp with ⟨h1, h2⟩ | ⟨h1, h2⟩ <;> rw [h1, h2]
        exact Bool.and_comm _ _
      rw [this, ez]
    rw [eb, ec, ed, enD, en]
    cases evalSig g env a <;> cases evalSig g env b <;> cases evalSig g env c <;>
      cases evalSig g env d <;> rfl
  refine ⟨?_, ?_, ?_, ?_, ?_, ?_⟩
  · exact substituteNode_NetInv hID hsb hsl hreach
  · rw [nsize_subst]
    have := le_trans hszA (le_trans hszB (le_trans hszC hszD))
    omega
  · intro env
    rw [substituteNode_outputs hrkD hfbD hreach hsb (heq env)]
    rw [houtD env, houtC env, houtB env, houtA env]
  · have hd1 := substituteNode_depth hrkD hfbD hreach hsb (le_of_lt hlsn)
    rw [hdepD, hdepC, hdepB, hdepA] at hd1
    exact hd1
  · have hkill : isDead (substituteNode gD n (negSig rD)) n = true :=
      subst_kills_n hsnn hID.len hAnD hnD
    have hdrop := phi_sub_le hrkD hfbD hreach hsb (le_of_lt hlsn) {n}
      (by intro k hk
          rw [Finset.mem_singleton.mp hk]
          exact hnD)
      (by intro k hk
          rw [Finset.mem_singleton.mp hk]
          exact hkill)
    rw [Finset.sum_singleton] at hdrop
    have hphiWn : phiW gD n = 3 ^ levelN g n := by
      unfold phiW
      rw [hdnD, hgnD]
      show (3 : Nat) ^ levelN gD n = 3 ^ levelN g n
      rw [hlnD]
    rw [hphiWn, hln3] at hdrop
    have he1 : 1 + Nat.max (levelN g a.idx) (levelN g d.idx) ≤ levelN g b.idx := by
      rcases natMaxCases (levelN g a.idx) (levelN g d.idx) with hmc | hmc <;> omega
    have he2 : 1 + Nat.max (levelN gA rA.idx) (levelN gA b.idx) ≤
        levelN g b.idx + 1 := by
      rcases natMaxCases (levelN gA rA.idx) (levelN gA b.idx) with hmc | hmc <;> omega
    have he3 : 1 + Nat.max (levelN gB (negSig c).idx) (levelN gB d.idx) ≤
        levelN g b.idx + 1 := by
      rcases natMaxCases (levelN gB (negSig c).idx) (levelN gB d.idx)
        with hmc | hmc <;> omega
    have he4 : 1 + Nat.max (levelN gCc (negSig rB).idx) (levelN gCc (negSig rC).idx) ≤
        levelN g b.idx + 2 := by
      rcases natMaxCases (levelN gCc (negSig rB).idx) (levelN gCc (negSig rC).idx)
        with hmc | hmc <;> omega
    have hq1 : 3 ^ (1 + Nat.max (levelN g a.idx) (levelN g d.idx)) ≤
        3 ^ levelN g b.idx := Nat.pow_le_pow_right (by omega) he1
    have hq2 : 3 ^ (1 + Nat.max (levelN gA rA.idx) (levelN gA b.idx)) ≤
        3 ^ (levelN g b.idx + 1) := Nat.pow_le_pow_right (by omega) he2
    have hq3 : 3 ^ (1 + Nat.max (levelN gB (negSig c).idx) (levelN gB d.idx)) ≤
        3 ^ (levelN g b.idx + 1) := Nat.pow_le_pow_right (by omega) he3
    have hq4 : 3 ^ (1 + Nat.max (levelN gCc (negSig rB).idx)
        (levelN gCc (negSig rC).idx)) ≤
        3 ^ (levelN g b.idx + 2) := Nat.pow_le_pow_right (by omega) he4
    have hp1 : (3 : Nat) ^ (levelN g b.idx + 1) = 3 ^ levelN g b.idx * 3 :=
      pow_succ 3 _
    have hp2 : (3 : Nat) ^ (levelN g b.idx + 2) = 3 ^ (levelN g b.idx + 1) * 3 :=
      pow_succ 3 _
    have hp3 : (3 : Nat) ^ (levelN g b.idx + 3) = 3 ^ (levelN g b.idx + 2) * 3 :=
      pow_succ 3 _
    have hpos : 0 < (3 : Nat) ^ levelN g b.idx := pow_pos (by omega) _
    omega
  · have hcone := substituteNode_levelN_cone hrkD hfbD hreach hsb
      (reachN_refl gD (negSig rD).idx)
    rw [hcone, hlnD] at *
    rw [hcone]
    rw [hlnD] at hlsn
    exact hlsn

theorem fanout_ge {g : Net} {m v : Nat} (hm : m < nsize g)
    (hdm : isDead g m = false) :
    faninCount (gateAt g m) v ≤ fanoutSize g v := by
  unfold fanoutSize
  have hterm : (if isDead g m then 0 else faninCount (gateAt g m) v) ≤
      Finset.sum (Finset.range (nsize g))
        (fun m2 => if isDead g m2 then 0 else faninCount (gateAt g m2) v) :=
    Finset.single_le_sum
      (f := fun m2 => if isDead g m2 then 0 else faninCount (gateAt g m2) v)
      (fun j _ => Nat.zero_le _) (Finset.mem_range.mpr hm)
  rw [hdm] at hterm
  simp only [Bool.false_eq_true, if_false] at hterm
  omega

theorem createAnd_fanout {g : Net} {f0 h0 : Sig} {v : Nat}
    (hlen : g.deadL.length = g.gates.length)
    (hf0 : f0.idx ≠ v) (hh0 : h0.idx ≠ v) :
    fanoutSize (createAnd g f0 h0).1 v = fanoutSize g v := by
  rcases createAnd_net_cases g f0 h0 with he | he <;> rw [he]
  rw [fanout_append hlen]
  have hcnt : faninCount (Gate.andg (canonPair f0 h0).1 (canonPair f0 h0).2) v = 0 := by
    have hci : (canonPair f0 h0).1.idx ≠ v ∧ (canonPair f0 h0).2.idx ≠ v := by
      rcases canonPair_cases f0 h0 with hc | hc <;> rw [hc] <;>
        exact ⟨by assumption, by assumption⟩
    dsimp only [faninCount]
    rw [if_neg hci.1, if_neg hci.2]
  rw [hcnt]
  omega

theorem alignShared_some {a0 a1 b0 b1 sA0 sA1 sB0 sB1 : Sig}
    (h : alignShared a0 a1 b0 b1 = some ((sA0, sA1), (sB0, sB1))) :
    ((sA0 = a0 ∧ sA1 = a1) ∨ (sA0 = a1 ∧ sA1 = a0)) ∧
    ((sB0 = b0 ∧ sB1 = b1) ∨ (sB0 = b1 ∧ sB1 = b0)) ∧
    sA0.idx = sB0.idx := by
  unfold alignShared at h
  split at h
  next hc =>
    obtain ⟨h1, h2⟩ := Prod.mk.inj (Option.some.inj h)
    obtain ⟨hA1, hA2⟩ := Prod.mk.inj h1
    obtain ⟨hB1, hB2⟩ := Prod.mk.inj h2
    exact ⟨Or.inl ⟨hA1.symm, hA2.symm⟩, Or.inl ⟨hB1.symm, hB2.symm⟩,
      by rw [← hA1, ← hB1]; exact hc⟩
  next =>
    split at h
    next hc =>
      obtain ⟨h1, h2⟩ := Prod.mk.inj (Option.some.inj h)
      obtain ⟨hA1, hA2⟩ := Prod.mk.inj h1
      obtain ⟨hB1, hB2⟩ := Prod.mk.inj h2
      exact ⟨Or.inl ⟨hA1.symm, hA2.symm⟩, Or.inr ⟨hB1.symm, hB2.symm⟩,
        by rw [← hA1, ← hB1]; exact hc⟩
    next =>
      split at h
      next hc =>
        obtain ⟨h1, h2⟩ := Prod.mk.inj (Option.some.inj h)
        obtain ⟨hA1, hA2⟩ := Prod.mk.inj h1
        obtain ⟨hB1, hB2⟩ := Prod.mk.inj h2
        exact ⟨Or.inr ⟨hA1.symm, hA2.symm⟩, Or.inl ⟨hB1.symm, hB2.symm⟩,
          by rw [← hA1, ← hB1]; exact hc⟩
      next =>
        split at h
        next hc =>
          obtain ⟨h1, h2⟩ := Prod.mk.inj (Option.some.inj h)
          obtain ⟨hA1, hA2⟩ := Prod.mk.inj h1
          obtain ⟨hB1, hB2⟩ := Prod.mk.inj h2
          exact ⟨Or.inr ⟨hA1.symm, hA2.symm⟩, Or.inr ⟨hB1.symm, hB2.symm⟩,
            by rw [← hA1, ← hB1]; exact hc⟩
        next => exact Option.noConfusion h


theorem createNand_eq (g : Net) (f0 h0 : Sig) :
    createNand g f0 h0 = ((createAnd g f0 h0).1, negSig (createAnd g f0 h0).2) := rfl

theorem tryDist_fired {g : Net} {n : Nat} {g2 : Net} {s : Sig}
    (h : tryDistributivity g n = (g2, some s)) :
    ∃ x y a0 a1 b0 b1 sA0 sA1 sB0 sB1 : Sig,
      gateAt g n = Gate.andg x y ∧
      fanoutSize g x.idx = 1 ∧ fanoutSize g y.idx = 1 ∧
      gateAt g x.idx = Gate.andg a0 a1 ∧ gateAt g y.idx = Gate.andg b0 b1 ∧
      alignShared a0 a1 b0 b1 = some ((sA0, sA1), (sB0, sB1)) ∧
      sA0.inv = sB0.inv ∧
      ((x.inv = true ∧ y.inv = true ∧
        (∃ gA rA gB rB,
          createNand g (negSig sA1) (negSig sB1) = (gA, rA) ∧
          createAnd gA sA0 rA = (gB, rB) ∧
          g2 = substituteNode gB n (negSig rB) ∧ s = negSig rB)) ∨
       ((x.inv && y.inv) = false ∧
        (∃ gA rA gB rB,
          createAnd g (if x.inv then negSig sA1 else sA1)
            (if y.inv then negSig sB1 else sB1) = (gA, rA) ∧
          createAnd gA sA0 rA = (gB, rB) ∧
          g2 = substituteNode gB n rB ∧ s = rB))) := by
  unfold tryDistributivity at h
  dsimp only at h
  split at h
  case h_2 => exact Option.noConfusion (congrArg Prod.snd h)
  case h_1 x y hgn =>
    split at h
    next => exact Option.noConfusion (congrArg Prod.snd h)
    next hfo =>
      simp only [Bool.or_eq_true, Bool.not_eq_true'] at hfo
      have hfo2 : fanoutSize g x.idx = 1 ∧ fanoutSize g y.idx = 1 := by
      -- from the negated disjunction
        constructor
        · cases hv : (fanoutSize g x.idx == 1)
          · exact absurd (Or.inl hv) hfo
          · exact beq_iff_eq.mp hv
        · cases hv : (fanoutSize g y.idx == 1)
          · exact absurd (Or.inr hv) hfo
          · exact beq_iff_eq.mp hv
      split at h
      case h_2 => exact Option.noConfusion (congrArg Prod.snd h)
      case h_1 a0 a1 b0 b1 hgx hgy =>
        split at h
        next => exact Option.noConfusion (congrArg Prod.snd h)
        next sA0 sA1 sB0 sB1 hal =>
          split at h
          next => exact Option.noConfusion (congrArg Prod.snd h)
          next hpol =>
            have hpol2 : sA0.inv = sB0.inv := by
              by_contra hne
              exact hpol (by simp [hne])
            split at h
            next hxy =>
              simp only [Bool.and_eq_true] at hxy
              obtain ⟨hg2e, hsse⟩ := Prod.mk.inj h
              exact ⟨x, y, a0, a1, b0, b1, sA0, sA1, sB0, sB1, hgn, hfo2.1,
                hfo2.2, hgx, hgy, hal, hpol2,
                Or.inl ⟨hxy.1, hxy.2, _, _, _, _, Prod.mk.eta.symm,
                  Prod.mk.eta.symm, hg2e.symm, (Option.some.inj hsse).symm⟩⟩
            next hxy =>
              have hxy2 : (x.inv && y.inv) = false := by
                cases hv : (x.inv && y.inv)
                · rfl
                · exact absurd hv hxy
              obtain ⟨hg2e, hsse⟩ := Prod.mk.inj h
              exact ⟨x, y, a0, a1, b0, b1, sA0, sA1, sB0, sB1, hgn, hfo2.1,
                hfo2.2, hgx, hgy, hal, hpol2,
                Or.inr ⟨hxy2, _, _, _, _, Prod.mk.eta.symm,
                  Prod.mk.eta.symm, hg2e.symm, (Option.some.inj hsse).symm⟩⟩

set_option maxHeartbeats 1000000 in
theorem dist2_core {g : Net} {n : Nat}
    {x y a0 a1 b0 b1 sA0 sA1 sB0 sB1 aa bb arg : Sig}
    {gA : Net} {rA : Sig} {gB : Net} {rB : Sig} {s : Sig}
    (hI : NetInv g) (hdn : isDead g n = false) (hn : n < nsize g)
    (hgn : gateAt g n = Gate.andg x y)
    (hfx : fanoutSize g x.idx = 1) (hfy : fanoutSize g y.idx = 1)
    (hgx : gateAt g x.idx = Gate.andg a0 a1)
    (hgy : gateAt g y.idx = Gate.andg b0 b1)
    (hAp : (sA0 = a0 ∧ sA1 = a1) ∨ (sA0 = a1 ∧ sA1 = a0))
    (hBp : (sB0 = b0 ∧ sB1 = b1) ∨ (sB0 = b1 ∧ sB1 = b0))
    (hshid : sA0.idx = sB0.idx)
    (haai : aa.idx = sA1.idx) (hbbi : bb.idx = sB1.idx) (hargi : arg.idx = rA.idx)
    (hsi : s.idx = rB.idx)
    (hA : createAnd g aa bb = (gA, rA)) (hB : createAnd gA sA0 arg = (gB, rB))
    (heq : ∀ env, xor s.inv (evalN gB env s.idx) = evalN gB env n) :
    NetInv (substituteNode gB n s) ∧ nsize g ≤ nsize (substituteNode gB n s) ∧
    (∀ env, outputVals (substituteNode gB n s) env = outputVals g env) ∧
    depthN (substituteNode gB n s) ≤ depthN g ∧
    phi (substituteNode gB n s) < phi g ∧
    levelN (substituteNode gB n s) s.idx ≤ levelN g n := by
  obtain ⟨rho, hr⟩ := hI.acyclic
  have hfb : faninBounded g := hI.bounded
  obtain ⟨hxb, hyb⟩ := hI.bounded n hn x y hgn
  obtain ⟨hxl, hyl⟩ := hI.deadClosed n hn hdn x y hgn
  obtain ⟨ha0b, ha1b⟩ := hI.bounded x.idx hxb a0 a1 hgx
  obtain ⟨ha0l, ha1l⟩ := hI.deadClosed x.idx hxb hxl a0 a1 hgx
  obtain ⟨hb0b, hb1b⟩ := hI.bounded y.idx hyb b0 b1 hgy
  obtain ⟨hb0l, hb1l⟩ := hI.deadClosed y.idx hyb hyl b0 b1 hgy
  have hsA0b : sA0.idx < nsize g := by
    rcases hAp with ⟨h1, _⟩ | ⟨h1, _⟩ <;> rw [h1] <;> assumption
  have hsA1b : sA1.idx < nsize g := by
    rcases hAp with ⟨_, h2⟩ | ⟨_, h2⟩ <;> rw [h2] <;> assumption
  have hsA0l : isDead g sA0.idx = false := by
    rcases hAp with ⟨h1, _⟩ | ⟨h1, _⟩ <;> rw [h1] <;> assumption
  have hsA1l : isDead g sA1.idx = false := by
    rcases hAp with ⟨_, h2⟩ | ⟨_, h2⟩ <;> rw [h2] <;> assumption
  have hsB1b : sB1.idx < nsize g := by
    rcases hBp with ⟨_, h2⟩ | ⟨_, h2⟩ <;> rw [h2] <;> assumption
  have hsB1l : isDead g sB1.idx = false := by
    rcases hBp with ⟨_, h2⟩ | ⟨_, h2⟩ <;> rw [h2] <;> assumption
  obtain ⟨hlxa0, hlxa1⟩ := levelN_fanin_lt hr hfb hgx
  obtain ⟨hlyb0, hlyb1⟩ := levelN_fanin_lt hr hfb hgy
  obtain ⟨hlx, hly⟩ := levelN_fanin_lt hr hfb hgn
  have hlsA0 : levelN g sA0.idx < levelN g x.idx := by
    rcases hAp with ⟨h1, _⟩ | ⟨h1, _⟩ <;> rw [h1] <;> assumption
  have hlsA1 : levelN g sA1.idx < levelN g x.idx := by
    rcases hAp with ⟨_, h2⟩ | ⟨_, h2⟩ <;> rw [h2] <;> assumption
  have hlsB0 : levelN g sB0.idx < levelN g y.idx := by
    rcases hBp with ⟨h1, _⟩ | ⟨h1, _⟩ <;> rw [h1] <;> assumption
  have hlsB1 : levelN g sB1.idx < levelN g y.idx := by
    rcases hBp with ⟨_, h2⟩ | ⟨_, h2⟩ <;> rw [h2] <;> assumption
  have hlneq : levelN g n = 1 + Nat.max (levelN g x.idx) (levelN g y.idx) :=
    levelN_unfold hr hfb hgn
  have haab : aa.idx < nsize g := by rw [haai]; exact hsA1b
  have hbbb : bb.idx < nsize g := by rw [hbbi]; exact hsB1b
  have haal : isDead g aa.idx = false := by rw [haai]; exact hsA1l
  have hbbl : isDead g bb.idx = false := by rw [hbbi]; exact hsB1l
  obtain ⟨hIA, hszA, hrAb, hrAl, hlvA, hevA, hgtA, hddA, houtA, hdepA, hlA,
    hesA, hphiA, hposA⟩ := createAnd_step hI hA haab hbbb haal hbbl
  have hsA0bA : sA0.idx < nsize gA := lt_of_lt_of_le hsA0b hszA
  have hargbA : arg.idx < nsize gA := by rw [hargi]; exact hrAb
  have hsA0lA : isDead gA sA0.idx = false := by
    rw [hddA sA0.idx hsA0b]
    exact hsA0l
  have harglA : isDead gA arg.idx = false := by rw [hargi]; exact hrAl
  obtain ⟨hIB, hszB, hrBb, hrBl, hlvB, hevB, hgtB, hddB, houtB, hdepB, hlB,
    hesB, hphiB, hposB⟩ := createAnd_step hIA hB hsA0bA hargbA hsA0lA harglA
  obtain ⟨rhoB, hrkB⟩ := hIB.acyclic
  have hfbB : faninBounded gB := hIB.bounded
  have hnB : n < nsize gB := lt_of_lt_of_le hn (le_trans hszA hszB)
  -- levels of created nodes
  have hmA : levelN gA rA.idx ≤ Nat.max (levelN g x.idx) (levelN g y.idx) := by
    rw [haai, hbbi] at hlA
    have hL1 := natMaxLeft (levelN g x.idx) (levelN g y.idx)
    have hL2 := natMaxRight (levelN g x.idx) (levelN g y.idx)
    rcases natMaxCases (levelN g sA1.idx) (levelN g sB1.idx) with hmc | hmc <;> omega
  have hLsA0 : levelN gA sA0.idx = levelN g sA0.idx := hlvA _ hsA0b
  have hLargA : levelN gA arg.idx = levelN gA rA.idx := by rw [hargi]
  have hmB : levelN gB rB.idx ≤ levelN g n := by
    rw [hLsA0, hLargA] at hlB
    have hL1 := natMaxLeft (levelN g x.idx) (levelN g y.idx)
    rcases natMaxCases (levelN g sA0.idx) (levelN gA rA.idx) with hmc | hmc <;> omega
  have hLnB : levelN gB n = levelN g n := by
    rw [hlvB n (lt_of_lt_of_le hn hszA), hlvA n hn]
  have hlevle : levelN gB s.idx ≤ levelN gB n := by
    rw [hsi, hLnB]
    exact hmB
  -- basic node distinctness
  have hxn : x.idx ≠ n := by
    intro hcc
    rw [hcc] at hlx
    omega
  have hyn : y.idx ≠ n := by
    intro hcc
    rw [hcc] at hly
    omega
  have hyx : y.idx ≠ x.idx := by
    intro hcc
    have hcnt : faninCount (gateAt g n) x.idx = 2 := by
      rw [hgn]
      dsimp only [faninCount]
      rw [if_pos rfl, if_pos hcc]
    have := fanout_ge (v := x.idx) hn hdn
    omega
  have hx0 : x.idx ≠ 0 := by
    intro hcc
    rw [hcc, hI.zero] at hgx
    exact Gate.noConfusion hgx
  have hy0 : y.idx ≠ 0 := by
    intro hcc
    rw [hcc, hI.zero] at hgy
    exact Gate.noConfusion hgy
  have hsA1x : sA1.idx ≠ x.idx := by
    intro hcc
    rw [hcc] at hlsA1
    omega
  have hsA0x : sA0.idx ≠ x.idx := by
    intro hcc
    rw [hcc] at hlsA0
    omega
  have hsB1y : sB1.idx ≠ y.idx := by
    intro hcc
    rw [hcc] at hlsB1
    omega
  have hsA0y : sA0.idx ≠ y.idx := by
    intro hcc
    rw [← hshid, hcc] at hlsB0
    omega
  have hsB1x : sB1.idx ≠ x.idx := by
    intro hcc
    have hcnt1 : 0 < faninCount (gateAt g y.idx) x.idx := by
      rw [hgy]
      dsimp only [faninCount]
      rcases hBp with ⟨_, h2⟩ | ⟨_, h2⟩
      · rw [← h2, if_pos hcc]
        omega
      · rw [← h2]
        rw [if_pos hcc]
        omega
    have hcnt2 : 0 < faninCount (gateAt g n) x.idx := by
      rw [hgn]
      dsimp only [faninCount]
      rw [if_pos rfl]
      omega
    have := fanout_two (Ne.symm hyn) hn hyb hdn hyl hcnt2 hcnt1
    omega
  have hsA1y : sA1.idx ≠ y.idx := by
    intro hcc
    have hcnt1 : 0 < faninCount (gateAt g x.idx) y.idx := by
      rw [hgx]
      dsimp only [faninCount]
      rcases hAp with ⟨_, h2⟩ | ⟨_, h2⟩
      · rw [← h2, if_pos hcc]
        omega
      · rw [← h2]
        rw [if_pos hcc]
        omega
    have hcnt2 : 0 < faninCount (gateAt g n) y.idx := by
      rw [hgn]
      dsimp only [faninCount]
      rw [if_pos rfl]
      omega
    have := fanout_two (Ne.symm hxn) hn hxb hdn hxl hcnt2 hcnt1
    omega
  -- gate/liveness facts transported to gB
  have hgnB : gateAt gB n = Gate.andg x y := by
    rw [hgtB n (lt_of_lt_of_le hn hszA), hgtA n hn, hgn]
  have hgxB : gateAt gB x.idx = Gate.andg a0 a1 := by
    rw [hgtB x.idx (lt_of_lt_of_le hxb hszA), hgtA x.idx hxb, hgx]
  have hgyB : gateAt gB y.idx = Gate.andg b0 b1 := by
    rw [hgtB y.idx (lt_of_lt_of_le hyb hszA), hgtA y.idx hyb, hgy]
  have hAnB : isAnd gB n = true := by
    unfold isAnd
    rw [hgnB]
  have hAxB : isAnd gB x.idx = true := by
    unfold isAnd
    rw [hgxB]
  have hAyB : isAnd gB y.idx = true := by
    unfold isAnd
    rw [hgyB]
  have hdnB : isDead gB n = false := by
    rw [hddB n (lt_of_lt_of_le hn hszA), hddA n hn]
    exact hdn
  have hdxB : isDead gB x.idx = false := by
    rw [hddB x.idx (lt_of_lt_of_le hxb hszA), hddA x.idx hxb]
    exact hxl
  have hdyB : isDead gB y.idx = false := by
    rw [hddB y.idx (lt_of_lt_of_le hyb hszA), hddA y.idx hyb]
    exact hyl
  -- the replacement is distinct from n
  have hidxcases := createAnd_res_idx_cases gA sA0 arg
  rw [hB] at hidxcases
  dsimp only at hidxcases
  have hgAx : gateAt gA x.idx = Gate.andg a0 a1 := by
    rw [hgtA x.idx hxb, hgx]
  have hgAy : gateAt gA y.idx = Gate.andg b0 b1 := by
    rw [hgtA y.idx hyb, hgy]
  have hsneqn : rB.idx ≠ n := by
    intro hcc
    rcases hidxcases with hc | hc | hc | hc | ⟨f, h, hdk, hgk, hfh⟩
    · rw [hcc] at hc
      rw [← hc] at hlsA0
      have h1 := natMaxLeft (levelN g x.idx) (levelN g y.idx)
      omega
    · rw [hargi] at hc
      rw [hcc] at hc
      have h1 : levelN gA rA.idx = levelN gA n := by rw [← hc]
      have h2 : levelN gA n = levelN g n := hlvA n hn
      have h3 := natMaxLeft (levelN g x.idx) (levelN g y.idx)
      omega
    · rw [hcc] at hc
      rw [hc, hI.zero] at hgn
      exact Gate.noConfusion hgn
    · rw [hcc] at hc
      have := lt_of_lt_of_le hn hszA
      omega
    · rw [hcc] at hgk
      rw [hgtA n hn, hgn] at hgk
      obtain ⟨he1, he2⟩ := Gate.andg.inj hgk.symm
      rcases hfh with ⟨hf1, hh1⟩ | ⟨hf1, hh1⟩
      · rw [hf1] at he1
        rw [he1] at hsA0x
        exact hsA0x rfl
      · rw [hh1] at he2
        rw [he2] at hsA0y
        exact hsA0y rfl
  have hsnn : s.idx ≠ n := by
    rw [hsi]
    exact hsneqn
  have hreach : reachN gB s.idx n = false :=
    notReach_of_level_le hrkB hfbB hlevle hsnn
  have hslB : isDead gB s.idx = false := by
    rw [hsi]
    exact hrBl
  have hsbB : s.idx < nsize gB := by
    rw [hsi]
    exact hrBb
  refine ⟨?_, ?_, ?_, ?_, ?_, ?_⟩
  · exact substituteNode_NetInv hIB hsbB hslB hreach
  · rw [nsize_subst]
    have := le_trans hszA hszB
    omega
  · intro env
    rw [substituteNode_outputs hrkB hfbB hreach hsbB (heq env)]
    rw [houtB env, houtA env]
  · have hd1 := substituteNode_depth hrkB hfbB hreach hsbB hlevle
    rw [hdepB, hdepA] at hd1
    exact hd1
  · -- phi strictly decreases
    have hkn : isDead (substituteNode gB n s) n = true :=
      subst_kills_n hsnn hIB.len hAnB hnB
    have hfoutA_x : fanoutSize gA x.idx = fanoutSize g x.idx := by
      have h2 := @createAnd_fanout g aa bb x.idx hI.len
        (by rw [haai]; exact hsA1x) (by rw [hbbi]; exact hsB1x)
      rw [hA] at h2
      exact h2
    have hfoutA_y : fanoutSize gA y.idx = fanoutSize g y.idx := by
      have h2 := @createAnd_fanout g aa bb y.idx hI.len
        (by rw [haai]; exact hsA1y) (by rw [hbbi]; exact hsB1y)
      rw [hA] at h2
      exact h2
    have hxdie : rA.idx ≠ x.idx → s.idx ≠ x.idx →
        isDead (substituteNode gB n s) x.idx = true := by
      intro hrax hsx
      have hfoutB : fanoutSize gB x.idx = fanoutSize g x.idx := by
        have h2 := @createAnd_fanout gA sA0 arg x.idx
          hIA.len hsA0x (by rw [hargi]; exact hrax)
        rw [hB] at h2
        rw [h2]
        exact hfoutA_x
      have hfo1 : fanoutSize gB x.idx = faninCount (gateAt gB n) x.idx := by
        rw [hfoutB, hfx, hgnB]
        dsimp only [faninCount]
        rw [if_pos rfl, if_neg hyx]
      have hcut := fanout_after_cut (g := gB) (n := n) (s := s) (v := x.idx)
        hxn (Ne.symm hsx) hnB hdnB hIB.len hfo1
      exact subst_kills_left hsnn hIB.len hnB hgnB hxn hyn
        (lt_of_lt_of_le hxb (le_trans hszA hszB)) hAxB hAnB hcut
    have hydie : rA.idx ≠ y.idx → s.idx ≠ y.idx →
        isDead (substituteNode gB n s) y.idx = true := by
      intro hray hsy
      have hfoutB : fanoutSize gB y.idx = fanoutSize g y.idx := by
        have h2 := @createAnd_fanout gA sA0 arg y.idx
          hIA.len hsA0y (by rw [hargi]; exact hray)
        rw [hB] at h2
        rw [h2]
        exact hfoutA_y
      have hfo1 : fanoutSize gB y.idx = faninCount (gateAt gB n) y.idx := by
        rw [hfoutB, hfy, hgnB]
        dsimp only [faninCount]
        rw [if_neg (Ne.symm hyx), if_pos rfl]
      have hcut := fanout_after_cut (g := gB) (n := n) (s := s) (v := y.idx)
        hyn (Ne.symm hsy) hnB hdnB hIB.len hfo1
      exact subst_kills_right hsnn hIB.len hnB hgnB hxn hyn
        (lt_of_lt_of_le hyb (le_trans hszA hszB)) hAyB hAnB hcut
    have hphiWn : phiW gB n = 3 ^ levelN g n := by
      unfold phiW
      rw [hdnB, hgnB]
      show (3 : Nat) ^ levelN gB n = 3 ^ levelN g n
      rw [hLnB]
    have hphiWx : phiW gB x.idx = 3 ^ levelN g x.idx := by
      unfold phiW
      rw [hdxB, hgxB]
      show (3 : Nat) ^ levelN gB x.idx = 3 ^ levelN g x.idx
      rw [hlvB x.idx (lt_of_lt_of_le hxb hszA), hlvA x.idx hxb]
    have hphiWy : phiW gB y.idx = 3 ^ levelN g y.idx := by
      unfold phiW
      rw [hdyB, hgyB]
      show (3 : Nat) ^ levelN gB y.idx = 3 ^ levelN g y.idx
      rw [hlvB y.idx (lt_of_lt_of_le hyb hszA), hlvA y.idx hyb]
    have h3x : 0 < (3 : Nat) ^ levelN g x.idx := pow_pos (by omega) _
    have h3y : 0 < (3 : Nat) ^ levelN g y.idx := pow_pos (by omega) _
    have h3n : 0 < (3 : Nat) ^ levelN g n := pow_pos (by omega) _
    have heAexp : 1 + Nat.max (levelN g aa.idx) (levelN g bb.idx) ≤
        Nat.max (levelN g x.idx) (levelN g y.idx) := by
      rw [haai, hbbi]
      have hL1 := natMaxLeft (levelN g x.idx) (levelN g y.idx)
      have hL2 := natMaxRight (levelN g x.idx) (levelN g y.idx)
      rcases natMaxCases (levelN g sA1.idx) (levelN g sB1.idx) with hmc | hmc <;> omega
    have hpA : 3 ^ (1 + Nat.max (levelN g aa.idx) (levelN g bb.idx)) ≤
        3 ^ Nat.max (levelN g x.idx) (levelN g y.idx) :=
      Nat.pow_le_pow_right (by omega) heAexp
    have heBexp : 1 + Nat.max (levelN gA sA0.idx) (levelN gA arg.idx) ≤
        levelN g n := by
      rw [hLsA0, hLargA]
      have hL1 := natMaxLeft (levelN g x.idx) (levelN g y.idx)
      rcases natMaxCases (levelN g sA0.idx) (levelN gA rA.idx) with hmc | hmc <;> omega
    have hpB : 3 ^ (1 + Nat.max (levelN gA sA0.idx) (levelN gA arg.idx)) ≤
        3 ^ levelN g n := Nat.pow_le_pow_right (by omega) heBexp
    have h3powmax : 3 ^ Nat.max (levelN g x.idx) (levelN g y.idx) + 1 ≤
        3 ^ levelN g x.idx + 3 ^ levelN g y.idx := by
      rcases natMaxCases (levelN g x.idx) (levelN g y.idx) with hmc | hmc <;>
        rw [hmc] <;> omega
    have hcasesA := createAnd_cases2 g aa bb haab hbbb
    rw [hA] at hcasesA
    dsimp only at hcasesA
    have hcasesB := createAnd_cases2 gA sA0 arg hsA0bA hargbA
    rw [hB] at hcasesB
    dsimp only at hcasesB
    rcases hcasesA with ⟨hgAg, hrAlt⟩ | ⟨hgAapp, hrAfr⟩
    · rcases hcasesB with ⟨hgBg, hrBlt⟩ | ⟨hgBapp, hrBfr⟩
      · -- both creates were folds/dedups: no new node, n dies
        have hdrop := phi_sub_le hrkB hfbB hreach hsbB hlevle {n}
          (by intro k hk
              rw [Finset.mem_singleton.mp hk]
              exact hnB)
          (by intro k hk
              rw [Finset.mem_singleton.mp hk]
              exact hkn)
        rw [Finset.sum_singleton, hphiWn] at hdrop
        have hphiBg : phi gB = phi g := by rw [hgBg, hgAg]
        omega
      · -- second create fresh: the fresh result cannot be x or y; one of x,y dies
        have hrBi : rB.idx = nsize gA := by rw [hrBfr]
        have hsfr : nsize g ≤ s.idx := by
          rw [hsi, hrBi]
          exact hszA
        have hsx : s.idx ≠ x.idx := by omega
        have hsy : s.idx ≠ y.idx := by omega
        have hphiAg : phi gA = phi g := by rw [hgAg]
        by_cases hrax : rA.idx = x.idx
        · have hky := hydie (by rw [hrax]; exact Ne.symm hyx) hsy
          have hdrop := phi_sub_le hrkB hfbB hreach hsbB hlevle {n, y.idx}
            (by intro k hk
                rcases Finset.mem_insert.mp hk with rfl | hk2
                · exact hnB
                · rw [Finset.mem_singleton.mp hk2]
                  exact lt_of_lt_of_le hyb (le_trans hszA hszB))
            (by intro k hk
                rcases Finset.mem_insert.mp hk with rfl | hk2
                · exact hkn
                · rw [Finset.mem_singleton.mp hk2]
                  exact hky)
          rw [Finset.sum_pair (Ne.symm hyn)] at hdrop
          rw [hphiWn, hphiWy] at hdrop
          omega
        · have hkx := hxdie hrax hsx
          have hdrop := phi_sub_le hrkB hfbB hreach hsbB hlevle {n, x.idx}
            (by intro k hk
                rcases Finset.mem_insert.mp hk with rfl | hk2
                · exact hnB
                · rw [Finset.mem_singleton.mp hk2]
                  exact lt_of_lt_of_le hxb (le_trans hszA hszB))
            (by intro k hk
                rcases Finset.mem_insert.mp hk with rfl | hk2
                · exact hkn
                · rw [Finset.mem_singleton.mp hk2]
                  exact hkx)
          rw [Finset.sum_pair (Ne.symm hxn)] at hdrop
          rw [hphiWn, hphiWx] at hdrop
          omega
    · -- first create fresh
      have hrAi : rA.idx = nsize g := by rw [hrAfr]
      have hrax : rA.idx ≠ x.idx := by omega
      have hray : rA.idx ≠ y.idx := by omega
      have hsx : s.idx ≠ x.idx := by
        rw [hsi]
        intro hcc
        rcases hidxcases with hc | hc | hc | hc | ⟨f, h, hdk, hgk, hfh⟩
        · rw [hcc] at hc
          exact hsA0x hc.symm
        · rw [hargi, hcc] at hc
          exact hrax hc.symm
        · rw [hcc] at hc
          exact hx0 hc
        · rw [hcc] at hc
          have := lt_of_lt_of_le hxb hszA
          omega
        · rw [hcc, hgAx] at hgk
          obtain ⟨he1, he2⟩ := Gate.andg.inj hgk.symm
          rcases hfh with ⟨hf1, hh1⟩ | ⟨hf1, hh1⟩
          · rw [hh1] at he2
            rw [← he2, hargi, hrAi] at ha1b
            omega
          · rw [hf1] at he1
            rw [← he1, hargi, hrAi] at ha0b
            omega
      have hsy : s.idx ≠ y.idx := by
        rw [hsi]
        intro hcc
        rcases hidxcases with hc | hc | hc | hc | ⟨f, h, hdk, hgk, hfh⟩
        · rw [hcc] at hc
          exact hsA0y hc.symm
        · rw [hargi, hcc] at hc
          exact hray hc.symm
        · rw [hcc] at hc
          exact hy0 hc
        · rw [hcc] at hc
          have := lt_of_lt_of_le hyb hszA
          omega
        · rw [hcc, hgAy] at hgk
          obtain ⟨he1, he2⟩ := Gate.andg.inj hgk.symm
          rcases hfh with ⟨hf1, hh1⟩ | ⟨hf1, hh1⟩
          · rw [hh1] at he2
            rw [← he2, hargi, hrAi] at hb1b
            omega
          · rw [hf1] at he1
            rw [← he1, hargi, hrAi] at hb0b
            omega
      have hkx := hxdie hrax hsx
      have hky := hydie hray hsy
      have hnxy : (n : Nat) ∉ ({x.idx, y.idx} : Finset Nat) := by
        simp only [Finset.mem_insert, Finset.mem_singleton]
        push_neg
        exact ⟨Ne.symm hxn, Ne.symm hyn⟩
      have hdrop := phi_sub_le hrkB hfbB hreach hsbB hlevle
        (insert n {x.idx, y.idx})
        (by intro k hk
            rcases Finset.mem_insert.mp hk with rfl | hk2
            · exact hnB
            · rcases Finset.mem_insert.mp hk2 with rfl | hk3
              · exact lt_of_lt_of_le hxb (le_trans hszA hszB)
              · rw [Finset.mem_singleton.mp hk3]
                exact lt_of_lt_of_le hyb (le_trans hszA hszB))
        (by intro k hk
            rcases Finset.mem_insert.mp hk with rfl | hk2
            · exact hkn
            · rcases Finset.mem_insert.mp hk2 with rfl | hk3
              · exact hkx
              · rw [Finset.mem_singleton.mp hk3]
                exact hky)
      rw [Finset.sum_insert hnxy, Finset.sum_pair (fun hcc => hyx hcc.symm)] at hdrop
      rw [hphiWn, hphiWx, hphiWy] at hdrop
      rcases hcasesB with ⟨hgBg, hrBlt⟩ | ⟨hgBapp, hrBfr⟩
      · have hphiBA : phi gB = phi gA := by rw [hgBg]
        omega
      · omega
  · have hcone := substituteNode_levelN_cone hrkB hfbB hreach hsbB
      (reachN_refl gB s.idx)
    rw [hcone, ← hLnB]
    exact hlevle

theorem negSig_negSig (t : Sig) : negSig (negSig t) = t := by
  cases t with
  | mk i b => simp [negSig]

set_option maxHeartbeats 1000000 in
theorem tryDist_master {g : Net} {n : Nat} {g2 : Net} {s : Sig}
    (hI : NetInv g) (hdn : isDead g n = false) (hn : n < nsize g)
    (h : tryDistributivity g n = (g2, some s)) :
    NetInv g2 ∧ nsize g ≤ nsize g2 ∧
    (∀ env, outputVals g2 env = outputVals g env) ∧
    depthN g2 ≤ depthN g ∧ phi g2 < phi g ∧
    levelN g2 s.idx ≤ levelN g n := by
  obtain ⟨x, y, a0, a1, b0, b1, sA0, sA1, sB0, sB1, hgn, hfx, hfy, hgx, hgy,
    hal, hpol, hbr⟩ := tryDist_fired h
  obtain ⟨hAp, hBp, hshid⟩ := alignShared_some hal
  obtain ⟨rho, hr⟩ := hI.acyclic
  have hfb : faninBounded g := hI.bounded
  obtain ⟨hxb, hyb⟩ := hI.bounded n hn x y hgn
  obtain ⟨hxl, hyl⟩ := hI.deadClosed n hn hdn x y hgn
  obtain ⟨ha0b, ha1b⟩ := hI.bounded x.idx hxb a0 a1 hgx
  obtain ⟨ha0l, ha1l⟩ := hI.deadClosed x.idx hxb hxl a0 a1 hgx
  obtain ⟨hb0b, hb1b⟩ := hI.bounded y.idx hyb b0 b1 hgy
  obtain ⟨hb0l, hb1l⟩ := hI.deadClosed y.idx hyb hyl b0 b1 hgy
  have hsA0b : sA0.idx < nsize g := by
    rcases hAp with ⟨h1, _⟩ | ⟨h1, _⟩ <;> rw [h1] <;> assumption
  have hsA1b : sA1.idx < nsize g := by
    rcases hAp with ⟨_, h2⟩ | ⟨_, h2⟩ <;> rw [h2] <;> assumption
  have hsA0l : isDead g sA0.idx = false := by
    rcases hAp with ⟨h1, _⟩ | ⟨h1, _⟩ <;> rw [h1] <;> assumption
  have hsA1l : isDead g sA1.idx = false := by
    rcases hAp with ⟨_, h2⟩ | ⟨_, h2⟩ <;> rw [h2] <;> assumption
  have hsB1b : sB1.idx < nsize g := by
    rcases hBp with ⟨_, h2⟩ | ⟨_, h2⟩ <;> rw [h2] <;> assumption
  have hsB1l : isDead g sB1.idx = false := by
    rcases hBp with ⟨_, h2⟩ | ⟨_, h2⟩ <;> rw [h2] <;> assumption
  have hevx : ∀ env, evalN g env x.idx = (evalSig g env sA0 && evalSig g env sA1) := by
    intro env
    rw [evalN_unfold hr hfb hgx]
    show (evalSig g env a0 && evalSig g env a1) = _
    rcases hAp with ⟨h1, h2⟩ | ⟨h1, h2⟩ <;> rw [h1, h2]
    exact Bool.and_comm _ _
  have hSS : ∀ env, evalSig g env sB0 = evalSig g env sA0 := by
    intro env
    unfold evalSig
    rw [← hpol, ← hshid]
  have hevy : ∀ env, evalN g env y.idx = (evalSig g env sA0 && evalSig g env sB1) := by
    intro env
    rw [evalN_unfold hr hfb hgy]
    show (evalSig g env b0 && evalSig g env b1) = _
    rw [← hSS env]
    rcases hBp with ⟨h1, h2⟩ | ⟨h1, h2⟩ <;> rw [h1, h2]
    exact Bool.and_comm _ _
  have hevn : ∀ env, evalN g env n =
      ((xor x.inv (evalN g env x.idx)) && (xor y.inv (evalN g env y.idx))) := by
    intro env
    rw [evalN_unfold hr hfb hgn]
  rcases hbr with ⟨hxi, hyi, gA, rA, gB, rB, hA, hB, hg2e, hse⟩ |
    ⟨hxy, gA, rA, gB, rB, hA, hB, hg2e, hse⟩
  · -- both fan-ins complemented
    subst hg2e
    subst hse
    have hAc := hA
    rw [createNand_eq] at hAc
    obtain ⟨h1, h2⟩ := Prod.mk.inj hAc
    have hA2 : createAnd g (negSig sA1) (negSig sB1) = (gA, negSig rA) := by
      rw [← h1, ← h2, negSig_negSig]
    obtain ⟨hIA, hszA, hrAb, hrAl, hlvA, hevA, hgtA, hddA, houtA, hdepA, hlA,
      hesA, hphiA, hposA⟩ := createAnd_step hI hA2 hsA1b hsB1b hsA1l hsB1l
    obtain ⟨hIB, hszB, hrBb, hrBl, hlvB, hevB, hgtB, hddB, houtB, hdepB, hlB,
      hesB, hphiB, hposB⟩ := createAnd_step hIA hB
      (lt_of_lt_of_le hsA0b hszA) hrAb
      (by rw [hddA sA0.idx hsA0b]; exact hsA0l) hrAl
    have heq : ∀ env, xor (negSig rB).inv (evalN gB env (negSig rB).idx) =
        evalN gB env n := by
      intro env
      have e0 : xor (negSig rB).inv (evalN gB env (negSig rB).idx) =
          !(evalSig gB env rB) := by
        rw [show xor (negSig rB).inv (evalN gB env (negSig rB).idx) =
          evalSig gB env (negSig rB) from rfl, evalSig_neg]
      rw [e0, hesB env]
      have es0 : evalSig gA env sA0 = evalSig g env sA0 := by
        show xor sA0.inv (evalN gA env sA0.idx) = _
        rw [hevA env sA0.idx hsA0b]
        rfl
      have erA : evalSig gA env rA =
          !(evalSig g env (negSig sA1) && evalSig g env (negSig sB1)) := by
        rw [show rA = negSig (negSig rA) from (negSig_negSig rA).symm, evalSig_neg,
          hesA env]
      have enB : evalN gB env n = evalN g env n := by
        rw [hevB env n (lt_of_lt_of_le hn hszA), hevA env n hn]
      rw [es0, erA, enB, hevn env, hxi, hyi, btrue_xor, btrue_xor, hevx env,
        hevy env, evalSig_neg, evalSig_neg]
      cases evalSig g env sA0 <;> cases evalSig g env sA1 <;>
        cases evalSig g env sB1 <;> rfl
    exact @dist2_core g n x y a0 a1 b0 b1 sA0 sA1 sB0 sB1 (negSig sA1)
      (negSig sB1) rA gA (negSig rA) gB rB (negSig rB) hI hdn hn hgn hfx hfy
      hgx hgy hAp hBp hshid rfl rfl rfl rfl hA2 hB heq
  · -- at most one fan-in complemented
    subst hg2e
    have haai : (if x.inv then negSig sA1 else sA1).idx = sA1.idx := by
      cases x.inv <;> rfl
    have hbbi : (if y.inv then negSig sB1 else sB1).idx = sB1.idx := by
      cases y.inv <;> rfl
    have haab : (if x.inv then negSig sA1 else sA1).idx < nsize g := by
      rw [haai]
      exact hsA1b
    have hbbb : (if y.inv then negSig sB1 else sB1).idx < nsize g := by
      rw [hbbi]
      exact hsB1b
    have haal : isDead g (if x.inv then negSig sA1 else sA1).idx = false := by
      rw [haai]
      exact hsA1l
    have hbbl : isDead g (if y.inv then negSig sB1 else sB1).idx = false := by
      rw [hbbi]
      exact hsB1l
    obtain ⟨hIA, hszA, hrAb, hrAl, hlvA, hevA, hgtA, hddA, houtA, hdepA, hlA,
      hesA, hphiA, hposA⟩ := createAnd_step hI hA haab hbbb haal hbbl
    obtain ⟨hIB, hszB, hrBb, hrBl, hlvB, hevB, hgtB, hddB, houtB, hdepB, hlB,
      hesB, hphiB, hposB⟩ := createAnd_step hIA hB
      (lt_of_lt_of_le hsA0b hszA) hrAb
      (by rw [hddA sA0.idx hsA0b]; exact hsA0l) hrAl
    have ea1p : ∀ env, evalSig g env (if x.inv then negSig sA1 else sA1) =
        xor x.inv (evalSig g env sA1) := by
      intro env
      cases x.inv
      · simp [bfalse_xor]
      · simp [evalSig_neg, btrue_xor]
    have eb1p : ∀ env, evalSig g env (if y.inv then negSig sB1 else sB1) =
        xor y.inv (evalSig g env sB1) := by
      intro env
      cases y.inv
      · simp [bfalse_xor]
      · simp [evalSig_neg, btrue_xor]
    have heq : ∀ env, xor rB.inv (evalN gB env rB.idx) = evalN gB env n := by
      intro env
      have e0 : xor rB.inv (evalN gB env rB.idx) = evalSig gB env rB := rfl
      rw [e0, hesB env]
      have es0 : evalSig gA env sA0 = evalSig g env sA0 := by
        show xor sA0.inv (evalN gA env sA0.idx) = _
        rw [hevA env sA0.idx hsA0b]
        rfl
      have enB : evalN gB env n = evalN g env n := by
        rw [hevB env n (lt_of_lt_of_le hn hszA), hevA env n hn]
      rw [es0, hesA env, ea1p env, eb1p env, enB, hevn env, hevx env, hevy env]
      cases hxv : x.inv <;> cases hyv : y.inv
      · cases evalSig g env sA0 <;> cases evalSig g env sA1 <;>
          cases evalSig g env sB1 <;> rfl
      · cases evalSig g env sA0 <;> cases evalSig g env sA1 <;>
          cases evalSig g env sB1 <;> rfl
      · cases evalSig g env sA0 <;> cases evalSig g env sA1 <;>
          cases evalSig g env sB1 <;> rfl
      · rw [hxv, hyv] at hxy
        exact Bool.noConfusion hxy
    have hcore := dist2_core hI hdn hn hgn hfx hfy hgx hgy hAp hBp hshid
      haai hbbi rfl rfl hA hB heq
    rw [hse]
    exact hcore

theorem tryAlg_none {g : Net} {n : Nat} {g1 : Net}
    (h : tryAlgebraicRules g n = (g1, none)) : g1 = g := by
  unfold tryAlgebraicRules at h
  split at h
  next => exact Option.noConfusion (congrArg Prod.snd h)
  next =>
    split at h
    next => exact Option.noConfusion (congrArg Prod.snd h)
    next =>
      rcases tryDist3_shape g n with hsh | ⟨s2, hsh⟩
      · rw [hsh] at h
        exact (congrArg Prod.fst h).symm
      · rw [h] at hsh
        exact Option.noConfusion hsh

theorem tryAlg_master {g : Net} {n : Nat} {g2 : Net} {s : Sig}
    (hI : NetInv g) (hdn : isDead g n = false) (hn : n < nsize g)
    (h : tryAlgebraicRules g n = (g2, some s)) :
    NetInv g2 ∧ nsize g ≤ nsize g2 ∧
    (∀ env, outputVals g2 env = outputVals g env) ∧
    depthN g2 ≤ depthN g ∧ phi g2 < phi g ∧
    levelN g2 s.idx ≤ levelN g n := by
  unfold tryAlgebraicRules at h
  split at h
  next gx sx heq1 =>
    obtain ⟨he1, he2⟩ := Prod.mk.inj h
    obtain rfl := Option.some.inj he2
    rw [he1] at heq1
    obtain ⟨c1, c2, c3, c4, c5, c6⟩ := tryAssoc_master hI hdn hn heq1
    exact ⟨c1, c2, c3, c4, c5, le_of_lt c6⟩
  next =>
    split at h
    next gx sx heq2 =>
      obtain ⟨he1, he2⟩ := Prod.mk.inj h
      obtain rfl := Option.some.inj he2
      rw [he1] at heq2
      exact tryDist_master hI hdn hn heq2
    next =>
      obtain ⟨c1, c2, c3, c4, c5, c6⟩ := tryDist3_master hI hdn hn h
      exact ⟨c1, c2, c3, c4, c5, le_of_lt c6⟩

theorem scanGo_found_true (N : Nat) : ∀ j (g : Net), (scanGo N g true j).2 = true := by
  intro j
  induction j with
  | zero => intro g; rfl
  | succ a iha =>
    intro g
    unfold scanGo
    dsimp only
    split
    · exact iha g
    · split
      next g1 s2 heq => exact iha g1
      next g1 heq => exact iha g1

theorem scanGo_master (N : Nat) : ∀ j (g : Net) (found : Bool), j ≤ N →
    NetInv g → N ≤ nsize g →
    NetInv (scanGo N g found j).1 ∧ N ≤ nsize (scanGo N g found j).1 ∧
    (∀ env, outputVals (scanGo N g found j).1 env = outputVals g env) ∧
    depthN (scanGo N g found j).1 ≤ depthN g ∧
    phi (scanGo N g found j).1 ≤ phi g ∧
    (found = false → (scanGo N g found j).2 = false → (scanGo N g found j).1 = g) ∧
    (found = false → (scanGo N g found j).2 = true →
      phi (scanGo N g found j).1 < phi g) := by
  intro j
  induction j with
  | zero =>
    intro g found _ hI _
    refine ⟨hI, by assumption, fun env => rfl, le_rfl, le_rfl, fun _ _ => rfl, ?_⟩
    intro hf he
    rw [hf] at he
    exact Bool.noConfusion he
  | succ a iha =>
    intro g found hja hI hN
    have hja2 : a ≤ N := by omega
    unfold scanGo
    dsimp only
    split
    next hskip => exact iha g found hja2 hI hN
    next hskip =>
      simp only [Bool.or_eq_true, Bool.not_eq_true', not_or, Bool.not_eq_true,
        Bool.not_eq_false] at hskip
      have hdni : isDead g (N - (a + 1)) = false := hskip.1
      have hAni : isAnd g (N - (a + 1)) = true := hskip.2
      have hni : N - (a + 1) < N := by omega
      have hni2 : N - (a + 1) < nsize g := by omega
      split
      next g1 s2 heq =>
        obtain ⟨c1, c2, c3, c4, c5, c6⟩ := tryAlg_master hI hdni hni2 heq
        obtain ⟨d1, d2, d3, d4, d5, d6, d7⟩ :=
          iha g1 true hja2 c1 (le_trans hN c2)
        refine ⟨d1, d2, ?_, le_trans d4 c4, ?_, ?_, ?_⟩
        · intro env
          rw [d3 env, c3 env]
        · omega
        · intro hf hsc
          rw [scanGo_found_true N a g1] at hsc
          exact Bool.noConfusion hsc
        · intro hf hsc
          omega
      next g1 heq =>
        have hgg := tryAlg_none heq
        rw [hgg]
        exact iha g found hja2 hI hN

theorem scanOnce_master {g : Net} (hI : NetInv g) :
    NetInv (scanOnce g).1 ∧
    (∀ env, outputVals (scanOnce g).1 env = outputVals g env) ∧
    depthN (scanOnce g).1 ≤ depthN g ∧
    phi (scanOnce g).1 ≤ phi g ∧
    ((scanOnce g).2 = false → (scanOnce g).1 = g) ∧
    ((scanOnce g).2 = true → phi (scanOnce g).1 < phi g) := by
  obtain ⟨c1, c2, c3, c4, c5, c6, c7⟩ :=
    scanGo_master (nsize g) (nsize g) g false le_rfl hI le_rfl
  exact ⟨c1, c3, c4, c5, c6 rfl, c7 rfl⟩

theorem runLoop_master : ∀ (fuel : Nat) (g : Net), NetInv g →
    NetInv (runLoop g fuel) ∧
    (∀ env, outputVals (runLoop g fuel) env = outputVals g env) ∧
    depthN (runLoop g fuel) ≤ depthN g ∧
    phi (runLoop g fuel) ≤ phi g := by
  intro fuel
  induction fuel with
  | zero => intro g hI; exact ⟨hI, fun env => rfl, le_rfl, le_rfl⟩
  | succ a iha =>
    intro g hI
    obtain ⟨c1, c2, c3, c4, c5, c6⟩ := scanOnce_master hI
    unfold runLoop
    dsimp only
    split
    next hsc =>
      obtain ⟨d1, d2, d3, d4⟩ := iha (scanOnce g).1 c1
      refine ⟨d1, ?_, le_trans d3 c3, le_trans d4 c4⟩
      intro env
      rw [d2 env, c2 env]
    next hsc => exact ⟨c1, c2, c3, c4⟩

theorem runLoop_fix {g : Net} (hI : NetInv g) :
    ∃ fuel, (scanOnce (runLoop g fuel)).2 = false := by
  obtain ⟨m, hm⟩ : ∃ m, phi g ≤ m := ⟨phi g, le_rfl⟩
  induction m using Nat.strong_induction_on generalizing g with
  | _ m ih =>
    obtain ⟨c1, c2, c3, c4, c5, c6⟩ := scanOnce_master hI
    cases hsc : (scanOnce g).2 with
    | false =>
      refine ⟨0, ?_⟩
      show (scanOnce (runLoop g 0)).2 = false
      exact hsc
    | true =>
      have hlt : phi (scanOnce g).1 < phi g := c6 hsc
      obtain ⟨fuel1, hf1⟩ := ih (phi (scanOnce g).1) (by omega) c1 le_rfl
      refine ⟨fuel1 + 1, ?_⟩
      show (scanOnce (runLoop g (fuel1 + 1))).2 = false
      unfold runLoop
      dsimp only
      rw [if_pos hsc]
      exact hf1

/-! ## Concrete well-formedness via the executable checker -/

theorem boolNotTrue {b : Bool} (h : (!b) = true) : b = false := by
  cases b
  · rfl
  · exact Bool.noConfusion h

theorem rankOk_of_checker {g : Net} {rho : Nat → Nat}
    (h : rankOkB g rho = true) : rankOk g rho := by
  unfold rankOkB at h
  rw [List.all_eq_true] at h
  intro i hi f hh hg
  have hx := h i (List.mem_range.mpr hi)
  rw [hg] at hx
  dsimp only at hx
  rw [Bool.and_eq_true, decide_eq_true_eq, decide_eq_true_eq] at hx
  exact hx

theorem netInv_of_checker (g : Net) (rho : Nat → Nat)
    (h : netInvB g rho = true) : NetInv g := by
  unfold netInvB at h
  rw [Bool.and_eq_true, Bool.and_eq_true, Bool.and_eq_true, Bool.and_eq_true,
    Bool.and_eq_true, Bool.and_eq_true, Bool.and_eq_true] at h
  obtain ⟨⟨⟨⟨⟨⟨⟨h1, h2⟩, h3⟩, h4⟩, h5⟩, h6⟩, h7⟩, h8⟩ := h
  refine ⟨decide_eq_true_eq.mp h1, decide_eq_true_eq.mp h2,
    boolNotTrue h3, ?_, ?_, ?_, ?_, ⟨rho, rankOk_of_checker h8⟩⟩
  · intro i hi f hh hg
    rw [List.all_eq_true] at h4
    have hx := h4 i (List.mem_range.mpr hi)
    rw [hg] at hx
    dsimp only at hx
    rw [Bool.and_eq_true, decide_eq_true_eq, decide_eq_true_eq] at hx
    exact hx
  · intro s hs
    rw [List.all_eq_true] at h5
    exact decide_eq_true_eq.mp (h5 s hs)
  · intro s hs
    rw [List.all_eq_true] at h6
    exact boolNotTrue (h6 s hs)
  · intro i hi hdi f hh hg
    rw [List.all_eq_true] at h7
    have hx := h7 i (List.mem_range.mpr hi)
    rw [hdi] at hx
    simp only [Bool.false_eq_true, if_false] at hx
    rw [hg] at hx
    dsimp only at hx
    rw [Bool.and_eq_true] at hx
    exact ⟨boolNotTrue hx.1, boolNotTrue hx.2⟩

/-! ## The claims -/

/-- C1: running the rewriting engine (the run() fixpoint loop) preserves
the Boolean function computed at every primary output: for every
well-formed network, every number of scans and every input assignment,
the primary-output values are unchanged. -/
theorem run_preserves_outputs {g : Net} (hI : NetInv g) (fuel : Nat)
    (env : Nat → Bool) :
    outputVals (runLoop g fuel) env = outputVals g env :=
  (runLoop_master fuel g hI).2.1 env

/-- Witness for C1: the concrete net gW1, two scans, all-true inputs. -/
theorem run_preserves_outputs_witness :
    outputVals (runLoop gW1 2) envT = outputVals gW1 envT :=
  run_preserves_outputs (netInv_of_checker gW1 (fun i => i) (by decide)) 2 envT

/-- C2 counterexample: the distributivity rule accepts node 6 of gW1
(replacement signal node 8) but the replacement's level after the
substitution equals the level node 6 had before, so the accepted rewrite
does not strictly reduce the matched node's level. -/
theorem rewrite_level_strict_cex :
    (tryDistributivity gW1 6).2 = some ⟨8, false⟩ ∧
    levelN (tryDistributivity gW1 6).1 8 = 2 ∧ levelN gW1 6 = 2 := by decide

/-- C2 (amended): every rewrite accepted by the rule dispatcher yields a
replacement signal whose level after the substitution is at most (not
strictly less than) the level the matched node had before; termination
is nevertheless guaranteed because the potential (sum of 3^level over
live AND gates) strictly decreases at every accepted rewrite. -/
theorem rewrite_level_le {g : Net} {n : Nat} {g2 : Net} {s : Sig}
    (hI : NetInv g) (hdn : isDead g n = false) (hn : n < nsize g)
    (h : tryAlgebraicRules g n = (g2, some s)) :
    levelN g2 s.idx ≤ levelN g n ∧ phi g2 < phi g :=
  ⟨(tryAlg_master hI hdn hn h).2.2.2.2.2, (tryAlg_master hI hdn hn h).2.2.2.2.1⟩

/-- Witness for C2 (amended): the accepted rewrite of node 6 of gW1. -/
theorem rewrite_level_le_witness :
    levelN (tryAlgebraicRules gW1 6).1 (Sig.mk 8 false).idx ≤ levelN gW1 6 ∧
    phi (tryAlgebraicRules gW1 6).1 < phi gW1 :=
  rewrite_level_le (netInv_of_checker gW1 (fun i => i) (by decide)) (by decide)
    (by decide)
    (show tryAlgebraicRules gW1 6 =
      ((tryAlgebraicRules gW1 6).1, some (Sig.mk 8 false)) by decide)

/-- C3: for every well-formed network the fixpoint loop terminates:
after some number of scans, a full scan fires no rule. -/
theorem run_terminates {g : Net} (hI : NetInv g) :
    ∃ fuel, (scanOnce (runLoop g fuel)).2 = false :=
  runLoop_fix hI

/-- Witness for C3: the concrete net gW1. -/
theorem run_terminates_witness :
    ∃ fuel, (scanOnce (runLoop gW1 fuel)).2 = false :=
  run_terminates (netInv_of_checker gW1 (fun i => i) (by decide))

/-- C4: the network depth never increases: for every well-formed network
and every number of scans, the depth after running the engine is at most
the depth before. -/
theorem run_depth_monotone {g : Net} (hI : NetInv g) (fuel : Nat) :
    depthN (runLoop g fuel) ≤ depthN g :=
  (runLoop_master fuel g hI).2.2.1

/-- Witness for C4: the concrete net gW1 after two scans. -/
theorem run_depth_monotone_witness :
    depthN (runLoop gW1 2) ≤ depthN gW1 :=
  run_depth_monotone (netInv_of_checker gW1 (fun i => i) (by decide)) 2

/-- C10: each of the three rule matchers is atomic on failure: whenever
it reports no match, the returned network is exactly the input network,
with no node created, killed or rewired. -/
theorem matchers_pure_on_failure (g : Net) (n : Nat) :
    ((tryAssociativity g n).2 = none → tryAssociativity g n = (g, none)) ∧
    ((tryDistributivity g n).2 = none → tryDistributivity g n = (g, none)) ∧
    ((tryDistributivity3lvBis g n).2 = none → tryDistributivity3lvBis g n = (g, none)) := by
  refine ⟨?_, ?_, ?_⟩
  · intro hnone
    rcases tryAssoc_shape g n with hsh | ⟨s, hsh⟩
    · exact hsh
    · rw [hnone] at hsh
      exact Option.noConfusion hsh
  · intro hnone
    rcases tryDist_shape g n with hsh | ⟨s, hsh⟩
    · exact hsh
    · rw [hnone] at hsh
      exact Option.noConfusion hsh
  · intro hnone
    rcases tryDist3_shape g n with hsh | ⟨s, hsh⟩
    · exact hsh
    · rw [hnone] at hsh
      exact Option.noConfusion hsh

/-- C5 counterexample: node 6 of gW2 has mixed complementation (fan-in
x = node 4 complemented, fan-in y = node 5 not), both fan-ins are AND
gates with fanout one sharing node 3 with equal polarity, yet
try_distributivity accepts the node instead of rejecting it. -/
theorem dist_mixed_cex :
    gateAt gW2 6 = Gate.andg ⟨4, true⟩ ⟨5, false⟩ ∧
    fanoutSize gW2 4 = 1 ∧ fanoutSize gW2 5 = 1 ∧
    gateAt gW2 4 = Gate.andg ⟨1, false⟩ ⟨3, false⟩ ∧
    gateAt gW2 5 = Gate.andg ⟨2, false⟩ ⟨3, false⟩ ∧
    (tryDistributivity gW2 6).2 = some ⟨8, false⟩ := by decide

/-- C5 (amended): when the structural preconditions hold (both fan-ins
of n are AND gates with fanout one and the pairing search finds a shared
operand of equal polarity), try_distributivity accepts the node under
every complementation pattern of the two fan-ins, the mixed
one-complemented patterns included. -/
theorem dist_matches_mixed {g : Net} {n : Nat}
    {x y a0 a1 b0 b1 sA0 sA1 sB0 sB1 : Sig}
    (hgn : gateAt g n = Gate.andg x y)
    (hfx : fanoutSize g x.idx = 1) (hfy : fanoutSize g y.idx = 1)
    (hgx : gateAt g x.idx = Gate.andg a0 a1)
    (hgy : gateAt g y.idx = Gate.andg b0 b1)
    (hal : alignShared a0 a1 b0 b1 = some ((sA0, sA1), (sB0, sB1)))
    (hpol : sA0.inv = sB0.inv) :
    ∃ s, (tryDistributivity g n).2 = some s := by
  unfold tryDistributivity
  rw [hgn]
  dsimp only
  have hgu : (!(fanoutSize g x.idx == 1) || !(fanoutSize g y.idx == 1)) = false := by
    rw [hfx, hfy]
    rfl
  rw [hgu, if_neg Bool.false_ne_true, hgx, hgy]
  dsimp only
  rw [hal]
  dsimp only
  have hpg : (!decide (sA0.inv = sB0.inv)) = false := by
    rw [decide_eq_true hpol]
    rfl
  rw [hpg, if_neg Bool.false_ne_true]
  cases hxy : (x.inv && y.inv)
  · rw [if_neg Bool.false_ne_true]
    exact ⟨_, rfl⟩
  · rw [if_pos rfl]
    exact ⟨_, rfl⟩

/-- Witness for C5 (amended): the mixed-complementation node 6 of gW2. -/
theorem dist_matches_mixed_witness :
    ∃ s, (tryDistributivity gW2 6).2 = some s :=
  @dist_matches_mixed gW2 6 ⟨4, true⟩ ⟨5, false⟩ ⟨1, false⟩ ⟨3, false⟩
    ⟨2, false⟩ ⟨3, false⟩ ⟨3, false⟩ ⟨1, false⟩ ⟨3, false⟩ ⟨2, false⟩
    (by decide) (by decide) (by decide) (by decide) (by decide) (by decide)
    (by decide)

/-- C9 counterexample: the fan-ins of node 5 of gW3 are AND gates with
fanout one whose operand lists contain node 2 uncomplemented on both
sides, yet try_distributivity rejects the node: the pairing search
committed to node 1, whose polarities differ. -/
theorem dist_pairing_cex :
    gateAt gW3 5 = Gate.andg ⟨3, false⟩ ⟨4, false⟩ ∧
    fanoutSize gW3 3 = 1 ∧ fanoutSize gW3 4 = 1 ∧
    gateAt gW3 3 = Gate.andg ⟨1, false⟩ ⟨2, false⟩ ∧
    gateAt gW3 4 = Gate.andg ⟨1, true⟩ ⟨2, false⟩ ∧
    tryDistributivity gW3 5 = (gW3, none) := by decide

/-- C9 (amended): the pairing search is not complete: it commits to the
first node-identity pairing in test order, so whenever that pairing has
mismatched polarity the matcher rejects the node outright, even if
another pairing shares a node with matching polarity. -/
theorem dist_pairing_commits {g : Net} {n : Nat}
    {x y a0 a1 b0 b1 sA0 sA1 sB0 sB1 : Sig}
    (hgn : gateAt g n = Gate.andg x y)
    (hgx : gateAt g x.idx = Gate.andg a0 a1)
    (hgy : gateAt g y.idx = Gate.andg b0 b1)
    (hal : alignShared a0 a1 b0 b1 = some ((sA0, sA1), (sB0, sB1)))
    (hpol : ¬(sA0.inv = sB0.inv)) :
    tryDistributivity g n = (g, none) := by
  unfold tryDistributivity
  rw [hgn]
  dsimp only
  cases hgu : (!(fanoutSize g x.idx == 1) || !(fanoutSize g y.idx == 1))
  · rw [if_neg Bool.false_ne_true, hgx, hgy]
    dsimp only
    rw [hal]
    dsimp only
    have hpg : (!decide (sA0.inv = sB0.inv)) = true := by
      rw [decide_eq_false hpol]
      rfl
    rw [hpg, if_pos rfl]
  · rw [if_pos rfl]

/-- Witness for C9 (amended): node 5 of gW3, where the first pairing is
node 1 with mismatched polarity. -/
theorem dist_pairing_commits_witness :
    tryDistributivity gW3 5 = (gW3, none) :=
  @dist_pairing_commits gW3 5 ⟨3, false⟩ ⟨4, false⟩ ⟨1, false⟩ ⟨2, false⟩
    ⟨1, true⟩ ⟨2, false⟩ ⟨1, false⟩ ⟨2, false⟩ ⟨1, true⟩ ⟨2, false⟩
    (by decide) (by decide) (by decide) (by decide) (by decide)

/-- C6 counterexample: on gW4 both fan-ins of node 6 are complemented
and the rule fires, but at the all-true assignment the substituted
signal evaluates to false while the claimed replacement formula
!AND(shared, NAND(a_rest, b_rest)) evaluates to true (here shared is
node 3 and a_rest, b_rest are nodes 1 and 2 uncomplemented). -/
theorem dist_demorgan_cex :
    (tryDistributivity gW4 6).2 = some ⟨8, true⟩ ∧
    evalSig (tryDistributivity gW4 6).1 envT ⟨8, true⟩ = false ∧
    (!(evalSig gW4 envT ⟨3, false⟩ &&
       !(evalSig gW4 envT ⟨1, false⟩ && evalSig gW4 envT ⟨2, false⟩))) = true ∧
    evalN gW4 envT 6 = false := by decide

/-- C6 (amended): in the both-complemented case try_distributivity
substitutes !AND(shared, NAND(!a_rest, !b_rest)): it builds
rA = NAND(!sA1, !sB1) and rB = AND(sA0, rA) and replaces n by !rB, whose
value before the substitution equals
!(shared && !(!a_rest && !b_rest)) on every input assignment. -/
theorem dist_demorgan {g : Net} {n : Nat} {g2 : Net} {s : Sig}
    {x y a0 a1 b0 b1 sA0 sA1 sB0 sB1 : Sig}
    (hI : NetInv g) (hdn : isDead g n = false) (hn : n < nsize g)
    (h : tryDistributivity g n = (g2, some s))
    (hgn : gateAt g n = Gate.andg x y)
    (hxi : x.inv = true) (hyi : y.inv = true)
    (hgx : gateAt g x.idx = Gate.andg a0 a1)
    (hgy : gateAt g y.idx = Gate.andg b0 b1)
    (hal : alignShared a0 a1 b0 b1 = some ((sA0, sA1), (sB0, sB1))) :
    ∃ gA rA gB rB,
      createNand g (negSig sA1) (negSig sB1) = (gA, rA) ∧
      createAnd gA sA0 rA = (gB, rB) ∧
      s = negSig rB ∧ g2 = substituteNode gB n (negSig rB) ∧
      ∀ env, evalSig gB env (negSig rB) =
        !(evalSig g env sA0 &&
          !((!(evalSig g env sA1)) && (!(evalSig g env sB1)))) := by
  obtain ⟨x', y', a0', a1', b0', b1', sA0', sA1', sB0', sB1', hgn', hfx', hfy',
    hgx', hgy', hal', hpol', hbr⟩ := tryDist_fired h
  obtain ⟨hex1, hey1⟩ := Gate.andg.inj (hgn'.symm.trans hgn)
  rw [hex1] at hgx'
  rw [hey1] at hgy'
  obtain ⟨hea0, hea1⟩ := Gate.andg.inj (hgx'.symm.trans hgx)
  obtain ⟨heb0, heb1⟩ := Gate.andg.inj (hgy'.symm.trans hgy)
  rw [hea0, hea1, heb0, heb1] at hal'
  obtain ⟨hsa, hsb⟩ := Prod.mk.inj (Option.some.inj (hal'.symm.trans hal))
  obtain ⟨hsa0, hsa1⟩ := Prod.mk.inj hsa
  obtain ⟨hsb0, hsb1⟩ := Prod.mk.inj hsb
  rw [hex1, hey1, hsa0, hsa1, hsb1] at hbr
  obtain ⟨hAp, hBp, hshid⟩ := alignShared_some hal
  obtain ⟨rho, hr⟩ := hI.acyclic
  have hfb : faninBounded g := hI.bounded
  obtain ⟨hxb, hyb⟩ := hI.bounded n hn x y hgn
  obtain ⟨hxl, hyl⟩ := hI.deadClosed n hn hdn x y hgn
  obtain ⟨ha0b, ha1b⟩ := hI.bounded x.idx hxb a0 a1 hgx
  obtain ⟨ha0l, ha1l⟩ := hI.deadClosed x.idx hxb hxl a0 a1 hgx
  obtain ⟨hb0b, hb1b⟩ := hI.bounded y.idx hyb b0 b1 hgy
  obtain ⟨hb0l, hb1l⟩ := hI.deadClosed y.idx hyb hyl b0 b1 hgy
  have hsA0b : sA0.idx < nsize g := by
    rcases hAp with ⟨h1, _⟩ | ⟨h1, _⟩ <;> rw [h1] <;> assumption
  have hsA1b : sA1.idx < nsize g := by
    rcases hAp with ⟨_, h2⟩ | ⟨_, h2⟩ <;> rw [h2] <;> assumption
  have hsA0l : isDead g sA0.idx = false := by
    rcases hAp with ⟨h1, _⟩ | ⟨h1, _⟩ <;> rw [h1] <;> assumption
  have hsA1l : isDead g sA1.idx = false := by
    rcases hAp with ⟨_, h2⟩ | ⟨_, h2⟩ <;> rw [h2] <;> assumption
  have hsB1b : sB1.idx < nsize g := by
    rcases hBp with ⟨_, h2⟩ | ⟨_, h2⟩ <;> rw [h2] <;> assumption
  have hsB1l : isDead g sB1.idx = false := by
    rcases hBp with ⟨_, h2⟩ | ⟨_, h2⟩ <;> rw [h2] <;> assumption
  rcases hbr with ⟨hxi', hyi', gA, rA, gB, rB, hA, hB, hg2e, hse⟩ |
    ⟨hxy, gA, rA, gB, rB, hA, hB, hg2e, hse⟩
  · have hAc := hA
    rw [createNand_eq] at hAc
    obtain ⟨h1, h2⟩ := Prod.mk.inj hAc
    have hA2 : createAnd g (negSig sA1) (negSig sB1) = (gA, negSig rA) := by
      rw [← h1, ← h2, negSig_negSig]
    obtain ⟨hIA, hszA, hrAb, hrAl, hlvA, hevA, hgtA, hddA, houtA, hdepA, hlA,
      hesA, hphiA, hposA⟩ := createAnd_step hI hA2 hsA1b hsB1b hsA1l hsB1l
    obtain ⟨hIB, hszB, hrBb, hrBl, hlvB, hevB, hgtB, hddB, houtB, hdepB, hlB,
      hesB, hphiB, hposB⟩ := createAnd_step hIA hB
      (lt_of_lt_of_le hsA0b hszA) hrAb
      (by rw [hddA sA0.idx hsA0b]; exact hsA0l) hrAl
    refine ⟨gA, rA, gB, rB, hA, hB, hse, hg2e, ?_⟩
    intro env
    rw [evalSig_neg, hesB env]
    have es0 : evalSig gA env sA0 = evalSig g env sA0 := by
      show xor sA0.inv (evalN gA env sA0.idx) = _
      rw [hevA env sA0.idx hsA0b]
      rfl
    have erA : evalSig gA env rA =
        !(evalSig g env (negSig sA1) && evalSig g env (negSig sB1)) := by
      rw [show rA = negSig (negSig rA) from (negSig_negSig rA).symm, evalSig_neg,
        hesA env]
    rw [es0, erA, evalSig_neg, evalSig_neg]
  · rw [hxi, hyi] at hxy
    exact Bool.noConfusion hxy

/-- C7: try_associativity fires on node n exactly when the spec
precondition holds (n critical, fan-ins not both primary inputs, one
fan-in q uncomplemented and more than one level deeper than the other p,
and exactly one of q's fan-ins critical); on firing, the substituted
signal is AND(AND(p, b), a) with a the critical and b the non-critical
fan-in of q. -/
theorem assoc_iff (g : Net) (n : Nat) :
    ((tryAssociativity g n).2 ≠ none ↔ assocPre g n) ∧
    (∀ g2 s, tryAssociativity g n = (g2, some s) →
      ∃ p q b a s0 s1 a0 a1,
        gateAt g n = Gate.andg s0 s1 ∧
        ((p = s1 ∧ q = s0) ∨ (p = s0 ∧ q = s1)) ∧
        levelN g p.idx + 1 < levelN g q.idx ∧ q.inv = false ∧
        gateAt g q.idx = Gate.andg a0 a1 ∧
        ((b = a1 ∧ a = a0) ∨ (b = a0 ∧ a = a1)) ∧
        critN g a.idx = true ∧ critN g b.idx = false ∧
        s = (createAnd (createAnd g p b).1 (createAnd g p b).2 a).2 ∧
        g2 = substituteNode (createAnd (createAnd g p b).1 (createAnd g p b).2 a).1
          n s) := by
  constructor
  · constructor
    · intro hne
      rcases tryAssoc_shape g n with hsh | ⟨s, hsh⟩
      · rw [hsh] at hne
        exact absurd rfl hne
      · have hEq : tryAssociativity g n = ((tryAssociativity g n).1, some s) :=
          Prod.ext rfl hsh
        obtain ⟨hcr, s0, s1, p, q, a0, a1, b, a, hgn, hpq, hlv, hqi, hgq, hba,
          hca, hcb, hg2, hs⟩ := tryAssoc_fired hEq
        refine ⟨hcr, s0, s1, hgn, ?_, p, q, ?_, hqi, hlv, a0, a1, hgq, ?_⟩
        · intro hpi
          have hqpi : isPiAt g q.idx = false := by
            unfold isPiAt
            rw [hgq]
          rcases hpq with ⟨_, hq⟩ | ⟨_, hq⟩
          · rw [hq, hpi.1] at hqpi
            exact Bool.noConfusion hqpi
          · rw [hq, hpi.2] at hqpi
            exact Bool.noConfusion hqpi
        · rcases hpq with ⟨h1, h2⟩ | ⟨h1, h2⟩
          · exact Or.inr ⟨h1, h2⟩
          · exact Or.inl ⟨h1, h2⟩
        · rcases hba with ⟨h1, h2⟩ | ⟨h1, h2⟩
          · exact Or.inl ⟨by rw [← h2]; exact hca, by rw [← h1]; exact hcb⟩
          · exact Or.inr ⟨by rw [← h2]; exact hca, by rw [← h1]; exact hcb⟩
    · intro hpre
      obtain ⟨hcr, s0, s1, hgn, hnpi, p, q, hperm, hqi, hlv, a0, a1, hgq,
        hcrit⟩ := hpre
      unfold tryAssociativity
      rw [if_neg (show ¬(critN g n = false) by
        intro hx
        rw [hcr] at hx
        exact Bool.noConfusion hx)]
      rw [hgn]
      dsimp only
      have hpib : (isPiAt g s0.idx && isPiAt g s1.idx) = false := by
        cases hp0 : isPiAt g s0.idx
        · rfl
        · cases hp1 : isPiAt g s1.idx
          · rfl
          · exact absurd ⟨hp0, hp1⟩ hnpi
      rw [hpib, if_neg Bool.false_ne_true]
      rcases hperm with ⟨hp, hq⟩ | ⟨hp, hq⟩
      · rw [hp] at hlv
        rw [hq] at hqi hlv hgq
        have hg1 : (decide (levelN g s0.idx > levelN g s1.idx + 1) && !s0.inv)
            = false := by
          rw [decide_eq_false (show ¬(levelN g s0.idx > levelN g s1.idx + 1) by
            omega), Bool.false_and]
        have hg2 : (decide (levelN g s1.idx > levelN g s0.idx + 1) && !s1.inv)
            = true := by
          rw [decide_eq_true (show levelN g s1.idx > levelN g s0.idx + 1 by
            omega), hqi]
          rfl
        rw [hg1, if_neg Bool.false_ne_true, hg2, if_pos rfl]
        dsimp only
        rw [hgq]
        dsimp only
        rcases hcrit with ⟨hc1, hc2⟩ | ⟨hc1, hc2⟩
        · have hgb1 : (critN g a0.idx && !critN g a1.idx) = true := by
            rw [hc1, hc2]
            rfl
          rw [hgb1, if_pos rfl]
          intro hx
          exact Option.noConfusion hx
        · have hgb1 : (critN g a0.idx && !critN g a1.idx) = false := by
            rw [hc2, Bool.false_and]
          have hgb2 : (critN g a1.idx && !critN g a0.idx) = true := by
            rw [hc1, hc2]
            rfl
          rw [hgb1, if_neg Bool.false_ne_true, hgb2, if_pos rfl]
          intro hx
          exact Option.noConfusion hx
      · rw [hp] at hlv
        rw [hq] at hqi hlv hgq
        have hg1 : (decide (levelN g s0.idx > levelN g s1.idx + 1) && !s0.inv)
            = true := by
          rw [decide_eq_true (show levelN g s0.idx > levelN g s1.idx + 1 by
            omega), hqi]
          rfl
        rw [hg1, if_pos rfl]
        dsimp only
        rw [hgq]
        dsimp only
        rcases hcrit with ⟨hc1, hc2⟩ | ⟨hc1, hc2⟩
        · have hgb1 : (critN g a0.idx && !critN g a1.idx) = true := by
            rw [hc1, hc2]
            rfl
          rw [hgb1, if_pos rfl]
          intro hx
          exact Option.noConfusion hx
        · have hgb1 : (critN g a0.idx && !critN g a1.idx) = false := by
            rw [hc2, Bool.false_and]
          have hgb2 : (critN g a1.idx && !critN g a0.idx) = true := by
            rw [hc1, hc2]
            rfl
          rw [hgb1, if_neg Bool.false_ne_true, hgb2, if_pos rfl]
          intro hx
          exact Option.noConfusion hx
  · intro g2 s h
    obtain ⟨hcr, s0, s1, p, q, a0, a1, b, a, hgn, hpq, hlv, hqi, hgq, hba,
      hca, hcb, hg2, hs⟩ := tryAssoc_fired h
    exact ⟨p, q, b, a, s0, s1, a0, a1, hgn, hpq, hlv, hqi, hgq, hba, hca, hcb,
      hs, by rw [hg2, ← hs]⟩

/-- C8: try_distributivity3lvBis fires on node n exactly when the spec
precondition holds (deeper fan-in z complemented with a level gap over d
of more than 3, z's deeper fan-in w complemented and strictly above its
sibling c, w's deeper fan-in b strictly above its sibling a); on firing
it builds nw = AND(a, d), nz = AND(nw, b), nf = AND(!c, d) and
substitutes !AND(!nz, !nf) for n. -/
theorem dist3_iff (g : Net) (n : Nat) :
    ((tryDistributivity3lvBis g n).2 ≠ none ↔ dist3Pre g n) ∧
    (∀ g2 s, tryDistributivity3lvBis g n = (g2, some s) →
      ∃ s0 s1 z d t0 t1 w c u0 u1 b a,
        gateAt g n = Gate.andg s0 s1 ∧
        ((z = s0 ∧ d = s1) ∨ (z = s1 ∧ d = s0)) ∧
        z.inv = true ∧ 3 < levelN g z.idx - levelN g d.idx ∧
        gateAt g z.idx = Gate.andg t0 t1 ∧
        ((w = t0 ∧ c = t1) ∨ (w = t1 ∧ c = t0)) ∧
        w.inv = true ∧ 0 < levelN g w.idx - levelN g c.idx ∧
        gateAt g w.idx = Gate.andg u0 u1 ∧
        ((b = u0 ∧ a = u1) ∨ (b = u1 ∧ a = u0)) ∧
        0 < levelN g b.idx - levelN g a.idx ∧
        (∃ gA rA gB rB gCc rC gD rD,
          createAnd g a d = (gA, rA) ∧
          createAnd gA rA b = (gB, rB) ∧
          createAnd gB (negSig c) d = (gCc, rC) ∧
          createAnd gCc (negSig rB) (negSig rC) = (gD, rD) ∧
          g2 = substituteNode gD n (negSig rD) ∧ s = negSig rD)) := by
  constructor
  · constructor
    · intro hne
      rcases tryDist3_shape g n with hsh | ⟨s, hsh⟩
      · rw [hsh] at hne
        exact absurd rfl hne
      · have hEq : tryDistributivity3lvBis g n =
            ((tryDistributivity3lvBis g n).1, some s) := Prod.ext rfl hsh
        obtain ⟨s0, s1, z, d, t0, t1, w, c, u0, u1, b, a, hgn, hzdp, hzi, hzl,
          hgz, hwcp, hwi, hwl, hgw, hbap, hbl, _⟩ := tryDist3_fired hEq
        exact ⟨s0, s1, z, d, hgn, hzdp, hzi, hzl, t0, t1, w, c, hgz, hwcp,
          hwi, hwl, u0, u1, b, a, hgw, hbap, hbl⟩
    · intro hpre
      obtain ⟨s0, s1, z, d, hgn, hzdp, hzi, hzl, t0, t1, w, c, hgz, hwcp,
        hwi, hwl, u0, u1, b, a, hgw, hbap, hbl⟩ := hpre
      unfold tryDistributivity3lvBis
      rw [hgn]
      dsimp only
      rcases hzdp with ⟨hz, hd⟩ | ⟨hz, hd⟩
      all_goals rw [hz] at hzi hzl hgz
      all_goals rw [hd] at hzl
      · rw [if_pos (show levelN g s0.idx > levelN g s1.idx by omega)]
        dsimp only
        have hgd : (!s0.inv ||
            decide (levelN g s0.idx - levelN g s1.idx ≤ 3)) = false := by
          rw [hzi, decide_eq_false
            (show ¬(levelN g s0.idx - levelN g s1.idx ≤ 3) by omega)]
          rfl
        rw [hgd, if_neg Bool.false_ne_true, hgz]
        dsimp only
        rcases hwcp with ⟨hw, hc⟩ | ⟨hw, hc⟩
        all_goals rw [hw] at hwi hwl hgw
        all_goals rw [hc] at hwl
        · rw [if_pos (show levelN g t0.idx > levelN g t1.idx by omega)]
          dsimp only
          have hgw2 : (!t0.inv ||
              decide (levelN g t0.idx - levelN g t1.idx ≤ 0)) = false := by
            rw [hwi, decide_eq_false
              (show ¬(levelN g t0.idx - levelN g t1.idx ≤ 0) by omega)]
            rfl
          rw [hgw2, if_neg Bool.false_ne_true, hgw]
          dsimp only
          rcases hbap with ⟨hb, ha⟩ | ⟨hb, ha⟩
          all_goals rw [hb] at hbl
          all_goals rw [ha] at hbl
          · rw [if_pos (show levelN g u0.idx > levelN g u1.idx by omega)]
            dsimp only
            rw [if_neg (show ¬(levelN g u0.idx - levelN g u1.idx ≤ 0) by omega)]
            intro hx
            exact Option.noConfusion hx
          · rw [if_neg (show ¬(levelN g u0.idx > levelN g u1.idx) by omega)]
            dsimp only
            rw [if_neg (show ¬(levelN g u1.idx - levelN g u0.idx ≤ 0) by omega)]
            intro hx
            exact Option.noConfusion hx
        · rw [if_neg (show ¬(levelN g t0.idx > levelN g t1.idx) by omega)]
          dsimp only
          have hgw2 : (!t1.inv ||
              decide (levelN g t1.idx - levelN g t0.idx ≤ 0)) = false := by
            rw [hwi, decide_eq_false
              (show ¬(levelN g t1.idx - levelN g t0.idx ≤ 0) by omega)]
            rfl
          rw [hgw2, if_neg Bool.false_ne_true, hgw]
          dsimp only
          rcases hbap with ⟨hb, ha⟩ | ⟨hb, ha⟩
          all_goals rw [hb] at hbl
          all_goals rw [ha] at hbl
          · rw [if_pos (show levelN g u0.idx > levelN g u1.idx by omega)]
            dsimp only
            rw [if_neg (show ¬(levelN g u0.idx - levelN g u1.idx ≤ 0) by omega)]
            intro hx
            exact Option.noConfusion hx
          · rw [if_neg (show ¬(levelN g u0.idx > levelN g u1.idx) by omega)]
            dsimp only
            rw [if_neg (show ¬(levelN g u1.idx - levelN g u0.idx ≤ 0) by omega)]
            intro hx
            exact Option.noConfusion hx
      · rw [if_neg (show ¬(levelN g s0.idx > levelN g s1.idx) by omega)]
        dsimp only
        have hgd : (!s1.inv ||
            decide (levelN g s1.idx - levelN g s0.idx ≤ 3)) = false := by
          rw [hzi, decide_eq_false
            (show ¬(levelN g s1.idx - levelN g s0.idx ≤ 3) by omega)]
          rfl
        rw [hgd, if_neg Bool.false_ne_true, hgz]
        dsimp only
        rcases hwcp with ⟨hw, hc⟩ | ⟨hw, hc⟩
        all_goals rw [hw] at hwi hwl hgw
        all_goals rw [hc] at hwl
        · rw [if_pos (show levelN g t0.idx > levelN g t1.idx by omega)]
          dsimp only
          have hgw2 : (!t0.inv ||
              decide (levelN g t0.idx - levelN g t1.idx ≤ 0)) = false := by
            rw [hwi, decide_eq_false
              (show ¬(levelN g t0.idx - levelN g t1.idx ≤ 0) by omega)]
            rfl
          rw [hgw2, if_neg Bool.false_ne_true, hgw]
          dsimp only
          rcases hbap with ⟨hb, ha⟩ | ⟨hb, ha⟩
          all_goals rw [hb] at hbl
          all_goals rw [ha] at hbl
          · rw [if_pos (show levelN g u0.idx > levelN g u1.idx by omega)]
            dsimp only
            rw [if_neg (show ¬(levelN g u0.idx - levelN g u1.idx ≤ 0) by omega)]
            intro hx
            exact Option.noConfusion hx
          · rw [if_neg (show ¬(levelN g u0.idx > levelN g u1.idx) by omega)]
            dsimp only
            rw [if_neg (show ¬(levelN g u1.idx - levelN g u0.idx ≤ 0) by omega)]
            intro hx
            exact Option.noConfusion hx
        · rw [if_neg (show ¬(levelN g t0.idx > levelN g t1.idx) by omega)]
          dsimp only
          have hgw2 : (!t1.inv ||
              decide (levelN g t1.idx - levelN g t0.idx ≤ 0)) = false := by
            rw [hwi, decide_eq_false
              (show ¬(levelN g t1.idx - levelN g t0.idx ≤ 0) by omega)]
            rfl
          rw [hgw2, if_neg Bool.false_ne_true, hgw]
          dsimp only
          rcases hbap with ⟨hb, ha⟩ | ⟨hb, ha⟩
          all_goals rw [hb] at hbl
          all_goals rw [ha] at hbl
          · rw [if_pos (show levelN g u0.idx > levelN g u1.idx by omega)]
            dsimp only
            rw [if_neg (show ¬(levelN g u0.idx - levelN g u1.idx ≤ 0) by omega)]
            intro hx
            exact Option.noConfusion hx
          · rw [if_neg (show ¬(levelN g u0.idx > levelN g u1.idx) by omega)]
            dsimp only
            rw [if_neg (show ¬(levelN g u1.idx - levelN g u0.idx ≤ 0) by omega)]
            intro hx
            exact Option.noConfusion hx
  · intro g2 s h
    exact tryDist3_fired h

/-- Witness for C6 (amended): the both-complemented node 6 of gW4. -/
theorem dist_demorgan_witness :
    ∃ gA rA gB rB,
      createNand gW4 (negSig ⟨1, false⟩) (negSig ⟨2, false⟩) = (gA, rA) ∧
      createAnd gA ⟨3, false⟩ rA = (gB, rB) ∧
      (⟨8, true⟩ : Sig) = negSig rB ∧
      (tryDistributivity gW4 6).1 = substituteNode gB 6 (negSig rB) ∧
      ∀ env, evalSig gB env (negSig rB) =
        !(evalSig gW4 env ⟨3, false⟩ &&
          !((!(evalSig gW4 env ⟨1, false⟩)) && (!(evalSig gW4 env ⟨2, false⟩)))) :=
  @dist_demorgan gW4 6 (tryDistributivity gW4 6).1 ⟨8, true⟩ ⟨4, true⟩ ⟨5, true⟩
    ⟨1, false⟩ ⟨3, false⟩ ⟨2, false⟩ ⟨3, false⟩ ⟨3, false⟩ ⟨1, false⟩
    ⟨3, false⟩ ⟨2, false⟩
    (netInv_of_checker gW4 (fun i => i) (by decide)) (by decide) (by decide)
    (show tryDistributivity gW4 6 =
      ((tryDistributivity gW4 6).1, some ⟨8, true⟩) by decide)
    (by decide) (by decide) (by decide) (by decide) (by decide) (by decide)
